import Mathlib

/-!
# The batched log-delivery pipeline of cloudtrail-filter

A shallow embedding of the vendored `cloudfront-cloudwatchlogs` packages
`parser`, `processor` and `pusher`, followed by the properties proved about them.

Conventions of the embedding:

* a Go `string` is a list of characters (`GoString`); the separators the code
  splits on (tab, slash, dot, hash) are single ASCII bytes, so splitting a
  valid UTF-8 string by bytes and by characters agree;
* a Go `error` is a value of `Error`, `nil` is `none`;
* the standard-library and SDK calls the code makes (`time.Parse`, `time.Now`,
  `sort.Slice`, the CloudWatch Logs client) are parameters of the definitions
  that use them.
-/

namespace Pipeline

/-! ## Strings -/

/-- A Go string, as its sequence of characters. -/
abbrev GoString := List Char

/-- The first occurrence of the one-byte separator `sep` in `s` cuts it into the
text before and the text after it (`strings.Index` followed by the two slices
`s[:m]` and `s[m+len(sep):]` of `genSplit`); `none` when `sep` does not occur. -/
def cutAt (sep : Char) : GoString → Option (GoString × GoString)
  | [] => none
  | c :: cs =>
    if c = sep then some ([], cs)
    else
      match cutAt sep cs with
      | some (a, b) => some (c :: a, b)
      | none => none

/-- The loop of `strings.genSplit` in the Go library for a one-byte separator: at most `n`
cuts are made, the last element is the unsplit remainder. -/
def genSplit (sep : Char) : Nat → GoString → List GoString
  | 0, s => [s]
  | n + 1, s =>
    match cutAt sep s with
    | some (a, rest) => a :: genSplit sep n rest
    | none => [s]

/-- The Go function `strings.SplitN(s, sep, n)`: at most `n` substrings, none at all for `n = 0`. -/
def SplitN (s : GoString) (sep : Char) (n : Nat) : List GoString :=
  if n = 0 then [] else genSplit sep (n - 1) s

/-- The Go function `strings.Split(s, sep)`: one substring more than there are separators. -/
def Split (s : GoString) (sep : Char) : List GoString :=
  genSplit sep (s.count sep) s

/-- The Go function `strings.Join(elems, sep)`. -/
def Join (elems : List GoString) (sep : GoString) : GoString :=
  sep.intercalate elems

/-- The Go function `strings.HasPrefix(s, p)`. -/
def HasPrefix (s p : GoString) : Bool :=
  p.isPrefixOf s

/-! ## Errors -/

/-- The Go error values that flow through the pipeline. `wrap` is an error that
wraps another one (`fmt.Errorf("...: %w", err)`, or the operation error of the SDK
around a service exception). -/
inductive Error where
  | unableToParseDate
  | timeParseError
  | InvalidSequenceTokenException (ExpectedSequenceToken : Option String)
  | DataAlreadyAcceptedException (ExpectedSequenceToken : Option String)
  | ResourceAlreadyExistsException
  | other (text : String)
  | wrap (context : String) (cause : Error)
  deriving DecidableEq, Repr

/-- The call `errors.As(err, &seqTokenError)` for `*InvalidSequenceTokenException`: the
first error of that type in the chain of `err`, as its expected token. -/
def asInvalidSequenceToken : Error → Option (Option String)
  | .InvalidSequenceTokenException t => some t
  | .wrap _ cause => asInvalidSequenceToken cause
  | _ => none

/-- The call `errors.As(err, &alreadyAccErr)` for `*DataAlreadyAcceptedException`. -/
def asDataAlreadyAccepted : Error → Option (Option String)
  | .DataAlreadyAcceptedException t => some t
  | .wrap _ cause => asDataAlreadyAccepted cause
  | _ => none

/-! ## Time -/

/-- A `time.Time`, as the number of nanoseconds between the Unix epoch and the
instant (negative before 1970). -/
structure Time where
  nanos : Int
  deriving DecidableEq, Repr

/-- The zero `time.Time{}`: January 1, year 1, 00:00:00 UTC. -/
def Time.zero : Time := ⟨-62135596800 * 1000000000⟩

/-- Two's-complement wrap of an integer into the range of `int64`. -/
def wrapInt64 (x : Int) : Int := (x + 2 ^ 63) % 2 ^ 64 - 2 ^ 63

/-- The Go method `t.UnixNano()`: computed in `int64`, so it wraps outside the years 1678..2262. -/
def Time.UnixNano (t : Time) : Int := wrapInt64 t.nanos

/-! ### A model of `time.Parse` for the layout of the access logs -/

/-- The `isDigit` helper of package `time`, on one character. -/
def isDigit (c : Char) : Bool := decide ('0' ≤ c ∧ c ≤ '9')

/-- The value of a decimal digit. -/
def digitVal (c : Char) : Nat := c.toNat - '0'.toNat

/-- The `getnum` helper of package `time`: a leading number of two digits, or of
one digit when `fixed` is false. -/
def getnum (s : GoString) (fixed : Bool) : Option (Nat × GoString) :=
  match s with
  | [] => none
  | [a] => if !isDigit a then none else if fixed then none else some (digitVal a, [])
  | a :: b :: rest =>
    if !isDigit a then none
    else if !isDigit b then (if fixed then none else some (digitVal a, b :: rest))
    else some (digitVal a * 10 + digitVal b, rest)

/-- Four leading digits, as `Parse` reads the year for `2006`. -/
def getYear (s : GoString) : Option (Nat × GoString) :=
  match s with
  | a :: b :: c :: d :: rest =>
    if isDigit a && isDigit b && isDigit c && isDigit d then
      some (digitVal a * 1000 + digitVal b * 100 + digitVal c * 10 + digitVal d, rest)
    else none
  | _ => none

/-- The `skip` helper of package `time` for a one-character literal of the layout
other than a space: the value must start with it. -/
def skipChar (c : Char) (s : GoString) : Option GoString :=
  match s with
  | d :: rest => if d = c then some rest else none
  | [] => none

/-- The `skip` helper of package `time` for the space of the layout: an empty
value passes, otherwise the value must start with a space and all its leading
spaces are cut. -/
def skipSpace (s : GoString) : Option GoString :=
  match s with
  | [] => some []
  | d :: rest => if d = ' ' then some (rest.dropWhile (· = ' ')) else none

/-- The decimal value of a run of digits. -/
def digitsVal (ds : List Char) : Nat := ds.foldl (fun n d => n * 10 + digitVal d) 0

/-- The fractional second `Parse` accepts after the seconds although the layout
has none: a period or comma followed by digits, of which nine are kept. Returns
the nanoseconds and the rest of the value. -/
def getFraction (s : GoString) : Nat × GoString :=
  match s with
  | p :: d :: rest =>
    if (p = '.' || p = ',') && isDigit d then
      let digits := (d :: rest).takeWhile isDigit
      let kept := digits.take 9
      (digitsVal kept * 10 ^ (9 - kept.length), (d :: rest).dropWhile isDigit)
    else (0, s)
  | _ => (0, s)

/-- The `daysIn` helper of package `time`. -/
def daysIn (month year : Nat) : Nat :=
  if month = 2 then
    (if year % 4 = 0 ∧ (year % 100 ≠ 0 ∨ year % 400 = 0) then 29 else 28)
  else if month = 4 ∨ month = 6 ∨ month = 9 ∨ month = 11 then 30
  else 31

/-- Days between 1970-01-01 and the given day of the proleptic Gregorian calendar. -/
def daysFromCivil (year month day : Nat) : Int :=
  let y : Int := if month ≤ 2 then (year : Int) - 1 else year
  let era : Int := y / 400
  let yoe : Int := y - era * 400
  let mp : Int := ((month : Int) + 9) % 12
  let doy : Int := (153 * mp + 2) / 5 + day - 1
  let doe : Int := yoe * 365 + yoe / 4 - yoe / 100 + doy
  era * 146097 + doe - 719468

/-- The calendar part `2006-01-02` of the layout: year, month, day and the rest of
the value. The day is checked against the month only after the whole value is read. -/
def parseDatePart (value : GoString) : Option (Nat × Nat × Nat × GoString) :=
  match getYear value with
  | none => none
  | some (year, value) =>
    match skipChar '-' value with
    | none => none
    | some value =>
      match getnum value true with
      | none => none
      | some (month, value) =>
        if month = 0 ∨ 12 < month then none
        else
          match skipChar '-' value with
          | none => none
          | some value =>
            match getnum value true with
            | none => none
            | some (day, value) => some (year, month, day, value)

/-- One `:04` or `:05` chunk of the layout: a colon and a two-digit number below 60. -/
def parseSixtieth (value : GoString) : Option (Nat × GoString) :=
  match skipChar ':' value with
  | none => none
  | some value =>
    match getnum value true with
    | none => none
    | some (n, value) => if 60 ≤ n then none else some (n, value)

/-- The clock part `15:04:05` of the layout: the second of the day, the
nanoseconds and the rest of the value. -/
def parseClockPart (value : GoString) : Option (Nat × Nat × GoString) :=
  match getnum value false with
  | none => none
  | some (hour, value) =>
    if 24 ≤ hour then none
    else
      match parseSixtieth value with
      | none => none
      | some (min, value) =>
        match parseSixtieth value with
        | none => none
        | some (sec, value) =>
          let (nsec, value) := getFraction value
          some (hour * 3600 + min * 60 + sec, nsec, value)

/-- The Go call `time.Parse("2006-01-02 15:04:05", value)`: four-digit year, two-digit
month and day, an hour of one or two digits, two-digit minute and second, an
optional fractional second, nothing after it; the result is in UTC. `none` is a
parse error. -/
def timeParseLayout (value : GoString) : Option Time :=
  match parseDatePart value with
  | none => none
  | some (year, month, day, value) =>
    match skipSpace value with
    | none => none
    | some value =>
      match parseClockPart value with
      | none => none
      | some (secOfDay, nsec, value) =>
        if value ≠ [] then none
        else if day < 1 ∨ daysIn month year < day then none
        else
          let secs : Int := daysFromCivil year month day * 86400 + secOfDay
          some ⟨secs * 1000000000 + nsec⟩

/-! ## package parser -/

/-- The function `ParseDateAndMessage` of `parser.go`. `timeParse` is
`time.Parse("2006-01-02 15:04:05", ·)`, `none` standing for a parse error (in which
case Go returns the zero time). -/
def ParseDateAndMessage (timeParse : GoString → Option Time) (line : GoString) :
    Time × GoString × Option Error :=
  let sep := '\t'
  let lineParts := SplitN line sep 3
  if lineParts.length < 3 then
    (Time.zero, [], some Error.unableToParseDate)
  else
    let value := lineParts.getD 0 [] ++ ' ' :: lineParts.getD 1 []
    let message := Join (lineParts.drop 2) [sep]
    match timeParse value with
    | some date => (date, message, none)
    | none => (Time.zero, message, some Error.timeParseError)

/-- The function `ParseLogGroupAndStream` of `parser.go`. -/
def ParseLogGroupAndStream (key : GoString) : GoString × GoString :=
  let keyParts := Split key '/'
  let filename := keyParts.getD (keyParts.length - 1) []
  let logGroup := Join (keyParts.take (keyParts.length - 1)) ['/']
  let logGroup := if !HasPrefix logGroup ['/'] then '/' :: logGroup else logGroup
  let filenameParts := Split filename '.'
  let logStream := Join (filenameParts.take (filenameParts.length - 1)) ['.']
  (logGroup, logStream)

/-! ## Calls that may not return -/

/-- How a call of a function that can recurse without bound ends when it is
given a finite budget of sink requests: it returned (with `nil` or an error), or
it is still running when the budget is used up. -/
inductive Outcome where
  | returned (err : Option Error)
  | running
  deriving DecidableEq, Repr

/-! ## package processor -/

/-- An `InputLogEvent` of the CloudWatch Logs SDK, both pointers set (as they are
in every event `ProcessLines` builds). -/
structure InputLogEvent where
  Message : GoString
  Timestamp : Int
  deriving DecidableEq, Repr

/-- The event the scanner loop of `ProcessLines` builds for a line that is neither
empty nor a comment; `now` is what `time.Now()` returns at that moment. -/
def lineEvent (timeParse : GoString → Option Time) (now : Time) (text : GoString) :
    InputLogEvent :=
  let (date, message, err) := ParseDateAndMessage timeParse text
  let date := if err.isSome then now else date
  { Message := message, Timestamp := Int.tdiv date.UnixNano 1000000 }

/-- The scanner loop of `ProcessLines` from line number `i` on. `clock i` is what
`time.Now()` returns while line `i` is processed; the callback `processEvent`
acts on a state of type `σ`. -/
def processLoop {σ : Type} (timeParse : GoString → Option Time) (clock : Nat → Time)
    (processEvent : σ → InputLogEvent → Outcome × σ) :
    Nat → List GoString → σ → Outcome × σ
  | _, [], s => (Outcome.returned none, s)
  | i, text :: rest, s =>
    if text.length < 1 then
      processLoop timeParse clock processEvent (i + 1) rest s
    else if HasPrefix text ['#'] then
      processLoop timeParse clock processEvent (i + 1) rest s
    else
      match processEvent s (lineEvent timeParse (clock i) text) with
      | (Outcome.returned (some e), s') =>
        (Outcome.returned (some (Error.wrap "failed to push log event" e)), s')
      | (Outcome.returned none, s') =>
        processLoop timeParse clock processEvent (i + 1) rest s'
      | (Outcome.running, s') => (Outcome.running, s')

/-- The function `ProcessLines` of `processor.go`, on the lines the scanner reads from a
validly compressed buffer. -/
def ProcessLines {σ : Type} (timeParse : GoString → Option Time) (clock : Nat → Time)
    (lines : List GoString) (processEvent : σ → InputLogEvent → Outcome × σ)
    (s : σ) : Outcome × σ :=
  processLoop timeParse clock processEvent 0 lines s

/-- A callback that records the events it is handed and always succeeds. -/
def recordEvent (log : List InputLogEvent) (event : InputLogEvent) :
    Outcome × List InputLogEvent :=
  (Outcome.returned none, log ++ [event])

/-- The events `ProcessLines` hands to its callback, in order, when the callback
always succeeds. -/
def eventsHanded (timeParse : GoString → Option Time) (clock : Nat → Time)
    (lines : List GoString) : List InputLogEvent :=
  (ProcessLines timeParse clock lines recordEvent []).2

/-- The input of the end-to-end example of the specification: two comment lines,
one line with fewer than three fields, and three well-formed lines with the times
10:00:00, 09:00:00 and 11:00:00. -/
def exampleLines : List GoString :=
  [ "#Version: 1.0".toList,
    "#Fields: date time x-edge-location".toList,
    "2024-01-01 malformed".toList,
    "2024-01-01\t10:00:00\tSYD1\tfirst".toList,
    "2024-01-01\t09:00:00\tSYD1\tsecond".toList,
    "2024-01-01\t11:00:00\tSYD1\tthird".toList ]

/-- A clock for the examples: every reading is 2024-01-02 00:00:00 UTC. -/
def exampleClock : Nat → Time := fun _ => ⟨1704153600000000000⟩

/-! ## package pusher -/

/-- The request of `PutLogEvents`. -/
structure PutLogEventsInput where
  LogEvents : List InputLogEvent
  LogGroupName : GoString
  LogStreamName : GoString
  SequenceToken : Option String
  deriving DecidableEq, Repr

/-- What the sink answers to a `PutLogEvents` request: an output carrying the
next sequence token, or an error. -/
inductive PutLogEventsResult where
  | ok (NextSequenceToken : Option String)
  | error (err : Error)
  deriving DecidableEq, Repr

/-- One `PutLogEvents` call, as the request sent and the answer received. -/
structure Call where
  input : PutLogEventsInput
  result : PutLogEventsResult
  deriving DecidableEq, Repr

/-- The sink behind the `CloudwatchLogsInterface` the pusher holds. Its behaviour
`respond` maps the requests received so far, the current one last, to the answer;
`calls` records the calls made through this client, oldest first. The histories
of one run are all different, so every sequence of answers that a sink can give
along a run is the behaviour of some `respond`. -/
structure CloudwatchLogsClient where
  respond : List PutLogEventsInput → PutLogEventsResult
  calls : List Call

/-- The requests the sink has received through this client. -/
def CloudwatchLogsClient.history (c : CloudwatchLogsClient) : List PutLogEventsInput :=
  c.calls.map Call.input

/-- The call `cwLogsClient.PutLogEvents(ctx, input)`: the sink answers and the call is
recorded. -/
def CloudwatchLogsClient.PutLogEvents (c : CloudwatchLogsClient) (input : PutLogEventsInput) :
    PutLogEventsResult × CloudwatchLogsClient :=
  let result := c.respond (c.history ++ [input])
  (result, { c with calls := c.calls ++ [⟨input, result⟩] })

/-- The `BatchLogPusher` struct, the logger left out; the mutex is the field `lock`
of `LockedPusher`. `batchSize` is a Go
`int`; `eventsSize` is an `int64` that cannot overflow on data held in memory. -/
structure BatchLogPusher where
  cwLogsClient : CloudwatchLogsClient
  batchSize : Int
  input : PutLogEventsInput
  eventsSize : Int

/-- The constructor `NewBatchLogPusher` of `pusher.go`. -/
def NewBatchLogPusher (cwLogsClient : CloudwatchLogsClient) (group stream : GoString)
    (batchSize : Int) : BatchLogPusher :=
  { cwLogsClient := cwLogsClient
    batchSize := batchSize
    input :=
      { LogEvents := []
        LogGroupName := group
        LogStreamName := stream
        SequenceToken := none }
    eventsSize := 0 }

/-- The number of bytes of a Go string (`len(s)`), in UTF-8. -/
def byteLen (s : GoString) : Nat := (s.map Char.utf8Size).sum

/-- The method `updateEventsSize`. -/
def BatchLogPusher.updateEventsSize (p : BatchLogPusher) (event : InputLogEvent) :
    BatchLogPusher :=
  let line : Int := byteLen event.Message
  { p with eventsSize := p.eventsSize + line }

/-- The method `calculatePayloadSize`; `Flush` only logs its result. -/
def BatchLogPusher.calculatePayloadSize (p : BatchLogPusher) : Int :=
  let bytesOverhead : Int := (p.input.LogEvents.length + 1) * 26
  p.eventsSize + bytesOverhead

/-- The method `clearEvents`. -/
def BatchLogPusher.clearEvents (p : BatchLogPusher) : BatchLogPusher :=
  { p with input := { p.input with LogEvents := [] }, eventsSize := 0 }

/-- The `less` closure `sortEvents` hands to `sort.Slice`, on the elements at the
two indices. -/
def timestampLess (a b : InputLogEvent) : Bool := decide (a.Timestamp < b.Timestamp)

/-- The type of `sort.Slice` on a slice of events, the comparison given on elements. -/
abbrev SliceSorter :=
  (InputLogEvent → InputLogEvent → Bool) → List InputLogEvent → List InputLogEvent

/-- The method `sortEvents`; `sortSlice` is `sort.Slice` of the standard library. -/
def BatchLogPusher.sortEvents (sortSlice : SliceSorter) (p : BatchLogPusher) : BatchLogPusher :=
  { p with input := { p.input with LogEvents := sortSlice timestampLess p.input.LogEvents } }

/-- The method `putLogEvents`, with a budget of `fuel` requests to the sink: the Go function
calls itself again after every token conflict and has no bound of its own. -/
def BatchLogPusher.putLogEvents : Nat → BatchLogPusher → Outcome × BatchLogPusher
  | 0, p => (Outcome.running, p)
  | fuel + 1, p =>
    let (res, client) := p.cwLogsClient.PutLogEvents p.input
    let p := { p with cwLogsClient := client }
    match res with
    | PutLogEventsResult.error err =>
      match asInvalidSequenceToken err with
      | some expected =>
        putLogEvents fuel { p with input := { p.input with SequenceToken := expected } }
      | none =>
        match asDataAlreadyAccepted err with
        | some expected =>
          putLogEvents fuel { p with input := { p.input with SequenceToken := expected } }
        | none => (Outcome.returned (some err), p)
    | PutLogEventsResult.ok next =>
      (Outcome.returned none, { p with input := { p.input with SequenceToken := next } })

/-- The method `Flush`. An empty batch returns at once; otherwise the batch is
sorted and sent, and cleared only when `putLogEvents` returns `nil`. (The payload
size `Flush` computes first is only written to the log.) -/
def BatchLogPusher.Flush (sortSlice : SliceSorter) (fuel : Nat) (p : BatchLogPusher) :
    Outcome × BatchLogPusher :=
  if p.input.LogEvents.length = 0 then (Outcome.returned none, p)
  else
    let p := p.sortEvents sortSlice
    match p.putLogEvents fuel with
    | (Outcome.returned none, p) => (Outcome.returned none, p.clearEvents)
    | (o, p) => (o, p)

/-- The method `Add`. A batch that has reached `batchSize` is flushed first, and an
error of that flush is returned before the event is appended. -/
def BatchLogPusher.Add (sortSlice : SliceSorter) (fuel : Nat) (p : BatchLogPusher)
    (event : InputLogEvent) : Outcome × BatchLogPusher :=
  let (o, p) :=
    if (p.input.LogEvents.length : Int) ≥ p.batchSize then p.Flush sortSlice fuel
    else (Outcome.returned none, p)
  match o with
  | Outcome.returned none =>
    let p := { p with input := { p.input with LogEvents := p.input.LogEvents ++ [event] } }
    (Outcome.returned none, p.updateEventsSize event)
  | o => (o, p)

/-! ### The contract of `sort.Slice` -/

/-- What `sort.Slice` requires of its `less` argument: a strict weak ordering. -/
structure StrictWeakOrder (less : InputLogEvent → InputLogEvent → Bool) : Prop where
  irrefl : ∀ a, less a a = false
  trans : ∀ a b c, less a b = true → less b c = true → less a c = true
  negTrans : ∀ a b c, less a b = false → less b c = false → less a c = false

/-- What `sort.Slice` guarantees: it only rearranges the slice, and for a strict
weak ordering no element of the result is less than an earlier one. It promises
nothing about the order of elements that compare equal. -/
structure SortsSlices (sortSlice : SliceSorter) : Prop where
  perm : ∀ less l, (sortSlice less l).Perm l
  sorted : ∀ less l, StrictWeakOrder less →
    (sortSlice less l).Pairwise (fun a b => less b a = false)

/-- The inner loop of `insertionSortLessFunc` in the Go library: the new element moves left past
every element it is less than. `sorted` is the part already sorted, last element
first. -/
def insertLeft (less : InputLogEvent → InputLogEvent → Bool) (x : InputLogEvent) :
    List InputLogEvent → List InputLogEvent
  | [] => [x]
  | y :: ys => if less x y then y :: insertLeft less x ys else x :: y :: ys

/-- The Go library function `insertionSortLessFunc`, the algorithm `sort.Slice` runs on slices of at
most twelve elements. -/
def insertionSort : SliceSorter :=
  fun less l => (l.foldl (fun sorted x => insertLeft less x sorted) []).reverse

/-! ### Runs of a pusher -/

/-- A call of one of the two exported methods that change the batch. -/
inductive Op where
  | Add (event : InputLogEvent)
  | Flush
  deriving DecidableEq, Repr

/-- One call on the pusher, with the budget of sink requests it may use. -/
def BatchLogPusher.call (sortSlice : SliceSorter) (p : BatchLogPusher) (c : Nat × Op) :
    Outcome × BatchLogPusher :=
  match c.2 with
  | Op.Add event => p.Add sortSlice c.1 event
  | Op.Flush => p.Flush sortSlice c.1

/-- A sequence of calls on the pusher, one after the other: the outcome of each
call made and the state reached. A call that does not return within its budget
is the last one. -/
def runCalls (sortSlice : SliceSorter) :
    List (Nat × Op) → BatchLogPusher → List Outcome × BatchLogPusher
  | [], p => ([], p)
  | c :: rest, p =>
    match p.call sortSlice c with
    | (Outcome.running, p') => ([Outcome.running], p')
    | (Outcome.returned err, p') =>
      let (os, q) := runCalls sortSlice rest p'
      (Outcome.returned err :: os, q)

/-- The events of the `Add` calls that returned `nil`. -/
def addedEvents : List (Nat × Op) → List Outcome → List InputLogEvent
  | (_, Op.Add event) :: cs, Outcome.returned none :: os => event :: addedEvents cs os
  | _ :: cs, _ :: os => addedEvents cs os
  | _, _ => []

/-- The expected token of a token-conflict error, as `putLogEvents` extracts it:
`InvalidSequenceTokenException` is looked for first, then
`DataAlreadyAcceptedException`; `none` for every other error. -/
def conflictToken (err : Error) : Option (Option String) :=
  match asInvalidSequenceToken err with
  | some expected => some expected
  | none => asDataAlreadyAccepted err

/-- The answer is a token conflict. -/
def PutLogEventsResult.isConflict : PutLogEventsResult → Bool
  | PutLogEventsResult.ok _ => false
  | PutLogEventsResult.error err => (conflictToken err).isSome

/-- The answer is an error other than a token conflict. -/
def PutLogEventsResult.isFatal : PutLogEventsResult → Bool
  | PutLogEventsResult.ok _ => false
  | PutLogEventsResult.error err => (conflictToken err).isNone

/-- The events of the requests the sink accepted, in the order of the requests. -/
def acceptedEvents : List Call → List InputLogEvent
  | [] => []
  | c :: cs =>
    match c.result with
    | PutLogEventsResult.ok _ => c.input.LogEvents ++ acceptedEvents cs
    | PutLogEventsResult.error _ => acceptedEvents cs

/-- The token the sink supplied in its answer to a call: the next token of a
success, the expected token of a conflict, and for any other error none, so that
the token of the request stays the current one. -/
def Call.tokenAfter (c : Call) : Option String :=
  match c.result with
  | PutLogEventsResult.ok next => next
  | PutLogEventsResult.error err =>
    match conflictToken err with
    | some expected => expected
    | none => c.input.SequenceToken

/-- Starting from the token `t`, every call of the list carries the token left by
the call before it (the first one carries `t`), and the last call leaves `t'`. -/
def TokenChain : Option String → List Call → Option String → Prop
  | t, [], t' => t = t'
  | t, c :: cs, t' => c.input.SequenceToken = t ∧ TokenChain c.tokenAfter cs t'

/-- The calls made through the client of `q` that were not yet made in `p`, for a
state `q` reached from `p`. -/
def issuedCalls (p q : BatchLogPusher) : List Call :=
  q.cwLogsClient.calls.drop p.cwLogsClient.calls.length

/-- What one run of `putLogEvents` from state `p` does, as seen from outside: it
ends with outcome `o` in state `q` after the calls `new`. -/
structure PutRun (p : BatchLogPusher) (o : Outcome) (q : BatchLogPusher)
    (new : List Call) : Prop where
  calls : q.cwLogsClient.calls = p.cwLogsClient.calls ++ new
  respond : q.cwLogsClient.respond = p.cwLogsClient.respond
  batchSize : q.batchSize = p.batchSize
  eventsSize : q.eventsSize = p.eventsSize
  events : q.input.LogEvents = p.input.LogEvents
  group : q.input.LogGroupName = p.input.LogGroupName
  stream : q.input.LogStreamName = p.input.LogStreamName
  requests : ∀ c ∈ new, c.input.LogEvents = p.input.LogEvents
    ∧ c.input.LogGroupName = p.input.LogGroupName
    ∧ c.input.LogStreamName = p.input.LogStreamName
  chain : TokenChain p.input.SequenceToken new q.input.SequenceToken
  accepted : acceptedEvents new = if o = Outcome.returned none then p.input.LogEvents else []
  fatal : ∀ c ∈ new, ∀ e, c.result = PutLogEventsResult.error e → conflictToken e = none →
    o = Outcome.returned (some e)
  failed : ∀ e, o = Outcome.returned (some e) →
    conflictToken e = none ∧ ∃ c ∈ new, c.result = PutLogEventsResult.error e
  succeeded : o = Outcome.returned none → new ≠ []

/-- What one call of `Flush` on state `p` does, as seen from outside: it ends with
outcome `o` in state `q` after the calls `new`. -/
structure FlushRun (sortSlice : SliceSorter) (p : BatchLogPusher) (o : Outcome)
    (q : BatchLogPusher) (new : List Call) : Prop where
  calls : q.cwLogsClient.calls = p.cwLogsClient.calls ++ new
  respond : q.cwLogsClient.respond = p.cwLogsClient.respond
  batchSize : q.batchSize = p.batchSize
  group : q.input.LogGroupName = p.input.LogGroupName
  stream : q.input.LogStreamName = p.input.LogStreamName
  requests : ∀ c ∈ new, c.input.LogEvents = sortSlice timestampLess p.input.LogEvents
    ∧ c.input.LogGroupName = p.input.LogGroupName
    ∧ c.input.LogStreamName = p.input.LogStreamName
  chain : TokenChain p.input.SequenceToken new q.input.SequenceToken
  empty : p.input.LogEvents = [] → o = Outcome.returned none ∧ q = p ∧ new = []
  flushed : p.input.LogEvents ≠ [] → o = Outcome.returned none →
    q.input.LogEvents = [] ∧ q.eventsSize = 0 ∧ new ≠ []
      ∧ acceptedEvents new = sortSlice timestampLess p.input.LogEvents
  kept : o ≠ Outcome.returned none →
    q.input.LogEvents = sortSlice timestampLess p.input.LogEvents
      ∧ q.eventsSize = p.eventsSize ∧ acceptedEvents new = []
  fatal : ∀ c ∈ new, ∀ e, c.result = PutLogEventsResult.error e → conflictToken e = none →
    o = Outcome.returned (some e)
  failed : ∀ e, o = Outcome.returned (some e) →
    conflictToken e = none ∧ ∃ c ∈ new, c.result = PutLogEventsResult.error e

/-- What one call of `Add` with the event `e` on state `p` does, as seen from
outside: it ends with outcome `o` in state `q` after the calls `new`. -/
structure AddRun (sortSlice : SliceSorter) (p : BatchLogPusher) (e : InputLogEvent)
    (o : Outcome) (q : BatchLogPusher) (new : List Call) : Prop where
  calls : q.cwLogsClient.calls = p.cwLogsClient.calls ++ new
  respond : q.cwLogsClient.respond = p.cwLogsClient.respond
  batchSize : q.batchSize = p.batchSize
  group : q.input.LogGroupName = p.input.LogGroupName
  stream : q.input.LogStreamName = p.input.LogStreamName
  requests : ∀ c ∈ new, c.input.LogEvents = sortSlice timestampLess p.input.LogEvents
    ∧ c.input.LogGroupName = p.input.LogGroupName
    ∧ c.input.LogStreamName = p.input.LogStreamName
  chain : TokenChain p.input.SequenceToken new q.input.SequenceToken
  room : (p.input.LogEvents.length : Int) < p.batchSize →
    o = Outcome.returned none ∧ new = [] ∧ q.input.LogEvents = p.input.LogEvents ++ [e]
      ∧ q.eventsSize = p.eventsSize + byteLen e.Message
  flushed : p.batchSize ≤ (p.input.LogEvents.length : Int) → o = Outcome.returned none →
    q.input.LogEvents = [e]
      ∧ acceptedEvents new = (if p.input.LogEvents = [] then []
          else sortSlice timestampLess p.input.LogEvents)
      ∧ q.eventsSize = (if p.input.LogEvents = [] then p.eventsSize else 0)
          + byteLen e.Message
  kept : o ≠ Outcome.returned none →
    p.batchSize ≤ (p.input.LogEvents.length : Int) ∧ p.input.LogEvents ≠ []
      ∧ q.input.LogEvents = sortSlice timestampLess p.input.LogEvents
      ∧ q.eventsSize = p.eventsSize ∧ acceptedEvents new = []
  fatal : ∀ c ∈ new, ∀ err, c.result = PutLogEventsResult.error err →
    conflictToken err = none → o = Outcome.returned (some err)
  failed : ∀ err, o = Outcome.returned (some err) →
    conflictToken err = none ∧ ∃ c ∈ new, c.result = PutLogEventsResult.error err

/-- A sink that accepts every request. -/
def acceptingSink : List PutLogEventsInput → PutLogEventsResult :=
  fun _ => PutLogEventsResult.ok (some "next")

/-- A sink that expects the token `T2` with every request: it accepts a request
that carries it, and rejects any other one with a token conflict naming `T2`. -/
def expectingSink : List PutLogEventsInput → PutLogEventsResult :=
  fun h =>
    match h.getLast? with
    | some req =>
      if req.SequenceToken = some "T2" then PutLogEventsResult.ok (some "T3")
      else PutLogEventsResult.error
        (Error.wrap "operation error CloudWatch Logs: PutLogEvents"
          (Error.InvalidSequenceTokenException (some "T2")))
    | none => PutLogEventsResult.ok none

/-- A sink that fails every request with an error that is no token conflict. -/
def failingSink : List PutLogEventsInput → PutLogEventsResult :=
  fun _ => PutLogEventsResult.error (Error.other "ServiceUnavailableException")

/-- The three well-formed events of the end-to-end example, in the order of the
lines: 10:00:00, 09:00:00 and 11:00:00 of 2024-01-01, in milliseconds. -/
def exampleEvents : List InputLogEvent :=
  [ { Message := "SYD1\tfirst".toList, Timestamp := 1704103200000 },
    { Message := "SYD1\tsecond".toList, Timestamp := 1704099600000 },
    { Message := "SYD1\tthird".toList, Timestamp := 1704106800000 } ]

/-- The last of the three events of the example. -/
def exampleThird : InputLogEvent :=
  { Message := "SYD1\tthird".toList, Timestamp := 1704106800000 }

/-- A pusher that holds the three events of the example, with the stored token
`tok` and the sink behaviour `respond`. -/
def examplePusher (respond : List PutLogEventsInput → PutLogEventsResult)
    (tok : Option String) : BatchLogPusher :=
  { cwLogsClient := { respond := respond, calls := [] }
    batchSize := 10
    input :=
      { LogEvents := exampleEvents
        LogGroupName := "/logs/2024/01".toList
        LogStreamName := "01".toList
        SequenceToken := tok }
    eventsSize := 31 }

/-- The calls of the examples: the three events are added, then the batch is
flushed, every call with a budget of `fuel` requests. -/
def exampleOps (fuel : Nat) : List (Nat × Op) :=
  exampleEvents.map (fun e => (fuel, Op.Add e)) ++ [(fuel, Op.Flush)]

/-- A sink that reports a token conflict on the first request it ever receives
and accepts every later one. -/
def conflictingOnceSink : List PutLogEventsInput → PutLogEventsResult :=
  fun h =>
    if h.length = 1 then
      PutLogEventsResult.error (Error.DataAlreadyAcceptedException (some "T2"))
    else PutLogEventsResult.ok (some "T3")

/-- The number of token conflicts the sink reports along the request history `h`. -/
def conflictCount (respond : List PutLogEventsInput → PutLogEventsResult)
    (h : List PutLogEventsInput) : Nat :=
  ((List.range h.length).filter fun i => (respond (h.take (i + 1))).isConflict).length

/-- The clock as the lines that are neither empty nor comments see it: reading `j`
of `keptClock clock lines` is the reading of `clock` at the position in `lines`
of the line that is number `j` among those lines. -/
def keptClock (clock : Nat → Time) : List GoString → Nat → Time
  | [] => clock
  | text :: rest =>
    if decide (text ≠ []) && !HasPrefix text ['#'] then
      fun j =>
        match j with
        | 0 => clock 0
        | j + 1 => keptClock (fun k => clock (k + 1)) rest j
    else keptClock (fun k => clock (k + 1)) rest

/-! ### Creating the destination -/

/-- The call `errors.As(err, &awsErr)` for `*ResourceAlreadyExistsException`: whether
an error of that type is in the chain of `err`. -/
def asResourceAlreadyExists : Error → Bool
  | .ResourceAlreadyExistsException => true
  | .wrap _ cause => asResourceAlreadyExists cause
  | _ => false

/-- The method `CreateLogGroup`. `createLogGroup` is what the sink answers to
`cwLogsClient.CreateLogGroup` for a group name: `nil` or an error. The method
only reads the client of the pusher, so the pusher comes back as it was. -/
def BatchLogPusher.CreateLogGroup (createLogGroup : GoString → Option Error)
    (p : BatchLogPusher) (group : GoString) : Option Error × BatchLogPusher :=
  match createLogGroup group with
  | some err => if asResourceAlreadyExists err then (none, p) else (some err, p)
  | none => (none, p)

/-- The method `CreateLogStream`. `createLogStream` is what the sink answers to
`cwLogsClient.CreateLogStream` for a group and a stream name. -/
def BatchLogPusher.CreateLogStream (createLogStream : GoString → GoString → Option Error)
    (p : BatchLogPusher) (group stream : GoString) : Option Error × BatchLogPusher :=
  match createLogStream group stream with
  | some err => if asResourceAlreadyExists err then (none, p) else (some err, p)
  | none => (none, p)

/-- A sink in which the group `/logs` exists already and no other group can be
created for want of permission. -/
def exampleCreateLogGroup : GoString → Option Error :=
  fun group =>
    if group = "/logs".toList then
      some (Error.wrap "operation error CloudWatch Logs: CreateLogGroup"
        Error.ResourceAlreadyExistsException)
    else some (Error.other "AccessDeniedException")

/-- A sink that creates every stream but `01` of the group `/logs`, which exists
already. -/
def exampleCreateLogStream : GoString → GoString → Option Error :=
  fun group stream =>
    if group = "/logs".toList ∧ stream = "01".toList then
      some Error.ResourceAlreadyExistsException
    else none

/-! ### A sort that meets the contract of `sort.Slice` without being stable -/

/-- The elements of two lists are compared pair by pair, and a pair is swapped
when the element of the second list is less than the one of the first. -/
def swapPairs (less : InputLogEvent → InputLogEvent → Bool) :
    List InputLogEvent → List InputLogEvent → List InputLogEvent × List InputLogEvent
  | a :: as, b :: bs =>
    let (xs, ys) := swapPairs less as bs
    if less b a then (b :: xs, a :: ys) else (a :: xs, b :: ys)
  | as, bs => (as, bs)

/-- One ShellSort pass with gap 6 over a slice of at most twelve elements: for `i`
from 6 on, the elements at `i` and `i - 6` are swapped when the first is less
than the second. The pairs do not overlap, so the pass compares the first six
elements with the ones after them. -/
def shellPass (less : InputLogEvent → InputLogEvent → Bool) (l : List InputLogEvent) :
    List InputLogEvent :=
  (swapPairs less (l.take 6) (l.drop 6)).1 ++ (swapPairs less (l.take 6) (l.drop 6)).2

/-- A ShellSort pass with gap 6 followed by insertion sort, the way the Go library
sorted slices of at most twelve elements before it adopted pattern-defeating
quicksort. It sorts, and it can change the order of elements that compare equal. -/
def shellInsertionSort : SliceSorter :=
  fun less l => insertionSort less (shellPass less l)

/-- Seven events, the first two with the same timestamp. -/
def tieEvents : List InputLogEvent :=
  [ { Message := "a".toList, Timestamp := 5 },
    { Message := "b".toList, Timestamp := 5 },
    { Message := "c".toList, Timestamp := 2 },
    { Message := "d".toList, Timestamp := 3 },
    { Message := "e".toList, Timestamp := 4 },
    { Message := "f".toList, Timestamp := 6 },
    { Message := "g".toList, Timestamp := 1 } ]

/-- A pusher of batch size ten that holds the seven events of `tieEvents` in the
order in which they are listed, in front of a sink that accepts every request. -/
def tiePusher : BatchLogPusher :=
  { cwLogsClient := { respond := acceptingSink, calls := [] }
    batchSize := 10
    input :=
      { LogEvents := tieEvents
        LogGroupName := "/logs".toList
        LogStreamName := "01".toList
        SequenceToken := none }
    eventsSize := 7 }

/-! ## package iamutils -/

/-- The constant `TagKeyRole`. -/
def TagKeyRole : GoString := "skpr.io/role".toList

/-- A tag of an IAM user, both pointers set. -/
structure Tag where
  Key : GoString
  Value : GoString
  deriving DecidableEq, Repr

/-- An ARN as `awsarn.Parse` of the SDK returns it. -/
structure ARN where
  Partition : GoString
  Service : GoString
  Region : GoString
  AccountID : GoString
  Resource : GoString
  deriving DecidableEq, Repr

/-- The function `awsarn.Parse` of the SDK: the text must begin with `arn:` and
have six sections separated by colons, the last of which, the resource, may hold
colons itself. -/
def arnParse (arn : GoString) : Except Error ARN :=
  if !HasPrefix arn "arn:".toList then Except.error (Error.other "arn: invalid prefix")
  else
    let sections := SplitN arn ':' 6
    if sections.length ≠ 6 then Except.error (Error.other "arn: not enough sections")
    else
      Except.ok
        { Partition := sections.getD 1 []
          Service := sections.getD 2 []
          Region := sections.getD 3 []
          AccountID := sections.getD 4 []
          Resource := sections.getD 5 [] }

/-- What the tag service answers to a `ListUserTags` request. -/
inductive ListUserTagsResult where
  | ok (Tags : List Tag)
  | error (err : Error)
  deriving DecidableEq, Repr

/-- One `ListUserTags` call, as the user name asked for and the answer. -/
structure TagCall where
  UserName : GoString
  result : ListUserTagsResult
  deriving DecidableEq, Repr

/-- The tag service behind the `IAM` interface of the client. Its behaviour
`respond` maps the user names asked for so far, the current one last, to the
answer; `calls` records the calls made, oldest first. -/
structure IAMService where
  respond : List GoString → ListUserTagsResult
  calls : List TagCall

/-- The call `c.iam.ListUserTags(ctx, input)`: the service answers and the call is
recorded. -/
def IAMService.ListUserTags (iam : IAMService) (username : GoString) :
    ListUserTagsResult × IAMService :=
  let result := iam.respond (iam.calls.map TagCall.UserName ++ [username])
  (result, { iam with calls := iam.calls ++ [⟨username, result⟩] })

/-- The `Client` struct of `client.go`. -/
structure Client where
  iam : IAMService
  Users : List GoString
  NotUsers : List GoString

/-- The constructor `NewClient`. -/
def NewClient (iam : IAMService) : Client :=
  { iam := iam, Users := [], NotUsers := [] }

/-- The helper `contains` of `utils.go`. -/
def contains : List GoString → GoString → Bool
  | [], _ => false
  | a :: s, e => if a = e then true else contains s e

/-- The helper `hasTag` of `utils.go`. -/
def hasTag : List Tag → GoString → Bool
  | [], _ => false
  | tag :: tags, key => if tag.Key = key then true else hasTag tags key

/-- The helper `extractUsernameFromARN` of `utils.go`; `parse` is `awsarn.Parse`.
The two errors it builds itself wrap a `nil` error. -/
def extractUsernameFromARN (parse : GoString → Except Error ARN) (arn : GoString) :
    GoString × Option Error :=
  match parse arn with
  | Except.error err => ([], some (Error.wrap "failed to parse ARN" err))
  | Except.ok a =>
    let sl := Split a.Resource '/'
    if sl.length ≠ 2 then ([], some (Error.other "failed to parse ARN: %!w(<nil>)"))
    else if sl.getD 0 [] ≠ "user".toList then
      ([], some (Error.other "failed to parse ARN: %!w(<nil>)"))
    else (sl.getD 1 [], none)

/-- The method `IsUser` of `client.go`, which calls itself once the answer of the
tag service is noted; `fuel` bounds the depth of these calls, and `none` means
that the bound was reached. -/
def Client.IsUser (parse : GoString → Except Error ARN) :
    Nat → Client → GoString → Option ((Bool × Option Error) × Client)
  | 0, _, _ => none
  | fuel + 1, c, arn =>
    match extractUsernameFromARN parse arn with
    | (_, some err) => some ((true, some (Error.wrap "failed to extract username" err)), c)
    | (username, none) =>
      if contains c.NotUsers arn then some ((false, none), c)
      else if contains c.Users arn then some ((true, none), c)
      else
        match c.iam.ListUserTags username with
        | (ListUserTagsResult.error err, iam) =>
          some ((false, some (Error.wrap "failed to list user tags" err)), { c with iam := iam })
        | (ListUserTagsResult.ok tags, iam) =>
          if hasTag tags TagKeyRole then
            Client.IsUser parse fuel { c with iam := iam, Users := c.Users ++ [arn] } arn
          else
            Client.IsUser parse fuel { c with iam := iam, NotUsers := c.NotUsers ++ [arn] } arn

/-- A tag service in which the user `alice` bears the role tag and every other
user has no tags. -/
def exampleTagService : List GoString → ListUserTagsResult :=
  fun h =>
    if h.getLast? = some "alice".toList then
      ListUserTagsResult.ok [⟨"team".toList, "platform".toList⟩,
        ⟨"skpr.io/role".toList, "developer".toList⟩]
    else ListUserTagsResult.ok []

/-! ### Sinks that keep reporting conflicts -/

/-- The error `putLogEvents` returns when the answer `res` of the sink ends its
retries: `nil` for a success, the error of the answer otherwise. -/
def PutLogEventsResult.toError : PutLogEventsResult → Option Error
  | PutLogEventsResult.ok _ => none
  | PutLogEventsResult.error err => some err

/-- A sink that answers every request with a token conflict. -/
def alwaysConflictSink : List PutLogEventsInput → PutLogEventsResult :=
  fun _ => PutLogEventsResult.error (Error.InvalidSequenceTokenException (some "T0"))

/-- A sink that answers the first two requests it ever receives with a token
conflict and fails the third with an error that is no token conflict. -/
def conflictingThenFailingSink : List PutLogEventsInput → PutLogEventsResult :=
  fun h =>
    if h.length ≤ 2 then
      PutLogEventsResult.error (Error.InvalidSequenceTokenException (some "T2"))
    else PutLogEventsResult.error (Error.other "ServiceUnavailableException")

/-! ## package cloudtrail -/

/-- The constant `UserIdentityTypeIAM`. -/
def UserIdentityTypeIAM : GoString := "IAMUser".toList

/-- The `UserIdentity` struct; the field `Type_` is the Go field `Type`, a word
Lean keeps for itself. -/
structure UserIdentity where
  ARN : GoString
  Type_ : GoString
  deriving DecidableEq, Repr

/-- The `Record` struct. -/
structure Record where
  UserIdentity : UserIdentity
  deriving DecidableEq, Repr

/-- The `LogFile` struct; `α` is the type of the values held in the
`[]interface{}` of the records. -/
structure LogFile (α : Type) where
  Records : List α
  deriving DecidableEq, Repr

/-! ## package handler -/

/-- One `IsUser` call, as the ARN asked about and the two values returned. -/
structure IsUserCall where
  arn : GoString
  ok : Bool
  err : Option Error
  deriving DecidableEq, Repr

/-- An implementation of the `IAM` interface of the handler. Its behaviour
`respond` maps the ARNs asked about so far, the current one last, to the two
values `IsUser` returns; `calls` records the calls made, oldest first. -/
structure IAM where
  respond : List GoString → Bool × Option Error
  calls : List IsUserCall

/-- The call `h.iam.IsUser(ctx, arn)`: the implementation answers and the call is
recorded. -/
def IAM.IsUser (iam : IAM) (arn : GoString) : (Bool × Option Error) × IAM :=
  let result := iam.respond (iam.calls.map IsUserCall.arn ++ [arn])
  ((result.1, result.2), { iam with calls := iam.calls ++ [⟨arn, result.1, result.2⟩] })

/-- The loop of `filterRecords` over the records still to come, with the
implementation of `IAM` and the file `filtered` as they stand. `jsonMarshal` and
`jsonUnmarshal` are `json.Marshal` on a record and `json.Unmarshal` into a
`cloudtrail.Record` of the library. -/
def filterLoop {α β : Type} (jsonMarshal : α → Except Error β)
    (jsonUnmarshal : β → Except Error Record) :
    List α → IAM → LogFile α → (LogFile α × Option Error) × IAM
  | [], iam, filtered => ((filtered, none), iam)
  | r :: rest, iam, filtered =>
    match jsonMarshal r with
    | Except.error err => ((filtered, some err), iam)
    | Except.ok bodyBytes =>
      match jsonUnmarshal bodyBytes with
      | Except.error err => ((filtered, some err), iam)
      | Except.ok record =>
        if record.UserIdentity.Type_ ≠ UserIdentityTypeIAM then
          filterLoop jsonMarshal jsonUnmarshal rest iam filtered
        else
          match iam.IsUser record.UserIdentity.ARN with
          | ((_, some err), iam) =>
            ((filtered,
              some (Error.wrap "failed to determine if ARN belongs to a platform user" err)),
              iam)
          | ((ok, none), iam) =>
            if !ok then filterLoop jsonMarshal jsonUnmarshal rest iam filtered
            else
              filterLoop jsonMarshal jsonUnmarshal rest iam
                { filtered with Records := filtered.Records ++ [r] }

/-- The method `filterRecords` of the handler: the file returned, the error
returned, and the implementation of `IAM` after the calls made. -/
def filterRecords {α β : Type} (jsonMarshal : α → Except Error β)
    (jsonUnmarshal : β → Except Error Record) (iam : IAM) (original : LogFile α) :
    (LogFile α × Option Error) × IAM :=
  filterLoop jsonMarshal jsonUnmarshal original.Records iam { Records := [] }

/-- The two library calls at the head of the loop body, one after the other: the
record as `json.Unmarshal` leaves it, or the error of the call that failed. -/
def roundTrip {α β : Type} (jsonMarshal : α → Except Error β)
    (jsonUnmarshal : β → Except Error Record) (r : α) : Except Error Record :=
  match jsonMarshal r with
  | Except.error err => Except.error err
  | Except.ok bodyBytes => jsonUnmarshal bodyBytes

/-- The calls made on the implementation `after` that were not yet made on
`before`, for a state `after` reached from `before`. -/
def consulted (before after : IAM) : List IsUserCall :=
  after.calls.drop before.calls.length

/-! ### A model of `encoding/json` on the records -/

/-- A value as `json.Unmarshal` stores it in an `interface{}`, written as the JSON
text `json.Marshal` gives for it: the members of an object stand in the order of
that text, a number is its literal. -/
inductive JSONValue where
  | null
  | bool (b : Bool)
  | number (literal : GoString)
  | string (s : GoString)
  | array (items : List JSONValue)
  | object (members : List (GoString × JSONValue))

/-- The call `json.Marshal` on such a value: it cannot fail, and its text is
the value itself. -/
def marshalValue (v : JSONValue) : Except Error JSONValue := Except.ok v

/-- The folding of one character of a key, by which `encoding/json` matches keys to
field names without regard to case: an ASCII letter becomes its capital, and so
do the two other characters that fold to one, the long s and the Kelvin sign. -/
def foldRune (c : Char) : Char :=
  if 'a'.toNat ≤ c.toNat ∧ c.toNat ≤ 'z'.toNat then Char.ofNat (c.toNat - 32)
  else if c.toNat = 0x17F then 'S'
  else if c.toNat = 0x212A then 'K'
  else c

/-- The key `key` of an object names the field whose JSON name is `name`. -/
def keyMatches (name : String) (key : GoString) : Bool :=
  key.map foldRune = name.toList.map foldRune

/-- The error `json.Unmarshal` returns when a JSON value does not fit the Go type
it is to be stored in. -/
def unmarshalTypeError : Error := Error.other "json: cannot unmarshal value into Go value"

/-- The decoding of the members of an object into a `UserIdentity` that holds `u`:
a string sets the field its key names, `null` leaves it, any other value for it
is an error; members with other keys are passed over. -/
def unmarshalUserIdentity : List (GoString × JSONValue) → UserIdentity →
    Except Error UserIdentity
  | [], u => Except.ok u
  | (key, v) :: rest, u =>
    if keyMatches "arn" key then
      match v with
      | JSONValue.string s => unmarshalUserIdentity rest { u with ARN := s }
      | JSONValue.null => unmarshalUserIdentity rest u
      | _ => Except.error unmarshalTypeError
    else if keyMatches "type" key then
      match v with
      | JSONValue.string s => unmarshalUserIdentity rest { u with Type_ := s }
      | JSONValue.null => unmarshalUserIdentity rest u
      | _ => Except.error unmarshalTypeError
    else unmarshalUserIdentity rest u

/-- The decoding of the members of an object into a `Record` that holds `record`:
an object under the key `userIdentity` is decoded into that field, `null` leaves
it, any other value for it is an error; members with other keys are passed
over. -/
def unmarshalMembers : List (GoString × JSONValue) → Record → Except Error Record
  | [], record => Except.ok record
  | (key, v) :: rest, record =>
    if keyMatches "userIdentity" key then
      match v with
      | JSONValue.object members =>
        match unmarshalUserIdentity members record.UserIdentity with
        | Except.ok u => unmarshalMembers rest { record with UserIdentity := u }
        | Except.error err => Except.error err
      | JSONValue.null => unmarshalMembers rest record
      | _ => Except.error unmarshalTypeError
    else unmarshalMembers rest record

/-- The call `json.Unmarshal(bodyBytes, &record)` on a fresh `record`: an object
is decoded member by member, `null` leaves the record as it is, and any other
value is an error. -/
def unmarshalRecord (bodyBytes : JSONValue) : Except Error Record :=
  match bodyBytes with
  | JSONValue.object members => unmarshalMembers members { UserIdentity := { ARN := [], Type_ := [] } }
  | JSONValue.null => Except.ok { UserIdentity := { ARN := [], Type_ := [] } }
  | _ => Except.error unmarshalTypeError

/-- A CloudTrail record with an event name and a user identity of the given type
and ARN. -/
def exampleRecord (event type_ arn : String) : JSONValue :=
  JSONValue.object
    [ ("eventName".toList, JSONValue.string event.toList),
      ("userIdentity".toList,
        JSONValue.object
          [ ("arn".toList, JSONValue.string arn.toList),
            ("type".toList, JSONValue.string type_.toList) ]) ]

/-- A log file of four records: two of the IAM user `alice`, one of an assumed
role between them, and one of the IAM user `mallory`. -/
def exampleLogFile : LogFile JSONValue :=
  { Records :=
      [ exampleRecord "CreateBucket" "IAMUser" "arn:aws:iam::123456789012:user/alice",
        exampleRecord "AssumeRole" "AssumedRole"
          "arn:aws:sts::123456789012:assumed-role/admin/session",
        exampleRecord "DeleteBucket" "IAMUser" "arn:aws:iam::123456789012:user/mallory",
        exampleRecord "PutObject" "IAMUser" "arn:aws:iam::123456789012:user/alice" ] }

/-- The record of the model that a JSON value decodes to, the empty record when
it does not decode. -/
def exampleRecordOf (v : JSONValue) : Record :=
  match unmarshalRecord v with
  | Except.ok record => record
  | Except.error _ => { UserIdentity := { ARN := [], Type_ := [] } }

/-- The platform users of the example: `alice` alone. -/
def exampleIsUser (arn : GoString) : Bool :=
  decide (arn = "arn:aws:iam::123456789012:user/alice".toList)

/-- An implementation of `IAM` that answers by `exampleIsUser` and never fails. -/
def exampleIAM : IAM :=
  { respond := fun h => (exampleIsUser (h.getLastD []), none), calls := [] }

/-- An implementation of `IAM` that fails on every ARN it is asked about. -/
def failingIAM : IAM :=
  { respond := fun _ => (false, some (Error.other "AccessDenied")), calls := [] }

/-- A log file whose one record has a string where the user identity should be. -/
def malformedLogFile : LogFile JSONValue :=
  { Records :=
      [ JSONValue.object
          [ ("eventName".toList, JSONValue.string "Ping".toList),
            ("userIdentity".toList, JSONValue.string "anonymous".toList) ] ] }

/-! ### The mutex of the pusher -/

/-- An operation on the field `lock` of the pusher. -/
inductive LockOp where
  | Lock
  | Unlock
  deriving DecidableEq, Repr

/-- A `sync.Mutex`: whether it is held, and the operations carried out on it,
oldest first. -/
structure Mutex where
  locked : Bool
  ops : List LockOp
  deriving DecidableEq, Repr

/-- The call `m.Lock()`: a free mutex is taken; on a held one the caller waits,
which is `none`. -/
def Mutex.Lock (m : Mutex) : Option Mutex :=
  if m.locked then none else some { locked := true, ops := m.ops ++ [LockOp.Lock] }

/-- The call `m.Unlock()`: a held mutex is released; on a free one the Go run time
stops the program, which is `none`. -/
def Mutex.Unlock (m : Mutex) : Option Mutex :=
  if m.locked then some { locked := false, ops := m.ops ++ [LockOp.Unlock] } else none

/-- The `BatchLogPusher` struct together with its field `lock`. -/
structure LockedPusher where
  pusher : BatchLogPusher
  lock : Mutex

/-- The method `Add` with its first two statements, `p.lock.Lock()` and
`defer p.lock.Unlock()`: the mutex is taken, the rest of the body runs, the `Flush`
it may call included, and the mutex is released when the body returns. A call
that waits for the mutex, or whose body does not return within its budget, has
not returned. -/
def LockedPusher.Add (sortSlice : SliceSorter) (fuel : Nat) (s : LockedPusher)
    (event : InputLogEvent) : Outcome × LockedPusher :=
  match s.lock.Lock with
  | none => (Outcome.running, s)
  | some lock =>
    match s.pusher.Add sortSlice fuel event with
    | (Outcome.running, p) => (Outcome.running, { pusher := p, lock := lock })
    | (Outcome.returned err, p) =>
      match lock.Unlock with
      | some lock => (Outcome.returned err, { pusher := p, lock := lock })
      | none => (Outcome.running, { pusher := p, lock := lock })

/-- The method `Flush` as it is exported: its body has no statement on the field
`lock`. -/
def LockedPusher.Flush (sortSlice : SliceSorter) (fuel : Nat) (s : LockedPusher) :
    Outcome × LockedPusher :=
  match s.pusher.Flush sortSlice fuel with
  | (o, p) => (o, { pusher := p, lock := s.lock })

/-- The pusher of the examples with a sink that accepts every request, at a
moment when another caller is inside `Add` and holds the mutex. -/
def heldPusher : LockedPusher :=
  { pusher := examplePusher acceptingSink none, lock := { locked := true, ops := [LockOp.Lock] } }

/-- The pusher of the examples with a sink that accepts every request and a free
mutex. -/
def freePusher : LockedPusher :=
  { pusher := examplePusher acceptingSink none, lock := { locked := false, ops := [] } }

/-! ## Splitting and joining -/

theorem cutAt_eq_none {sep : Char} {s : GoString} (h : sep ∉ s) : cutAt sep s = none := by
  induction s with
  | nil => rfl
  | cons c cs ih =>
    have hc : c ≠ sep := fun e => h (by simp [e])
    have hcs : sep ∉ cs := fun m => h (List.mem_cons_of_mem _ m)
    simp [cutAt, hc, ih hcs]

theorem cutAt_append {sep : Char} {a : GoString} (b : GoString) (h : sep ∉ a) :
    cutAt sep (a ++ sep :: b) = some (a, b) := by
  induction a with
  | nil => simp [cutAt]
  | cons c cs ih =>
    have hc : c ≠ sep := fun e => h (by simp [e])
    have hcs : sep ∉ cs := fun m => h (List.mem_cons_of_mem _ m)
    simp [cutAt, hc, ih hcs]

theorem cutAt_some {sep : Char} {s a b : GoString} (h : cutAt sep s = some (a, b)) :
    s = a ++ sep :: b ∧ sep ∉ a := by
  induction s generalizing a with
  | nil => simp [cutAt] at h
  | cons c cs ih =>
    by_cases hc : c = sep
    · simp [cutAt, hc] at h
      obtain ⟨rfl, rfl⟩ := h
      simp [hc]
    · cases hr : cutAt sep cs with
      | none => simp [cutAt, hc, hr] at h
      | some r =>
        obtain ⟨a', b'⟩ := r
        simp [cutAt, hc, hr] at h
        obtain ⟨rfl, rfl⟩ := h
        obtain ⟨e, hn⟩ := ih hr
        refine ⟨by simp [e], ?_⟩
        intro m
        rcases List.mem_cons.1 m with m | m
        · exact hc m.symm
        · exact hn m

theorem cutAt_none_free {sep : Char} {s : GoString} (h : cutAt sep s = none) : sep ∉ s := by
  induction s with
  | nil => simp
  | cons c cs ih =>
    by_cases hc : c = sep
    · simp [cutAt, hc] at h
    · cases hr : cutAt sep cs with
      | none =>
        intro m
        rcases List.mem_cons.1 m with m | m
        · exact hc m.symm
        · exact ih hr m
      | some r => simp [cutAt, hc, hr] at h

theorem Join_cons_cons (sep a b : GoString) (l : List GoString) :
    Join (a :: b :: l) sep = a ++ sep ++ Join (b :: l) sep := by
  simp [Join, List.intercalate, List.intersperse]

theorem Join_singleton (sep a : GoString) : Join [a] sep = a := by
  simp [Join, List.intercalate, List.intersperse]

theorem Join_nil (sep : GoString) : Join [] sep = [] := by
  simp [Join, List.intercalate, List.intersperse]

theorem genSplit_ne_nil (sep : Char) (n : Nat) (s : GoString) : genSplit sep n s ≠ [] := by
  cases n with
  | zero => simp [genSplit]
  | succ n =>
    cases h : cutAt sep s with
    | none => simp [genSplit, h]
    | some r => simp [genSplit, h]

theorem Join_genSplit (sep : Char) (n : Nat) (s : GoString) :
    Join (genSplit sep n s) [sep] = s := by
  induction n generalizing s with
  | zero => simp [genSplit, Join_singleton]
  | succ n ih =>
    cases h : cutAt sep s with
    | none => simp [genSplit, h, Join_singleton]
    | some r =>
      obtain ⟨a, b⟩ := r
      obtain ⟨e, _⟩ := cutAt_some h
      simp only [genSplit, h]
      cases hg : genSplit sep n b with
      | nil => exact absurd hg (genSplit_ne_nil sep n b)
      | cons x xs =>
        rw [Join_cons_cons, ← hg, ih b, e]
        simp

theorem genSplit_Join (sep : Char) (p : GoString) (ps : List GoString) (n : Nat)
    (hn : ps.length ≤ n) (hfree : ∀ q ∈ p :: ps, sep ∉ q) :
    genSplit sep n (Join (p :: ps) [sep]) = p :: ps := by
  induction ps generalizing p n with
  | nil =>
    have hp : sep ∉ p := hfree p (by simp)
    cases n with
    | zero => simp [genSplit, Join_singleton]
    | succ n => simp [genSplit, Join_singleton, cutAt_eq_none hp]
  | cons q qs ih =>
    have hp : sep ∉ p := hfree p (by simp)
    cases n with
    | zero => simp at hn
    | succ n =>
      have hc : cutAt sep (Join (p :: q :: qs) [sep]) = some (p, Join (q :: qs) [sep]) := by
        rw [Join_cons_cons]
        simpa using cutAt_append (Join (q :: qs) [sep]) hp
      simp only [genSplit, hc]
      rw [ih q n (by simpa using hn) (fun r hr => hfree r (List.mem_cons_of_mem _ hr))]

theorem count_Join (sep : Char) (p : GoString) (ps : List GoString)
    (hfree : ∀ q ∈ p :: ps, sep ∉ q) :
    (Join (p :: ps) [sep]).count sep = ps.length := by
  induction ps generalizing p with
  | nil =>
    have hp : sep ∉ p := hfree p (by simp)
    simp [Join_singleton, List.count_eq_zero.2 hp]
  | cons q qs ih =>
    have hp : sep ∉ p := hfree p (by simp)
    rw [Join_cons_cons]
    simp [List.count_append, List.count_eq_zero.2 hp,
      ih q (fun r hr => hfree r (List.mem_cons_of_mem _ hr))]

theorem Split_Join (sep : Char) (p : GoString) (ps : List GoString)
    (hfree : ∀ q ∈ p :: ps, sep ∉ q) :
    Split (Join (p :: ps) [sep]) sep = p :: ps := by
  unfold Split
  rw [count_Join sep p ps hfree]
  exact genSplit_Join sep p ps ps.length (Nat.le_refl _) hfree

theorem genSplit_free (sep : Char) (n : Nat) (s : GoString) (hn : s.count sep ≤ n) :
    ∀ q ∈ genSplit sep n s, sep ∉ q := by
  induction n generalizing s with
  | zero =>
    intro q hq
    simp [genSplit] at hq
    subst hq
    exact List.count_eq_zero.1 (Nat.le_zero.1 hn)
  | succ n ih =>
    intro q hq
    cases h : cutAt sep s with
    | none =>
      simp [genSplit, h] at hq
      subst hq
      exact cutAt_none_free h
    | some r =>
      obtain ⟨a, b⟩ := r
      obtain ⟨e, ha⟩ := cutAt_some h
      simp [genSplit, h] at hq
      rcases hq with rfl | hq
      · exact ha
      · refine ih b ?_ q hq
        subst e
        simp [List.count_append, List.count_eq_zero.2 ha] at hn
        omega

theorem Join_append_singleton (sep p e : GoString) (ps : List GoString) :
    Join (p :: ps ++ [e]) sep = Join (p :: ps) sep ++ sep ++ e := by
  induction ps generalizing p with
  | nil => simp [Join_cons_cons, Join_singleton]
  | cons q qs ih =>
    have h := ih q
    simp only [List.cons_append] at h ⊢
    rw [Join_cons_cons, h, Join_cons_cons]
    simp

theorem Join_cons_eq_append (sep p : GoString) (ps : List GoString) :
    ∃ rest, Join (p :: ps) sep = p ++ rest := by
  cases ps with
  | nil => exact ⟨[], by simp [Join_singleton]⟩
  | cons q qs => exact ⟨sep ++ Join (q :: qs) sep, by simp [Join_cons_cons]⟩

theorem take_length_append_singleton {α : Type} (l : List α) (a : α) :
    (l ++ [a]).take ((l ++ [a]).length - 1) = l := by
  simp

theorem getD_length_append_singleton {α : Type} (l : List α) (a d : α) :
    (l ++ [a]).getD ((l ++ [a]).length - 1) d = a := by
  simp [List.getD_eq_getElem?_getD]

/-! ## The destination derived from the object key -/

/-- Claim C10. For a key `d1/.../dn/name.ext` with at least one directory, the
first of them non-empty, no slash inside any directory, the name or the
extension, and no dot inside the extension, `ParseLogGroupAndStream` returns the
group `/d1/.../dn` and the stream `name`, the file name without its last
extension only. -/
theorem ParseLogGroupAndStream_of_path (d1 : GoString) (ds : List GoString)
    (name ext : GoString) (hd1 : d1 ≠ []) (hdirs : ∀ d ∈ d1 :: ds, '/' ∉ d)
    (hname : '/' ∉ name) (hext : '/' ∉ ext) (hdot : '.' ∉ ext) :
    ParseLogGroupAndStream (Join (d1 :: ds ++ [name ++ '.' :: ext]) ['/'])
      = ('/' :: Join (d1 :: ds) ['/'], name) := by
  have hfile : '/' ∉ name ++ '.' :: ext := by
    intro m
    rcases List.mem_append.1 m with m | m
    · exact hname m
    · rcases List.mem_cons.1 m with m | m
      · exact absurd m (by decide)
      · exact hext m
  have hfree : ∀ q ∈ d1 :: (ds ++ [name ++ '.' :: ext]), '/' ∉ q := by
    intro q hq
    rcases List.mem_cons.1 hq with rfl | hq
    · exact hdirs _ (by simp)
    · rcases List.mem_append.1 hq with hq | hq
      · exact hdirs _ (List.mem_cons_of_mem _ hq)
      · rw [List.mem_singleton.1 hq]
        exact hfile
  have hsplit := Split_Join '/' d1 (ds ++ [name ++ '.' :: ext]) hfree
  -- the group never starts with a slash before one is put in front of it
  have hpre : HasPrefix (Join (d1 :: ds) ['/']) ['/'] = false := by
    obtain ⟨rest, hrest⟩ := Join_cons_eq_append ['/'] d1 ds
    rw [hrest]
    cases d1 with
    | nil => exact absurd rfl hd1
    | cons c cs =>
      have hc : '/' ≠ c := fun e => hdirs (c :: cs) (by simp) (e ▸ List.mem_cons_self _ _)
      simp [HasPrefix, List.isPrefixOf, hc]
  -- the file name splits into the pieces of the name followed by the extension
  have hpieces : ∀ q ∈ genSplit '.' (name.count '.') name, '.' ∉ q :=
    genSplit_free '.' _ name (Nat.le_refl _)
  have hjoin := Join_genSplit '.' (name.count '.') name
  cases hg : genSplit '.' (name.count '.') name with
  | nil => exact absurd hg (genSplit_ne_nil _ _ _)
  | cons p0 prest =>
    rw [hg] at hpieces hjoin
    have hfree2 : ∀ q ∈ p0 :: (prest ++ [ext]), '.' ∉ q := by
      intro q hq
      rcases List.mem_cons.1 hq with rfl | hq
      · exact hpieces _ (by simp)
      · rcases List.mem_append.1 hq with hq | hq
        · exact hpieces _ (List.mem_cons_of_mem _ hq)
        · rw [List.mem_singleton.1 hq]
          exact hdot
    have hfileJoin : name ++ '.' :: ext = Join (p0 :: (prest ++ [ext])) ['.'] := by
      have := Join_append_singleton ['.'] p0 ext prest
      simp only [List.cons_append] at this
      rw [this, hjoin]
      simp
    have hsplit2 := Split_Join '.' p0 (prest ++ [ext]) hfree2
    rw [← hfileJoin] at hsplit2
    have hk : Split (Join (d1 :: ds ++ [name ++ '.' :: ext]) ['/']) '/'
        = (d1 :: ds) ++ [name ++ '.' :: ext] := by
      simpa using hsplit
    have hf : Split (name ++ '.' :: ext) '.' = (p0 :: prest) ++ [ext] := by
      simpa using hsplit2
    unfold ParseLogGroupAndStream
    simp only [hk, take_length_append_singleton, getD_length_append_singleton, hpre, hf, hjoin]
    simp

/-- Claim C10, the example of the specification: the key `logs/2024/01/01.gz`
gives the group `/logs/2024/01` and the stream `01`. -/
theorem ParseLogGroupAndStream_of_path_witness :
    ParseLogGroupAndStream "logs/2024/01/01.gz".toList
      = ("/logs/2024/01".toList, "01".toList) :=
  ParseLogGroupAndStream_of_path "logs".toList ["2024".toList, "01".toList]
    "01".toList "gz".toList (by decide) (by decide) (by decide) (by decide) (by decide)

example : (eventsHanded timeParseLayout exampleClock exampleLines).length = 4 := by decide

/-! ## The scanner loop -/

theorem processLoop_record (timeParse : GoString → Option Time) (clock : Nat → Time)
    (i : Nat) (lines : List GoString) (log : List InputLogEvent) :
    processLoop timeParse clock recordEvent i lines log
      = (Outcome.returned none,
          log ++ (processLoop timeParse clock recordEvent i lines []).2) := by
  induction lines generalizing i log with
  | nil => simp [processLoop]
  | cons text rest ih =>
    by_cases h1 : text.length < 1
    · simp only [processLoop, h1, if_true]
      exact ih (i + 1) log
    · cases h2 : HasPrefix text ['#'] with
      | true =>
        simp only [processLoop, h1, h2, if_true, if_false]
        exact ih (i + 1) log
      | false =>
        simp only [processLoop, h1, h2, if_false, recordEvent, Bool.false_eq_true]
        rw [ih (i + 1) (log ++ [lineEvent timeParse (clock i) text]),
          ih (i + 1) ([] ++ [lineEvent timeParse (clock i) text])]
        simp

theorem processLoop_of_success {σ : Type} (timeParse : GoString → Option Time)
    (clock : Nat → Time) (f : σ → InputLogEvent → Outcome × σ)
    (hf : ∀ s e, (f s e).1 = Outcome.returned none) (i : Nat) (lines : List GoString)
    (s : σ) :
    processLoop timeParse clock f i lines s
      = (Outcome.returned none,
          ((processLoop timeParse clock recordEvent i lines []).2).foldl
            (fun s e => (f s e).2) s) := by
  induction lines generalizing i s with
  | nil => simp [processLoop]
  | cons text rest ih =>
    by_cases h1 : text.length < 1
    · simp only [processLoop, h1, if_true]
      exact ih (i + 1) s
    · cases h2 : HasPrefix text ['#'] with
      | true =>
        simp only [processLoop, h1, h2, if_true, if_false]
        exact ih (i + 1) s
      | false =>
        have hfs := hf s (lineEvent timeParse (clock i) text)
        simp only [processLoop, h1, h2, if_false, recordEvent, Bool.false_eq_true]
        have hpair : f s (lineEvent timeParse (clock i) text)
            = (Outcome.returned none, (f s (lineEvent timeParse (clock i) text)).2) :=
          Prod.ext hfs rfl
        rw [processLoop_record timeParse clock (i + 1) rest]
        simp only [List.nil_append, List.cons_append, List.foldl_cons]
        generalize f s (lineEvent timeParse (clock i) text) = r at hpair ⊢
        rw [hpair]
        simp only []
        rw [ih (i + 1)]

theorem processLoop_record_length (timeParse : GoString → Option Time) (clock : Nat → Time)
    (i : Nat) (lines : List GoString) :
    ((processLoop timeParse clock recordEvent i lines []).2).length
      = (lines.filter fun text => decide (text ≠ []) && !HasPrefix text ['#']).length := by
  induction lines generalizing i with
  | nil => simp [processLoop]
  | cons text rest ih =>
    by_cases h1 : text.length < 1
    · have hnil : text = [] := List.length_eq_zero.1 (by omega)
      simp only [processLoop, h1, if_true]
      rw [ih (i + 1)]
      simp [hnil]
    · have hne : text ≠ [] := fun e => h1 (by simp [e])
      cases h2 : HasPrefix text ['#'] with
      | true =>
        simp only [processLoop, h1, h2, if_true, if_false]
        rw [ih (i + 1)]
        simp [h2]
      | false =>
        simp only [processLoop, h1, h2, if_false, recordEvent, Bool.false_eq_true]
        rw [processLoop_record timeParse clock (i + 1) rest]
        simp [ih (i + 1), hne, h2]

theorem SplitN_short {text : GoString} (h : text.count '\t' < 2) :
    (SplitN text '\t' 3).length < 3 := by
  simp only [SplitN]
  cases h1 : cutAt '\t' text with
  | none => simp [genSplit, h1]
  | some r =>
    obtain ⟨a, b⟩ := r
    obtain ⟨e, ha⟩ := cutAt_some h1
    cases h2 : cutAt '\t' b with
    | none => simp [genSplit, h1, h2]
    | some r2 =>
      obtain ⟨c, d⟩ := r2
      obtain ⟨e2, _⟩ := cutAt_some h2
      subst e2
      subst e
      simp [List.count_append] at h
      omega

theorem SplitN_three {f1 f2 : GoString} (msg : GoString) (h1 : '\t' ∉ f1) (h2 : '\t' ∉ f2) :
    SplitN (f1 ++ '\t' :: (f2 ++ '\t' :: msg)) '\t' 3 = [f1, f2, msg] := by
  simp [SplitN, genSplit, cutAt_append _ h1, cutAt_append _ h2]

theorem wrapInt64_of_range {x : Int} (h0 : 0 ≤ x) (h1 : x < 2 ^ 63) : wrapInt64 x = x := by
  unfold wrapInt64
  have : (x + 2 ^ 63) % 2 ^ 64 = x + 2 ^ 63 := by
    apply Int.emod_eq_of_lt <;> omega
  omega

/-- Claim C1, as the code has it. For every callback that always succeeds,
`ProcessLines` hands it the events of `eventsHanded` one after the other and
returns `nil`; their number is the number of lines that are non-empty and do not
begin with `#`, whatever the number of their fields. A non-empty line without
`#` in front that has fewer than three tab-separated fields is not skipped: it
produces one event, with an empty message and the current time as timestamp. -/
theorem ProcessLines_event_count {σ : Type} (timeParse : GoString → Option Time)
    (clock : Nat → Time) (lines : List GoString) (f : σ → InputLogEvent → Outcome × σ)
    (s : σ) (text : GoString)
    (hf : ∀ s e, (f s e).1 = Outcome.returned none)
    (hne : text ≠ []) (hhash : HasPrefix text ['#'] = false)
    (hshort : text.count '\t' < 2) :
    ProcessLines timeParse clock lines f s
        = (Outcome.returned none,
            (eventsHanded timeParse clock lines).foldl (fun s e => (f s e).2) s)
      ∧ (eventsHanded timeParse clock lines).length
        = (lines.filter fun l => decide (l ≠ []) && !HasPrefix l ['#']).length
      ∧ eventsHanded timeParse clock [text]
        = [{ Message := [], Timestamp := Int.tdiv (clock 0).UnixNano 1000000 }] := by
  refine ⟨processLoop_of_success timeParse clock f hf 0 lines s,
    processLoop_record_length timeParse clock 0 lines, ?_⟩
  have h1 : ¬ text.length < 1 := by
    cases text with
    | nil => exact absurd rfl hne
    | cons c cs => simp
  have hs := SplitN_short hshort
  simp [eventsHanded, ProcessLines, processLoop, h1, hhash, recordEvent, lineEvent,
    ParseDateAndMessage, hs]

/-- Claim C1 at the example of the specification, with a recording callback: the
six lines produce four events, one of them for the line with too few fields. -/
theorem ProcessLines_event_count_witness :
    ProcessLines timeParseLayout exampleClock exampleLines recordEvent []
        = (Outcome.returned none,
            (eventsHanded timeParseLayout exampleClock exampleLines).foldl
              (fun s e => (recordEvent s e).2) [])
      ∧ (eventsHanded timeParseLayout exampleClock exampleLines).length
        = (exampleLines.filter fun l => decide (l ≠ []) && !HasPrefix l ['#']).length
      ∧ eventsHanded timeParseLayout exampleClock ["2024-01-01 malformed".toList]
        = [{ Message := [], Timestamp := Int.tdiv (exampleClock 0).UnixNano 1000000 }] :=
  ProcessLines_event_count timeParseLayout exampleClock exampleLines recordEvent []
    "2024-01-01 malformed".toList (fun _ _ => rfl) (by decide) (by decide) (by decide)

/-- Claim C1 as stated fails: on the example of the specification the callback
receives four events, while only three lines are non-empty, without `#` in front
and of at least three tab-separated fields. -/
theorem ProcessLines_event_count_counterexample :
    (eventsHanded timeParseLayout exampleClock exampleLines).length = 4
      ∧ (exampleLines.filter fun l =>
          decide (l ≠ []) && !HasPrefix l ['#'] && decide (2 ≤ l.count '\t')).length = 3
      ∧ (eventsHanded timeParseLayout exampleClock exampleLines).length
        ≠ (exampleLines.filter fun l =>
          decide (l ≠ []) && !HasPrefix l ['#'] && decide (2 ≤ l.count '\t')).length
      ∧ eventsHanded timeParseLayout exampleClock ["2024-01-01 malformed".toList]
        = [{ Message := [], Timestamp := 1704153600000 }] := by
  decide

/-- Claim C9. A line `f1 <tab> f2 <tab> msg` whose first two fields hold no tab,
which does not begin with `#` and whose `f1 f2` is not a date-time of the layout,
makes `ProcessLines` hand exactly one event to the callback, wherever the line
stands in the input and whatever the callback: its message is `msg`, the text
after the second tab, and its timestamp is the reading of the clock in
milliseconds, `UnixNano() / 1000000`; for a clock between 1970 and 2262 that is
the whole number of milliseconds since the Unix epoch. -/
theorem ProcessLines_unparseable_date {σ : Type} (timeParse : GoString → Option Time)
    (clock : Nat → Time) (f1 f2 msg : GoString) (f : σ → InputLogEvent → Outcome × σ)
    (i : Nat) (rest : List GoString) (s : σ)
    (h1 : '\t' ∉ f1) (h2 : '\t' ∉ f2)
    (hhash : HasPrefix (f1 ++ '\t' :: (f2 ++ '\t' :: msg)) ['#'] = false)
    (hdate : timeParse (f1 ++ ' ' :: f2) = none) :
    processLoop timeParse clock f i ((f1 ++ '\t' :: (f2 ++ '\t' :: msg)) :: rest) s
        = (match f s { Message := msg, Timestamp := Int.tdiv (clock i).UnixNano 1000000 } with
          | (Outcome.returned (some e), s') =>
            (Outcome.returned (some (Error.wrap "failed to push log event" e)), s')
          | (Outcome.returned none, s') => processLoop timeParse clock f (i + 1) rest s'
          | (Outcome.running, s') => (Outcome.running, s'))
      ∧ eventsHanded timeParse clock [f1 ++ '\t' :: (f2 ++ '\t' :: msg)]
        = [{ Message := msg, Timestamp := Int.tdiv (clock 0).UnixNano 1000000 }]
      ∧ (0 ≤ (clock i).nanos → (clock i).nanos < 2 ^ 63 →
          Int.tdiv (clock i).UnixNano 1000000 = (clock i).nanos / 1000000) := by
  have hs := SplitN_three msg h1 h2
  have hlen : ¬ (f1 ++ '\t' :: (f2 ++ '\t' :: msg)).length < 1 := by simp
  have hev : ∀ now, lineEvent timeParse now (f1 ++ '\t' :: (f2 ++ '\t' :: msg))
      = { Message := msg, Timestamp := Int.tdiv now.UnixNano 1000000 } := by
    intro now
    simp only [lineEvent, ParseDateAndMessage, hs]
    simp [hdate, Join_singleton]
  refine ⟨?_, ?_, ?_⟩
  · simp only [processLoop, hlen, hhash, if_false, Bool.false_eq_true, hev]
  · simp only [eventsHanded, ProcessLines, processLoop, hlen, hhash, if_false,
      Bool.false_eq_true, hev, recordEvent]
    simp
  · intro h0 hlt
    rw [Time.UnixNano, wrapInt64_of_range h0 hlt]
    exact Int.tdiv_eq_ediv h0 (by decide)

/-- Claim C9 at a line whose date field is not a date, read as the first line of
the input by a recording callback: one event, stamped with the clock. -/
theorem ProcessLines_unparseable_date_witness :
    processLoop timeParseLayout exampleClock recordEvent 0
        ("yesterday\tnoon\tSYD1\tGET /index.html".toList :: exampleLines) []
        = (match recordEvent []
              { Message := "SYD1\tGET /index.html".toList,
                Timestamp := Int.tdiv (exampleClock 0).UnixNano 1000000 } with
          | (Outcome.returned (some e), s') =>
            (Outcome.returned (some (Error.wrap "failed to push log event" e)), s')
          | (Outcome.returned none, s') =>
            processLoop timeParseLayout exampleClock recordEvent (0 + 1) exampleLines s'
          | (Outcome.running, s') => (Outcome.running, s'))
      ∧ eventsHanded timeParseLayout exampleClock ["yesterday\tnoon\tSYD1\tGET /index.html".toList]
        = [{ Message := "SYD1\tGET /index.html".toList,
             Timestamp := Int.tdiv (exampleClock 0).UnixNano 1000000 }]
      ∧ (0 ≤ (exampleClock 0).nanos → (exampleClock 0).nanos < 2 ^ 63 →
          Int.tdiv (exampleClock 0).UnixNano 1000000 = (exampleClock 0).nanos / 1000000) :=
  ProcessLines_unparseable_date timeParseLayout exampleClock "yesterday".toList "noon".toList
    "SYD1\tGET /index.html".toList recordEvent 0 exampleLines []
    (by decide) (by decide) (by decide) (by decide)

/-! ## One run of `putLogEvents` -/

theorem conflictToken_eq_none {err : Error} (h : conflictToken err = none) :
    asInvalidSequenceToken err = none ∧ asDataAlreadyAccepted err = none := by
  unfold conflictToken at h
  cases h1 : asInvalidSequenceToken err with
  | none => simpa [h1] using h
  | some t => simp [h1] at h

/-- One step of `putLogEvents`: the request is sent; a success stores the next
token, a token conflict stores the expected token and sends again, any other error
is returned. -/
theorem putLogEvents_succ (fuel : Nat) (p : BatchLogPusher) :
    p.putLogEvents (fuel + 1)
      = match p.cwLogsClient.respond (p.cwLogsClient.history ++ [p.input]) with
        | PutLogEventsResult.ok next =>
          (Outcome.returned none,
            { p with
              cwLogsClient := { p.cwLogsClient with
                calls := p.cwLogsClient.calls ++ [⟨p.input, PutLogEventsResult.ok next⟩] }
              input := { p.input with SequenceToken := next } })
        | PutLogEventsResult.error err =>
          match conflictToken err with
          | some expected =>
            BatchLogPusher.putLogEvents fuel
              { p with
                cwLogsClient := { p.cwLogsClient with
                  calls := p.cwLogsClient.calls ++ [⟨p.input, PutLogEventsResult.error err⟩] }
                input := { p.input with SequenceToken := expected } }
          | none =>
            (Outcome.returned (some err),
              { p with
                cwLogsClient := { p.cwLogsClient with
                  calls := p.cwLogsClient.calls
                    ++ [⟨p.input, PutLogEventsResult.error err⟩] } }) := by
  simp only [BatchLogPusher.putLogEvents, CloudwatchLogsClient.PutLogEvents]
  cases hres : p.cwLogsClient.respond (p.cwLogsClient.history ++ [p.input]) with
  | ok next => rfl
  | error err =>
    simp only [conflictToken]
    cases h1 : asInvalidSequenceToken err with
    | some t => rfl
    | none =>
      cases h2 : asDataAlreadyAccepted err with
      | some t => rfl
      | none => rfl

theorem putLogEvents_run (fuel : Nat) (p : BatchLogPusher) :
    ∃ new : List Call,
      PutRun p (p.putLogEvents fuel).1 (p.putLogEvents fuel).2 new
        ∧ new.length ≤ fuel
        ∧ ((p.putLogEvents fuel).1 = Outcome.running → new.length = fuel) := by
  induction fuel generalizing p with
  | zero =>
    refine ⟨[], ?_, by simp, by simp⟩
    constructor <;> simp [BatchLogPusher.putLogEvents, TokenChain, acceptedEvents]
  | succ fuel ih =>
    rw [putLogEvents_succ]
    cases hres : p.cwLogsClient.respond (p.cwLogsClient.history ++ [p.input]) with
    | ok next =>
      refine ⟨[⟨p.input, PutLogEventsResult.ok next⟩], ?_, by simp, by simp⟩
      constructor <;> simp [TokenChain, acceptedEvents, Call.tokenAfter]
    | error err =>
      dsimp only
      cases hc : conflictToken err with
      | none =>
        dsimp only
        refine ⟨[⟨p.input, PutLogEventsResult.error err⟩], ?_, by simp, by simp⟩
        constructor <;>
          simp +contextual [TokenChain, acceptedEvents, Call.tokenAfter, hc]
      | some expected =>
        dsimp only
        obtain ⟨new, hrun, hlen, hrunning⟩ := ih
          { p with
            cwLogsClient := { p.cwLogsClient with
              calls := p.cwLogsClient.calls ++ [⟨p.input, PutLogEventsResult.error err⟩] }
            input := { p.input with SequenceToken := expected } }
        refine ⟨⟨p.input, PutLogEventsResult.error err⟩ :: new, ?_, by simpa using hlen,
          fun h => by simpa using hrunning h⟩
        constructor
        · simpa using hrun.calls
        · simpa using hrun.respond
        · simpa using hrun.batchSize
        · simpa using hrun.eventsSize
        · simpa using hrun.events
        · simpa using hrun.group
        · simpa using hrun.stream
        · intro c hc'
          rcases List.mem_cons.1 hc' with rfl | hc'
          · simp
          · simpa using hrun.requests c hc'
        · refine ⟨rfl, ?_⟩
          simpa [Call.tokenAfter, hc] using hrun.chain
        · simpa [acceptedEvents] using hrun.accepted
        · intro c hc' e he hne
          rcases List.mem_cons.1 hc' with rfl | hc'
          · simp at he
            subst he
            simp [hc] at hne
          · exact hrun.fatal c hc' e he hne
        · intro e he
          obtain ⟨h1, c, hc', h2⟩ := hrun.failed e he
          exact ⟨h1, c, List.mem_cons_of_mem _ hc', h2⟩
        · intro _
          simp

/-! ## One call of `Flush` -/

theorem Flush_of_empty (sortSlice : SliceSorter) (fuel : Nat) (p : BatchLogPusher)
    (h : p.input.LogEvents = []) : p.Flush sortSlice fuel = (Outcome.returned none, p) := by
  simp [BatchLogPusher.Flush, h]

theorem Flush_of_nonempty (sortSlice : SliceSorter) (fuel : Nat) (p : BatchLogPusher)
    (h : p.input.LogEvents ≠ []) :
    p.Flush sortSlice fuel
      = if ((p.sortEvents sortSlice).putLogEvents fuel).1 = Outcome.returned none then
          (Outcome.returned none, ((p.sortEvents sortSlice).putLogEvents fuel).2.clearEvents)
        else (p.sortEvents sortSlice).putLogEvents fuel := by
  have hlen : ¬ p.input.LogEvents.length = 0 := fun e => h (List.length_eq_zero.1 e)
  simp only [BatchLogPusher.Flush, hlen, if_false]
  generalize (p.sortEvents sortSlice).putLogEvents fuel = r
  obtain ⟨o, q⟩ := r
  cases o with
  | running => simp
  | returned err =>
    cases err with
    | none => simp
    | some e => simp

theorem Flush_run (sortSlice : SliceSorter) (fuel : Nat) (p : BatchLogPusher) :
    ∃ new : List Call,
      FlushRun sortSlice p (p.Flush sortSlice fuel).1 (p.Flush sortSlice fuel).2 new
        ∧ new.length ≤ fuel
        ∧ (p.input.LogEvents ≠ [] → 1 ≤ fuel → new ≠ []) := by
  by_cases h : p.input.LogEvents = []
  · rw [Flush_of_empty sortSlice fuel p h]
    refine ⟨[], ?_, by simp, fun hne => absurd h hne⟩
    constructor <;> simp [TokenChain, h]
  · rw [Flush_of_nonempty sortSlice fuel p h]
    obtain ⟨new, hrun, hlen, hrunning⟩ := putLogEvents_run fuel (p.sortEvents sortSlice)
    have hissue : 1 ≤ fuel → new ≠ [] := by
      intro hf
      cases ho : ((p.sortEvents sortSlice).putLogEvents fuel).1 with
      | running =>
        intro e
        have := hrunning ho
        rw [e] at this
        simp at this
        omega
      | returned err =>
        cases err with
        | none => exact hrun.succeeded ho
        | some e =>
          obtain ⟨_, c, hc, _⟩ := hrun.failed e ho
          exact List.ne_nil_of_mem hc
    refine ⟨new, ?_, hlen, fun _ => hissue⟩
    by_cases ho : ((p.sortEvents sortSlice).putLogEvents fuel).1 = Outcome.returned none
    · simp only [ho, if_true]
      have hacc := hrun.accepted
      rw [if_pos ho] at hacc
      constructor
      · simpa [BatchLogPusher.clearEvents, BatchLogPusher.sortEvents] using hrun.calls
      · simpa [BatchLogPusher.clearEvents, BatchLogPusher.sortEvents] using hrun.respond
      · simpa [BatchLogPusher.clearEvents, BatchLogPusher.sortEvents] using hrun.batchSize
      · simpa [BatchLogPusher.clearEvents, BatchLogPusher.sortEvents] using hrun.group
      · simpa [BatchLogPusher.clearEvents, BatchLogPusher.sortEvents] using hrun.stream
      · simpa [BatchLogPusher.sortEvents] using hrun.requests
      · simpa [BatchLogPusher.clearEvents, BatchLogPusher.sortEvents] using hrun.chain
      · intro he
        exact absurd he h
      · intro _ _
        exact ⟨by simp [BatchLogPusher.clearEvents], by simp [BatchLogPusher.clearEvents],
          hrun.succeeded ho, by simpa [BatchLogPusher.sortEvents] using hacc⟩
      · intro hne
        exact absurd rfl hne
      · intro c hc e he hne
        have := hrun.fatal c hc e he hne
        rw [ho] at this
        exact this
      · intro e he
        simp at he
    · simp only [ho, if_false]
      have hacc := hrun.accepted
      rw [if_neg ho] at hacc
      constructor
      · simpa [BatchLogPusher.sortEvents] using hrun.calls
      · simpa [BatchLogPusher.sortEvents] using hrun.respond
      · simpa [BatchLogPusher.sortEvents] using hrun.batchSize
      · simpa [BatchLogPusher.sortEvents] using hrun.group
      · simpa [BatchLogPusher.sortEvents] using hrun.stream
      · simpa [BatchLogPusher.sortEvents] using hrun.requests
      · simpa [BatchLogPusher.sortEvents] using hrun.chain
      · intro he
        exact absurd he h
      · intro _ ho'
        exact absurd ho' ho
      · intro _
        exact ⟨by simpa [BatchLogPusher.sortEvents] using hrun.events,
          by simpa [BatchLogPusher.sortEvents] using hrun.eventsSize, hacc⟩
      · exact hrun.fatal
      · exact hrun.failed

/-! ## Sorting -/

theorem timestampLess_strictWeakOrder : StrictWeakOrder timestampLess := by
  constructor
  · intro a
    simp [timestampLess]
  · intro a b c h1 h2
    simp only [timestampLess, decide_eq_true_eq] at h1 h2 ⊢
    omega
  · intro a b c h1 h2
    simp only [timestampLess, decide_eq_false_iff_not] at h1 h2 ⊢
    omega

theorem insertLeft_perm (less : InputLogEvent → InputLogEvent → Bool) (x : InputLogEvent)
    (l : List InputLogEvent) : (insertLeft less x l).Perm (x :: l) := by
  induction l with
  | nil => simp [insertLeft]
  | cons y ys ih =>
    cases h : less x y with
    | true =>
      simp only [insertLeft, h, if_true]
      exact (List.Perm.cons y ih).trans (List.Perm.swap x y ys)
    | false =>
      simp [insertLeft, h]

theorem insertLeft_pairwise {less : InputLogEvent → InputLogEvent → Bool}
    (hless : StrictWeakOrder less) (x : InputLogEvent) (l : List InputLogEvent)
    (hl : l.Pairwise (fun a b => less a b = false)) :
    (insertLeft less x l).Pairwise (fun a b => less a b = false) := by
  induction l with
  | nil => simp [insertLeft]
  | cons y ys ih =>
    obtain ⟨hy, hys⟩ := List.pairwise_cons.1 hl
    cases h : less x y with
    | true =>
      simp only [insertLeft, h, if_true]
      refine List.pairwise_cons.2 ⟨?_, ih hys⟩
      intro z hz
      rcases List.mem_cons.1 ((insertLeft_perm less x ys).subset hz) with rfl | hz
      · cases hzy : less y z with
        | false => rfl
        | true =>
          have := hless.trans z y z h hzy
          rw [hless.irrefl z] at this
          exact absurd this (by simp)
      · exact hy z hz
    | false =>
      simp only [insertLeft, h, Bool.false_eq_true, if_false]
      refine List.pairwise_cons.2 ⟨?_, hl⟩
      intro z hz
      rcases List.mem_cons.1 hz with rfl | hz
      · exact h
      · exact hless.negTrans x y z h (hy z hz)

theorem foldl_insertLeft_perm (less : InputLogEvent → InputLogEvent → Bool)
    (l acc : List InputLogEvent) :
    (l.foldl (fun sorted x => insertLeft less x sorted) acc).Perm (l ++ acc) := by
  induction l generalizing acc with
  | nil => simp
  | cons x xs ih =>
    simp only [List.foldl_cons]
    refine (ih (insertLeft less x acc)).trans ?_
    refine (List.Perm.append_left xs (insertLeft_perm less x acc)).trans ?_
    simp

theorem foldl_insertLeft_pairwise {less : InputLogEvent → InputLogEvent → Bool}
    (hless : StrictWeakOrder less) (l acc : List InputLogEvent)
    (hacc : acc.Pairwise (fun a b => less a b = false)) :
    (l.foldl (fun sorted x => insertLeft less x sorted) acc).Pairwise
      (fun a b => less a b = false) := by
  induction l generalizing acc with
  | nil => exact hacc
  | cons x xs ih =>
    simp only [List.foldl_cons]
    exact ih _ (insertLeft_pairwise hless x acc hacc)

/-- Insertion sort meets the contract of `sort.Slice`. -/
theorem insertionSort_sorts : SortsSlices insertionSort := by
  constructor
  · intro less l
    unfold insertionSort
    refine (List.reverse_perm _).trans ?_
    simpa using foldl_insertLeft_perm less l []
  · intro less l hless
    unfold insertionSort
    rw [List.pairwise_reverse]
    exact foldl_insertLeft_pairwise hless l [] List.Pairwise.nil

theorem sorted_timestamps {sortSlice : SliceSorter} (hs : SortsSlices sortSlice)
    (l : List InputLogEvent) :
    (sortSlice timestampLess l).Pairwise (fun a b => a.Timestamp ≤ b.Timestamp) := by
  refine (hs.sorted timestampLess l timestampLess_strictWeakOrder).imp ?_
  intro a b h
  simp only [timestampLess, decide_eq_false_iff_not] at h
  omega

theorem issuedCalls_eq {p q : BatchLogPusher} {new : List Call}
    (h : q.cwLogsClient.calls = p.cwLogsClient.calls ++ new) : issuedCalls p q = new := by
  simp [issuedCalls, h]

/-! ## What a flush sends -/

theorem requests_of_Flush (sortSlice : SliceSorter) (hs : SortsSlices sortSlice)
    (fuel : Nat) (p : BatchLogPusher) (hne : p.input.LogEvents ≠ []) :
    (∀ c ∈ issuedCalls p (p.Flush sortSlice fuel).2,
        c.input.LogEvents.Perm p.input.LogEvents
          ∧ c.input.LogEvents.Pairwise (fun a b => a.Timestamp ≤ b.Timestamp))
      ∧ (1 ≤ fuel → issuedCalls p (p.Flush sortSlice fuel).2 ≠ []) := by
  obtain ⟨new, hrun, _, hissue⟩ := Flush_run sortSlice fuel p
  rw [issuedCalls_eq hrun.calls]
  refine ⟨?_, hissue hne⟩
  intro c hc
  rw [(hrun.requests c hc).1]
  exact ⟨hs.perm _ _, sorted_timestamps hs _⟩

/-- Claim C2. When `Flush` is called on a non-empty batch, against any sink and
with any budget of requests, every `PutLogEvents` request it issues carries a
permutation of the events that were buffered, in non-decreasing order of
timestamp; and it issues at least one request as soon as the budget allows one. -/
theorem Flush_requests_sorted (sortSlice : SliceSorter) (hs : SortsSlices sortSlice)
    (fuel : Nat) (p : BatchLogPusher) (hne : p.input.LogEvents ≠ []) :
    (∀ c ∈ issuedCalls p (p.Flush sortSlice fuel).2,
        c.input.LogEvents.Perm p.input.LogEvents
          ∧ c.input.LogEvents.Pairwise (fun a b => a.Timestamp ≤ b.Timestamp))
      ∧ (1 ≤ fuel → issuedCalls p (p.Flush sortSlice fuel).2 ≠ []) :=
  requests_of_Flush sortSlice hs fuel p hne

/-- Claim C2 at the example of the specification: the events added with the times
10:00:00, 09:00:00 and 11:00:00 are sent in one request, in the order 09:00:00,
10:00:00, 11:00:00. -/
theorem Flush_requests_sorted_witness :
    ((∀ c ∈ issuedCalls (examplePusher acceptingSink none)
          ((examplePusher acceptingSink none).Flush insertionSort 1).2,
        c.input.LogEvents.Perm (examplePusher acceptingSink none).input.LogEvents
          ∧ c.input.LogEvents.Pairwise (fun a b => a.Timestamp ≤ b.Timestamp))
      ∧ (1 ≤ 1 → issuedCalls (examplePusher acceptingSink none)
          ((examplePusher acceptingSink none).Flush insertionSort 1).2 ≠ []))
    ∧ (issuedCalls (examplePusher acceptingSink none)
          ((examplePusher acceptingSink none).Flush insertionSort 1).2).map
        (fun c => c.input.LogEvents.map InputLogEvent.Timestamp)
      = [[1704099600000, 1704103200000, 1704106800000]] :=
  ⟨Flush_requests_sorted insertionSort insertionSort_sorts 1 (examplePusher acceptingSink none)
    (by decide), by decide⟩

/-! ## Retrying after a token conflict -/

/-- Claim C3. The pusher holds a non-empty batch; the sink answers the first
request of `Flush` with a token conflict (an `InvalidSequenceTokenException` or a
`DataAlreadyAcceptedException`, possibly wrapped) whose expected token is `T2`,
and the next request with success. Then, with a budget of at least two requests,
`Flush` returns `nil` after exactly two calls: the first carries the sorted batch
and the stored token, the second the same events and names with the token `T2`;
the batch ends empty and the stored token is the next token of the success. -/
theorem Flush_retries_on_conflict (sortSlice : SliceSorter) (fuel : Nat)
    (p : BatchLogPusher) (err : Error) (T2 next : Option String)
    (hne : p.input.LogEvents ≠ []) (hfuel : 2 ≤ fuel)
    (h1 : p.cwLogsClient.respond (p.cwLogsClient.history ++ [(p.sortEvents sortSlice).input])
      = PutLogEventsResult.error err)
    (hconflict : conflictToken err = some T2)
    (h2 : p.cwLogsClient.respond
        (p.cwLogsClient.history ++ [(p.sortEvents sortSlice).input,
          { (p.sortEvents sortSlice).input with SequenceToken := T2 }])
      = PutLogEventsResult.ok next) :
    (p.Flush sortSlice fuel).1 = Outcome.returned none
      ∧ issuedCalls p (p.Flush sortSlice fuel).2
        = [ ⟨{ p.input with LogEvents := sortSlice timestampLess p.input.LogEvents },
              PutLogEventsResult.error err⟩,
            ⟨{ p.input with
                LogEvents := sortSlice timestampLess p.input.LogEvents
                SequenceToken := T2 },
              PutLogEventsResult.ok next⟩ ]
      ∧ (p.Flush sortSlice fuel).2.input.LogEvents = []
      ∧ (p.Flush sortSlice fuel).2.eventsSize = 0
      ∧ (p.Flush sortSlice fuel).2.input.SequenceToken = next := by
  obtain ⟨n, rfl⟩ : ∃ n, fuel = n + 2 := ⟨fuel - 2, by omega⟩
  have hrun : (p.sortEvents sortSlice).putLogEvents (n + 2)
      = (Outcome.returned none,
          { p with
            cwLogsClient := { p.cwLogsClient with
              calls := p.cwLogsClient.calls ++
                [ ⟨(p.sortEvents sortSlice).input, PutLogEventsResult.error err⟩,
                  ⟨{ (p.sortEvents sortSlice).input with SequenceToken := T2 },
                    PutLogEventsResult.ok next⟩ ] }
            input := { (p.sortEvents sortSlice).input with SequenceToken := next } }) := by
    have h1' : (p.sortEvents sortSlice).cwLogsClient.respond
        ((p.sortEvents sortSlice).cwLogsClient.history ++ [(p.sortEvents sortSlice).input])
        = PutLogEventsResult.error err := h1
    rw [putLogEvents_succ, h1']
    simp only [hconflict]
    rw [putLogEvents_succ]
    have h2' : p.cwLogsClient.respond
        (List.map Call.input (p.cwLogsClient.calls ++
            [⟨(p.sortEvents sortSlice).input, PutLogEventsResult.error err⟩])
          ++ [{ (p.sortEvents sortSlice).input with SequenceToken := T2 }])
        = PutLogEventsResult.ok next := by
      simpa [CloudwatchLogsClient.history] using h2
    simp only [CloudwatchLogsClient.history, BatchLogPusher.sortEvents] at h2' ⊢
    rw [h2']
    simp
  rw [Flush_of_nonempty sortSlice (n + 2) p hne, hrun]
  simp [issuedCalls, BatchLogPusher.clearEvents, BatchLogPusher.sortEvents]

/-- Claim C3 at the example of the specification: the pusher holds the token `T1`,
the sink expects `T2`; the flush retries with `T2` and succeeds. -/
theorem Flush_retries_on_conflict_witness :
    ((examplePusher expectingSink (some "T1")).Flush insertionSort 2).1 = Outcome.returned none
      ∧ issuedCalls (examplePusher expectingSink (some "T1"))
          ((examplePusher expectingSink (some "T1")).Flush insertionSort 2).2
        = [ ⟨{ (examplePusher expectingSink (some "T1")).input with
                LogEvents := insertionSort timestampLess
                  (examplePusher expectingSink (some "T1")).input.LogEvents },
              PutLogEventsResult.error
                (Error.wrap "operation error CloudWatch Logs: PutLogEvents"
                  (Error.InvalidSequenceTokenException (some "T2")))⟩,
            ⟨{ (examplePusher expectingSink (some "T1")).input with
                LogEvents := insertionSort timestampLess
                  (examplePusher expectingSink (some "T1")).input.LogEvents
                SequenceToken := some "T2" },
              PutLogEventsResult.ok (some "T3")⟩ ]
      ∧ ((examplePusher expectingSink (some "T1")).Flush insertionSort 2).2.input.LogEvents = []
      ∧ ((examplePusher expectingSink (some "T1")).Flush insertionSort 2).2.eventsSize = 0
      ∧ ((examplePusher expectingSink (some "T1")).Flush insertionSort 2).2.input.SequenceToken
        = some "T3" :=
  Flush_retries_on_conflict insertionSort 2 (examplePusher expectingSink (some "T1"))
    (Error.wrap "operation error CloudWatch Logs: PutLogEvents"
      (Error.InvalidSequenceTokenException (some "T2")))
    (some "T2") (some "T3") (by decide) (by decide) (by decide) (by decide) (by decide)

/-! ## One call of `Add` -/

theorem Add_of_room (sortSlice : SliceSorter) (fuel : Nat) (p : BatchLogPusher)
    (e : InputLogEvent) (h : (p.input.LogEvents.length : Int) < p.batchSize) :
    p.Add sortSlice fuel e
      = (Outcome.returned none,
          { p with
            input := { p.input with LogEvents := p.input.LogEvents ++ [e] }
            eventsSize := p.eventsSize + byteLen e.Message }) := by
  have h' : ¬ (p.input.LogEvents.length : Int) ≥ p.batchSize := by omega
  simp [BatchLogPusher.Add, h', BatchLogPusher.updateEventsSize]

theorem Add_of_full (sortSlice : SliceSorter) (fuel : Nat) (p : BatchLogPusher)
    (e : InputLogEvent) (h : p.batchSize ≤ (p.input.LogEvents.length : Int)) :
    p.Add sortSlice fuel e
      = if (p.Flush sortSlice fuel).1 = Outcome.returned none then
          (Outcome.returned none,
            { (p.Flush sortSlice fuel).2 with
              input := { (p.Flush sortSlice fuel).2.input with
                LogEvents := (p.Flush sortSlice fuel).2.input.LogEvents ++ [e] }
              eventsSize := (p.Flush sortSlice fuel).2.eventsSize + byteLen e.Message })
        else p.Flush sortSlice fuel := by
  have h' : (p.input.LogEvents.length : Int) ≥ p.batchSize := h
  simp only [BatchLogPusher.Add, h', if_true]
  generalize p.Flush sortSlice fuel = r
  obtain ⟨o, q⟩ := r
  cases o with
  | running => simp
  | returned err =>
    cases err with
    | none => simp [BatchLogPusher.updateEventsSize]
    | some e => simp

theorem Add_run (sortSlice : SliceSorter) (fuel : Nat) (p : BatchLogPusher)
    (e : InputLogEvent) :
    ∃ new : List Call,
      AddRun sortSlice p e (p.Add sortSlice fuel e).1 (p.Add sortSlice fuel e).2 new
        ∧ new.length ≤ fuel := by
  by_cases hroom : (p.input.LogEvents.length : Int) < p.batchSize
  · rw [Add_of_room sortSlice fuel p e hroom]
    refine ⟨[], ?_, by simp⟩
    constructor <;> first | (intro h; omega) | simp [TokenChain]
  · have hfull : p.batchSize ≤ (p.input.LogEvents.length : Int) := by omega
    rw [Add_of_full sortSlice fuel p e hfull]
    obtain ⟨new, hrun, hlen, _⟩ := Flush_run sortSlice fuel p
    refine ⟨new, ?_, hlen⟩
    by_cases ho : (p.Flush sortSlice fuel).1 = Outcome.returned none
    · simp only [ho, if_true]
      constructor
      · simpa using hrun.calls
      · simpa using hrun.respond
      · simpa using hrun.batchSize
      · simpa using hrun.group
      · simpa using hrun.stream
      · exact hrun.requests
      · simpa using hrun.chain
      · intro h
        exact absurd h hroom
      · intro _ _
        by_cases hemp : p.input.LogEvents = []
        · obtain ⟨_, hq, hnew⟩ := hrun.empty hemp
          simp [hq, hnew, hemp, acceptedEvents]
        · obtain ⟨hev, hsz, _, hacc⟩ := hrun.flushed hemp ho
          simp [hev, hsz, hacc, hemp]
      · intro hne
        exact absurd rfl hne
      · intro c hc err he hne
        have := hrun.fatal c hc err he hne
        rw [ho] at this
        exact this
      · intro err he
        simp at he
    · simp only [ho, if_false]
      have hemp : p.input.LogEvents ≠ [] := fun h => ho (hrun.empty h).1
      constructor
      · exact hrun.calls
      · exact hrun.respond
      · exact hrun.batchSize
      · exact hrun.group
      · exact hrun.stream
      · exact hrun.requests
      · exact hrun.chain
      · intro h
        exact absurd h hroom
      · intro _ ho'
        exact absurd ho' ho
      · intro _
        obtain ⟨hev, hsz, hacc⟩ := hrun.kept ho
        exact ⟨hfull, hemp, hev, hsz, hacc⟩
      · exact hrun.fatal
      · exact hrun.failed

/-! ## Runs of calls -/

theorem acceptedEvents_append (a b : List Call) :
    acceptedEvents (a ++ b) = acceptedEvents a ++ acceptedEvents b := by
  induction a with
  | nil => simp [acceptedEvents]
  | cons c cs ih =>
    cases hr : c.result with
    | ok next => simp [acceptedEvents, hr, ih]
    | error err => simp [acceptedEvents, hr, ih]

theorem TokenChain_append {t t' t'' : Option String} {a b : List Call}
    (ha : TokenChain t a t') (hb : TokenChain t' b t'') : TokenChain t (a ++ b) t'' := by
  induction a generalizing t with
  | nil =>
    simp only [TokenChain] at ha
    subst ha
    simpa using hb
  | cons c cs ih =>
    obtain ⟨h1, h2⟩ := ha
    exact ⟨h1, ih h2⟩

theorem addedEvents_cons (c : Nat × Op) (cs : List (Nat × Op)) (o : Outcome)
    (os : List Outcome) :
    addedEvents (c :: cs) (o :: os) = addedEvents [c] [o] ++ addedEvents cs os := by
  obtain ⟨n, op⟩ := c
  cases op with
  | Flush => simp [addedEvents]
  | Add e =>
    cases o with
    | running => simp [addedEvents]
    | returned err =>
      cases err with
      | none => simp [addedEvents]
      | some x => simp [addedEvents]

theorem addedEvents_nil_right (cs : List (Nat × Op)) : addedEvents cs [] = [] := by
  cases cs with
  | nil => simp [addedEvents]
  | cons c cs => simp [addedEvents]

/-- What one call does to the facts that are kept along a run. -/
theorem call_step (sortSlice : SliceSorter) (p : BatchLogPusher) (c : Nat × Op) :
    ∃ new : List Call,
      (p.call sortSlice c).2.cwLogsClient.calls = p.cwLogsClient.calls ++ new
        ∧ (p.call sortSlice c).2.cwLogsClient.respond = p.cwLogsClient.respond
        ∧ (p.call sortSlice c).2.batchSize = p.batchSize
        ∧ (p.call sortSlice c).2.input.LogGroupName = p.input.LogGroupName
        ∧ (p.call sortSlice c).2.input.LogStreamName = p.input.LogStreamName
        ∧ TokenChain p.input.SequenceToken new (p.call sortSlice c).2.input.SequenceToken
        ∧ (SortsSlices sortSlice →
            (acceptedEvents new ++ (p.call sortSlice c).2.input.LogEvents).Perm
              (p.input.LogEvents ++ addedEvents [c] [(p.call sortSlice c).1]))
        ∧ (SortsSlices sortSlice → 1 ≤ p.batchSize →
            (p.input.LogEvents.length : Int) ≤ p.batchSize →
            ((p.call sortSlice c).2.input.LogEvents.length : Int) ≤ p.batchSize) := by
  obtain ⟨fuel, op⟩ := c
  cases op with
  | Flush =>
    obtain ⟨new, hrun, _, _⟩ := Flush_run sortSlice fuel p
    refine ⟨new, hrun.calls, hrun.respond, hrun.batchSize, hrun.group, hrun.stream,
      hrun.chain, ?_, ?_⟩
    · intro hs
      simp only [BatchLogPusher.call, addedEvents, List.append_nil]
      by_cases hemp : p.input.LogEvents = []
      · obtain ⟨_, hq, hnew⟩ := hrun.empty hemp
        simp [hq, hnew, hemp, acceptedEvents]
      · by_cases ho : (p.Flush sortSlice fuel).1 = Outcome.returned none
        · obtain ⟨hev, _, _, hacc⟩ := hrun.flushed hemp ho
          simpa [hev, hacc] using hs.perm timestampLess p.input.LogEvents
        · obtain ⟨hev, _, hacc⟩ := hrun.kept ho
          simpa [hev, hacc] using hs.perm timestampLess p.input.LogEvents
    · intro hs _ hle
      simp only [BatchLogPusher.call]
      by_cases hemp : p.input.LogEvents = []
      · obtain ⟨_, hq, _⟩ := hrun.empty hemp
        rw [hq]
        exact hle
      · by_cases ho : (p.Flush sortSlice fuel).1 = Outcome.returned none
        · obtain ⟨hev, _, _, _⟩ := hrun.flushed hemp ho
          rw [hev]
          simp
          omega
        · obtain ⟨hev, _, _⟩ := hrun.kept ho
          rw [hev, (hs.perm timestampLess p.input.LogEvents).length_eq]
          exact hle
  | Add e =>
    obtain ⟨new, hrun, _⟩ := Add_run sortSlice fuel p e
    refine ⟨new, hrun.calls, hrun.respond, hrun.batchSize, hrun.group, hrun.stream,
      hrun.chain, ?_, ?_⟩
    · intro hs
      simp only [BatchLogPusher.call]
      by_cases hroom : (p.input.LogEvents.length : Int) < p.batchSize
      · obtain ⟨ho, hnew, hev, _⟩ := hrun.room hroom
        simp [ho, hnew, hev, acceptedEvents, addedEvents]
      · have hfull : p.batchSize ≤ (p.input.LogEvents.length : Int) := by omega
        by_cases ho : (p.Add sortSlice fuel e).1 = Outcome.returned none
        · obtain ⟨hev, hacc, _⟩ := hrun.flushed hfull ho
          rw [hev, hacc, ho]
          by_cases hemp : p.input.LogEvents = []
          · simp [hemp, addedEvents]
          · simpa [hemp, addedEvents] using
              (hs.perm timestampLess p.input.LogEvents).append_right [e]
        · obtain ⟨_, _, hev, _, hacc⟩ := hrun.kept ho
          have hadd : addedEvents [(fuel, Op.Add e)] [(p.Add sortSlice fuel e).1] = [] := by
            cases h : (p.Add sortSlice fuel e).1 with
            | running => simp [addedEvents]
            | returned err =>
              cases err with
              | none => exact absurd h ho
              | some x => simp [addedEvents]
          rw [hev, hacc, hadd]
          simpa using hs.perm timestampLess p.input.LogEvents
    · intro hs h1 hle
      simp only [BatchLogPusher.call]
      by_cases hroom : (p.input.LogEvents.length : Int) < p.batchSize
      · obtain ⟨_, _, hev, _⟩ := hrun.room hroom
        rw [hev]
        simp
        omega
      · have hfull : p.batchSize ≤ (p.input.LogEvents.length : Int) := by omega
        by_cases ho : (p.Add sortSlice fuel e).1 = Outcome.returned none
        · obtain ⟨hev, _, _⟩ := hrun.flushed hfull ho
          rw [hev]
          simpa using h1
        · obtain ⟨_, _, hev, _, _⟩ := hrun.kept ho
          rw [hev, (hs.perm timestampLess p.input.LogEvents).length_eq]
          exact hle

theorem runCalls_cons_running {sortSlice : SliceSorter} {p : BatchLogPusher} {c : Nat × Op}
    (rest : List (Nat × Op)) (ho : (p.call sortSlice c).1 = Outcome.running) :
    runCalls sortSlice (c :: rest) p = ([Outcome.running], (p.call sortSlice c).2) := by
  simp only [runCalls]
  generalize p.call sortSlice c = r at ho
  obtain ⟨o, q⟩ := r
  simp only at ho
  subst ho
  rfl

theorem runCalls_cons_returned {sortSlice : SliceSorter} {p : BatchLogPusher} {c : Nat × Op}
    {err : Option Error} (rest : List (Nat × Op))
    (ho : (p.call sortSlice c).1 = Outcome.returned err) :
    runCalls sortSlice (c :: rest) p
      = (Outcome.returned err :: (runCalls sortSlice rest (p.call sortSlice c).2).1,
          (runCalls sortSlice rest (p.call sortSlice c).2).2) := by
  simp only [runCalls]
  generalize p.call sortSlice c = r at ho
  obtain ⟨o, q⟩ := r
  simp only at ho
  subst ho
  rfl

/-- The facts that hold after every run of calls, from any starting state `p`:
the configuration is unchanged, the calls made form a chain of tokens that ends
in the stored token, every event that was buffered or added is either buffered
or in an accepted request, and the batch stays within the batch size. -/
theorem runCalls_facts (sortSlice : SliceSorter) (ops : List (Nat × Op))
    (p : BatchLogPusher) :
    ∃ new : List Call,
      (runCalls sortSlice ops p).2.cwLogsClient.calls = p.cwLogsClient.calls ++ new
        ∧ (runCalls sortSlice ops p).2.cwLogsClient.respond = p.cwLogsClient.respond
        ∧ (runCalls sortSlice ops p).2.batchSize = p.batchSize
        ∧ (runCalls sortSlice ops p).2.input.LogGroupName = p.input.LogGroupName
        ∧ (runCalls sortSlice ops p).2.input.LogStreamName = p.input.LogStreamName
        ∧ TokenChain p.input.SequenceToken new (runCalls sortSlice ops p).2.input.SequenceToken
        ∧ (SortsSlices sortSlice →
            (acceptedEvents new ++ (runCalls sortSlice ops p).2.input.LogEvents).Perm
              (p.input.LogEvents ++ addedEvents ops (runCalls sortSlice ops p).1))
        ∧ (SortsSlices sortSlice → 1 ≤ p.batchSize →
            (p.input.LogEvents.length : Int) ≤ p.batchSize →
            ((runCalls sortSlice ops p).2.input.LogEvents.length : Int) ≤ p.batchSize) := by
  induction ops generalizing p with
  | nil =>
    refine ⟨[], ?_⟩
    simp [runCalls, TokenChain, acceptedEvents, addedEvents]
  | cons c rest ih =>
    obtain ⟨new1, hc1, hr1, hb1, hg1, hst1, ht1, hp1, hl1⟩ := call_step sortSlice p c
    cases ho : (p.call sortSlice c).1 with
    | running =>
      rw [runCalls_cons_running rest ho]
      rw [ho] at hp1
      refine ⟨new1, hc1, hr1, hb1, hg1, hst1, ht1, ?_, hl1⟩
      intro hs
      simp only
      rw [addedEvents_cons, addedEvents_nil_right, List.append_nil]
      exact hp1 hs
    | returned err =>
      obtain ⟨new2, hc2, hr2, hb2, hg2, hst2, ht2, hp2, hl2⟩ := ih (p.call sortSlice c).2
      rw [runCalls_cons_returned rest ho]
      refine ⟨new1 ++ new2, ?_, ?_, ?_, ?_, ?_, ?_, ?_, ?_⟩
      · simp [hc2, hc1]
      · simp [hr2, hr1]
      · simp [hb2, hb1]
      · simp [hg2, hg1]
      · simp [hst2, hst1]
      · exact TokenChain_append ht1 ht2
      · intro hs
        simp only
        rw [addedEvents_cons, acceptedEvents_append, ← ho]
        have h1 : (acceptedEvents new1 ++ acceptedEvents new2
              ++ (runCalls sortSlice rest (p.call sortSlice c).2).2.input.LogEvents).Perm
            (acceptedEvents new1 ++ ((p.call sortSlice c).2.input.LogEvents
              ++ addedEvents rest (runCalls sortSlice rest (p.call sortSlice c).2).1)) := by
          rw [List.append_assoc]
          exact List.Perm.append_left _ (hp2 hs)
        refine h1.trans ?_
        rw [← List.append_assoc, ← List.append_assoc]
        exact List.Perm.append_right _ (hp1 hs)
      · intro hs h1 hle
        simp only
        rw [hb1] at hl2
        exact hl2 hs h1 (hl1 hs h1 hle)

/-! ## The size of the batch -/

/-- Claim C5. For every batch size of at least one and every sink, in every state
reached from `NewBatchLogPusher` by a sequence of `Add` and `Flush` calls,
whether they succeed, fail or are still running, the batch holds at most
`batchSize` events; and no event is dropped to keep it so: the events whose `Add`
returned `nil` are exactly the events still in the batch together with the events
of the requests the sink accepted. -/
theorem batch_within_batchSize (sortSlice : SliceSorter) (hs : SortsSlices sortSlice)
    (cwLogsClient : CloudwatchLogsClient) (group stream : GoString) (batchSize : Int)
    (hb : 1 ≤ batchSize) (ops : List (Nat × Op)) :
    (((runCalls sortSlice ops
          (NewBatchLogPusher cwLogsClient group stream batchSize)).2.input.LogEvents.length
        : Int) ≤ batchSize)
      ∧ (acceptedEvents (issuedCalls (NewBatchLogPusher cwLogsClient group stream batchSize)
            (runCalls sortSlice ops (NewBatchLogPusher cwLogsClient group stream batchSize)).2)
          ++ (runCalls sortSlice ops
            (NewBatchLogPusher cwLogsClient group stream batchSize)).2.input.LogEvents).Perm
          (addedEvents ops
            (runCalls sortSlice ops (NewBatchLogPusher cwLogsClient group stream batchSize)).1) := by
  obtain ⟨new, hc, _, _, _, _, _, hperm, hlen⟩ :=
    runCalls_facts sortSlice ops (NewBatchLogPusher cwLogsClient group stream batchSize)
  rw [issuedCalls_eq hc]
  refine ⟨?_, ?_⟩
  · exact hlen hs hb (by simpa [NewBatchLogPusher] using (by omega : (0 : Int) ≤ batchSize))
  · simpa [NewBatchLogPusher] using hperm hs

/-- Claim C5 at a pusher of batch size two whose sink fails every request: three
adds and a flush leave two events in the batch, none of them lost. -/
theorem batch_within_batchSize_witness :
    ((((runCalls insertionSort (exampleOps 1)
          (NewBatchLogPusher ⟨failingSink, []⟩ "/logs".toList "01".toList 2)).2.input.LogEvents.length
        : Int) ≤ 2)
      ∧ (acceptedEvents (issuedCalls (NewBatchLogPusher ⟨failingSink, []⟩ "/logs".toList "01".toList 2)
            (runCalls insertionSort (exampleOps 1)
              (NewBatchLogPusher ⟨failingSink, []⟩ "/logs".toList "01".toList 2)).2)
          ++ (runCalls insertionSort (exampleOps 1)
            (NewBatchLogPusher ⟨failingSink, []⟩ "/logs".toList "01".toList 2)).2.input.LogEvents).Perm
          (addedEvents (exampleOps 1)
            (runCalls insertionSort (exampleOps 1)
              (NewBatchLogPusher ⟨failingSink, []⟩ "/logs".toList "01".toList 2)).1))
    ∧ (runCalls insertionSort (exampleOps 1)
          (NewBatchLogPusher ⟨failingSink, []⟩ "/logs".toList "01".toList 2)).2.input.LogEvents.length
        = 2 :=
  ⟨batch_within_batchSize insertionSort insertionSort_sorts ⟨failingSink, []⟩ "/logs".toList
    "01".toList 2 (by decide) (exampleOps 1), by decide⟩

/-! ## The sequence token -/

theorem TokenChain_index {t t' : Option String} {l : List Call} (h : TokenChain t l t') :
    (∀ c, l.head? = some c → c.input.SequenceToken = t)
      ∧ (∀ i c d, l[i]? = some c → l[i + 1]? = some d →
          d.input.SequenceToken = c.tokenAfter)
      ∧ t' = (match l.getLast? with
          | some c => c.tokenAfter
          | none => t) := by
  induction l generalizing t with
  | nil =>
    simp only [TokenChain] at h
    simp [h]
  | cons c cs ih =>
    obtain ⟨h1, h2⟩ := h
    obtain ⟨ih1, ih2, ih3⟩ := ih h2
    refine ⟨?_, ?_, ?_⟩
    · intro c' hc'
      simp at hc'
      subst hc'
      exact h1
    · intro i c' d hc' hd
      cases i with
      | zero =>
        simp at hc' hd
        subst hc'
        exact ih1 d (by
          cases cs with
          | nil => simp at hd
          | cons x xs =>
            simp at hd
            simp [hd])
      | succ i =>
        simp at hc' hd
        exact ih2 i c' d hc' hd
    · cases cs with
      | nil =>
        simp only [TokenChain] at h2
        simp [h2]
      | cons x xs =>
        rw [ih3, List.getLast?_cons_cons]
        cases hl : (x :: xs).getLast? with
        | none => simp at hl
        | some y => rfl

/-- Claim C8. Along every run of calls on a new pusher, against any sink: the first
`PutLogEvents` request carries no sequence token, and every later request
carries the token the sink supplied in its answer to the request before it, the
next token of a success, the expected token of a token conflict and, after any
other error, the token of the failed request again; the token stored at the end
is the one the next request will carry. -/
theorem requests_chain_tokens (sortSlice : SliceSorter) (cwLogsClient : CloudwatchLogsClient)
    (group stream : GoString) (batchSize : Int) (ops : List (Nat × Op)) :
    (∀ c, (issuedCalls (NewBatchLogPusher cwLogsClient group stream batchSize)
          (runCalls sortSlice ops
            (NewBatchLogPusher cwLogsClient group stream batchSize)).2).head? = some c →
        c.input.SequenceToken = none)
      ∧ (∀ i c d,
          (issuedCalls (NewBatchLogPusher cwLogsClient group stream batchSize)
            (runCalls sortSlice ops
              (NewBatchLogPusher cwLogsClient group stream batchSize)).2)[i]? = some c →
          (issuedCalls (NewBatchLogPusher cwLogsClient group stream batchSize)
            (runCalls sortSlice ops
              (NewBatchLogPusher cwLogsClient group stream batchSize)).2)[i + 1]? = some d →
          d.input.SequenceToken = c.tokenAfter)
      ∧ TokenChain none
          (issuedCalls (NewBatchLogPusher cwLogsClient group stream batchSize)
            (runCalls sortSlice ops (NewBatchLogPusher cwLogsClient group stream batchSize)).2)
          (runCalls sortSlice ops
            (NewBatchLogPusher cwLogsClient group stream batchSize)).2.input.SequenceToken := by
  obtain ⟨new, hc, _, _, _, _, hchain, _, _⟩ :=
    runCalls_facts sortSlice ops (NewBatchLogPusher cwLogsClient group stream batchSize)
  rw [issuedCalls_eq hc]
  have hchain' : TokenChain none new
      (runCalls sortSlice ops
        (NewBatchLogPusher cwLogsClient group stream batchSize)).2.input.SequenceToken := hchain
  obtain ⟨h1, h2, _⟩ := TokenChain_index hchain'
  exact ⟨h1, h2, hchain'⟩

/-! ## A fatal error of the sink -/

/-- Claim C7. If the sink answers a request of `Flush` with an error that is not a
token conflict, `Flush` returns that error and does not clear the batch: the
batch holds the same events as before, sorted by timestamp, and the byte size is
unchanged; a later `Flush` that is allowed a request sends one, and every request
it sends carries all those events again. -/
theorem Flush_fatal_keeps_batch (sortSlice : SliceSorter) (hs : SortsSlices sortSlice)
    (fuel later : Nat) (p : BatchLogPusher) (c : Call) (err : Error)
    (hc : c ∈ issuedCalls p (p.Flush sortSlice fuel).2)
    (herr : c.result = PutLogEventsResult.error err) (hfatal : conflictToken err = none) :
    (p.Flush sortSlice fuel).1 = Outcome.returned (some err)
      ∧ (p.Flush sortSlice fuel).2.input.LogEvents = sortSlice timestampLess p.input.LogEvents
      ∧ (p.Flush sortSlice fuel).2.input.LogEvents.Perm p.input.LogEvents
      ∧ (p.Flush sortSlice fuel).2.eventsSize = p.eventsSize
      ∧ (1 ≤ later → issuedCalls (p.Flush sortSlice fuel).2
          ((p.Flush sortSlice fuel).2.Flush sortSlice later).2 ≠ [])
      ∧ (∀ d ∈ issuedCalls (p.Flush sortSlice fuel).2
            ((p.Flush sortSlice fuel).2.Flush sortSlice later).2,
          d.input.LogEvents.Perm p.input.LogEvents) := by
  obtain ⟨new, hrun, _, _⟩ := Flush_run sortSlice fuel p
  rw [issuedCalls_eq hrun.calls] at hc
  have ho := hrun.fatal c hc err herr hfatal
  have hne : (p.Flush sortSlice fuel).1 ≠ Outcome.returned none := by
    rw [ho]
    simp
  obtain ⟨hev, hsz, _⟩ := hrun.kept hne
  have hperm : (p.Flush sortSlice fuel).2.input.LogEvents.Perm p.input.LogEvents := by
    rw [hev]
    exact hs.perm _ _
  have hpne : p.input.LogEvents ≠ [] := by
    intro h
    rw [(hrun.empty h).2.2] at hc
    simp at hc
  have hqne : (p.Flush sortSlice fuel).2.input.LogEvents ≠ [] := by
    intro h
    rw [h] at hperm
    exact hpne (List.Perm.eq_nil hperm.symm)
  obtain ⟨h1, h2⟩ := requests_of_Flush sortSlice hs later (p.Flush sortSlice fuel).2 hqne
  exact ⟨ho, hev, hperm, hsz, h2, fun d hd => (h1 d hd).1.trans hperm⟩

/-- Claim C7 at a pusher whose sink fails every request: the flush returns the
error of the sink and keeps the three events, which the next flush sends again. -/
theorem Flush_fatal_keeps_batch_witness :
    ((examplePusher failingSink none).Flush insertionSort 1).1
        = Outcome.returned (some (Error.other "ServiceUnavailableException"))
      ∧ ((examplePusher failingSink none).Flush insertionSort 1).2.input.LogEvents
        = insertionSort timestampLess (examplePusher failingSink none).input.LogEvents
      ∧ ((examplePusher failingSink none).Flush insertionSort 1).2.input.LogEvents.Perm
          (examplePusher failingSink none).input.LogEvents
      ∧ ((examplePusher failingSink none).Flush insertionSort 1).2.eventsSize
        = (examplePusher failingSink none).eventsSize
      ∧ (1 ≤ 1 → issuedCalls ((examplePusher failingSink none).Flush insertionSort 1).2
          (((examplePusher failingSink none).Flush insertionSort 1).2.Flush insertionSort 1).2
            ≠ [])
      ∧ (∀ d ∈ issuedCalls ((examplePusher failingSink none).Flush insertionSort 1).2
            (((examplePusher failingSink none).Flush insertionSort 1).2.Flush insertionSort 1).2,
          d.input.LogEvents.Perm (examplePusher failingSink none).input.LogEvents) :=
  Flush_fatal_keeps_batch insertionSort insertionSort_sorts 1 1 (examplePusher failingSink none)
    ⟨{ (examplePusher failingSink none).input with
        LogEvents := insertionSort timestampLess (examplePusher failingSink none).input.LogEvents },
      PutLogEventsResult.error (Error.other "ServiceUnavailableException")⟩
    (Error.other "ServiceUnavailableException") (by decide) (by decide) (by decide)

/-- Claim C8 at a new pusher of batch size two whose sink expects the token `T2`:
the four requests of three adds and a flush carry no token, `T2`, `T3` and `T2`. -/
theorem requests_chain_tokens_witness :
    ((∀ c, (issuedCalls (NewBatchLogPusher ⟨expectingSink, []⟩ "/logs".toList "01".toList 2)
          (runCalls insertionSort (exampleOps 3)
            (NewBatchLogPusher ⟨expectingSink, []⟩ "/logs".toList "01".toList 2)).2).head? = some c →
        c.input.SequenceToken = none)
      ∧ (∀ i c d,
          (issuedCalls (NewBatchLogPusher ⟨expectingSink, []⟩ "/logs".toList "01".toList 2)
            (runCalls insertionSort (exampleOps 3)
              (NewBatchLogPusher ⟨expectingSink, []⟩ "/logs".toList "01".toList 2)).2)[i]? = some c →
          (issuedCalls (NewBatchLogPusher ⟨expectingSink, []⟩ "/logs".toList "01".toList 2)
            (runCalls insertionSort (exampleOps 3)
              (NewBatchLogPusher ⟨expectingSink, []⟩ "/logs".toList "01".toList 2)).2)[i + 1]?
            = some d →
          d.input.SequenceToken = c.tokenAfter)
      ∧ TokenChain none
          (issuedCalls (NewBatchLogPusher ⟨expectingSink, []⟩ "/logs".toList "01".toList 2)
            (runCalls insertionSort (exampleOps 3)
              (NewBatchLogPusher ⟨expectingSink, []⟩ "/logs".toList "01".toList 2)).2)
          (runCalls insertionSort (exampleOps 3)
            (NewBatchLogPusher ⟨expectingSink, []⟩ "/logs".toList "01".toList 2)).2.input.SequenceToken)
    ∧ (issuedCalls (NewBatchLogPusher ⟨expectingSink, []⟩ "/logs".toList "01".toList 2)
          (runCalls insertionSort (exampleOps 3)
            (NewBatchLogPusher ⟨expectingSink, []⟩ "/logs".toList "01".toList 2)).2).map
        (fun c => c.input.SequenceToken)
      = [none, some "T2", some "T3", some "T2"] :=
  ⟨requests_chain_tokens insertionSort ⟨expectingSink, []⟩ "/logs".toList "01".toList 2
    (exampleOps 3), by decide⟩

/-! ## Termination of the retries -/

theorem conflictCount_append_singleton
    (respond : List PutLogEventsInput → PutLogEventsResult) (h : List PutLogEventsInput)
    (x : PutLogEventsInput) :
    conflictCount respond (h ++ [x])
      = conflictCount respond h + (if (respond (h ++ [x])).isConflict then 1 else 0) := by
  unfold conflictCount
  have hlen : (h ++ [x]).length = h.length + 1 := by simp
  rw [hlen, List.range_succ, List.filter_append]
  have hcongr : (List.range h.length).filter
        (fun i => (respond ((h ++ [x]).take (i + 1))).isConflict)
      = (List.range h.length).filter (fun i => (respond (h.take (i + 1))).isConflict) := by
    apply List.filter_congr
    intro i hi
    have hi' : i + 1 ≤ h.length := by
      have := List.mem_range.1 hi
      omega
    rw [List.take_append_of_le_length hi']
  rw [hcongr]
  have htake : (h ++ [x]).take (h.length + 1) = h ++ [x] := by
    rw [← hlen]
    exact List.take_length _
  cases hc : (respond (h ++ [x])).isConflict with
  | true => simp [List.filter, htake, hc]
  | false => simp [List.filter, htake, hc]

theorem putLogEvents_terminates (K : Nat) (fuel : Nat) (p : BatchLogPusher)
    (hnofatal : ∀ h, (p.cwLogsClient.respond h).isFatal = false)
    (hfinite : ∀ h, conflictCount p.cwLogsClient.respond h ≤ K)
    (hfuel : K < conflictCount p.cwLogsClient.respond p.cwLogsClient.history + fuel) :
    (p.putLogEvents fuel).1 = Outcome.returned none := by
  induction fuel generalizing p with
  | zero =>
    have := hfinite p.cwLogsClient.history
    omega
  | succ fuel ih =>
    rw [putLogEvents_succ]
    have hcount := conflictCount_append_singleton p.cwLogsClient.respond
      p.cwLogsClient.history p.input
    have hnf := hnofatal (p.cwLogsClient.history ++ [p.input])
    cases hres : p.cwLogsClient.respond (p.cwLogsClient.history ++ [p.input]) with
    | ok next => rfl
    | error err =>
      dsimp only
      rw [hres] at hnf hcount
      cases hc : conflictToken err with
      | none => simp [PutLogEventsResult.isFatal, hc] at hnf
      | some expected =>
        dsimp only
        apply ih
        · exact hnofatal
        · exact hfinite
        · simp only [PutLogEventsResult.isConflict, hc, Option.isSome_some, if_true] at hcount
          simp only [CloudwatchLogsClient.history, List.map_append, List.map_cons,
            List.map_nil] at hcount hfuel ⊢
          omega

theorem call_returns_nil (sortSlice : SliceSorter) (K : Nat) (p : BatchLogPusher)
    (c : Nat × Op)
    (hnofatal : ∀ h, (p.cwLogsClient.respond h).isFatal = false)
    (hfinite : ∀ h, conflictCount p.cwLogsClient.respond h ≤ K)
    (hfuel : K < c.1) :
    (p.call sortSlice c).1 = Outcome.returned none := by
  have hflush : (p.Flush sortSlice c.1).1 = Outcome.returned none := by
    by_cases hemp : p.input.LogEvents = []
    · rw [Flush_of_empty sortSlice c.1 p hemp]
    · rw [Flush_of_nonempty sortSlice c.1 p hemp]
      have := putLogEvents_terminates K c.1 (p.sortEvents sortSlice) hnofatal hfinite
        (by omega)
      simp [this]
  obtain ⟨fuel, op⟩ := c
  cases op with
  | Flush => exact hflush
  | Add e =>
    simp only [BatchLogPusher.call]
    by_cases hroom : (p.input.LogEvents.length : Int) < p.batchSize
    · rw [Add_of_room sortSlice fuel p e hroom]
    · rw [Add_of_full sortSlice fuel p e (by omega)]
      simp only at hflush
      simp [hflush]

theorem runCalls_all_return_nil (sortSlice : SliceSorter) (K : Nat)
    (ops : List (Nat × Op)) (p : BatchLogPusher)
    (hnofatal : ∀ h, (p.cwLogsClient.respond h).isFatal = false)
    (hfinite : ∀ h, conflictCount p.cwLogsClient.respond h ≤ K)
    (hfuel : ∀ c ∈ ops, K < c.1) :
    (runCalls sortSlice ops p).1 = List.replicate ops.length (Outcome.returned none) := by
  induction ops generalizing p with
  | nil => simp [runCalls]
  | cons c rest ih =>
    have ho := call_returns_nil sortSlice K p c hnofatal hfinite (hfuel c (by simp))
    obtain ⟨_, _, hr, _⟩ := call_step sortSlice p c
    rw [runCalls_cons_returned rest ho]
    simp only [List.length_cons, List.replicate_succ]
    rw [ih (p.call sortSlice c).2 (by rw [hr]; exact hnofatal) (by rw [hr]; exact hfinite)
      (fun d hd => hfuel d (List.mem_cons_of_mem _ hd))]

theorem runCalls_append (sortSlice : SliceSorter) (a b : List (Nat × Op))
    (p : BatchLogPusher) (h : Outcome.running ∉ (runCalls sortSlice a p).1) :
    runCalls sortSlice (a ++ b) p
      = ((runCalls sortSlice a p).1 ++ (runCalls sortSlice b (runCalls sortSlice a p).2).1,
          (runCalls sortSlice b (runCalls sortSlice a p).2).2) := by
  induction a generalizing p with
  | nil => simp [runCalls]
  | cons c rest ih =>
    cases ho : (p.call sortSlice c).1 with
    | running =>
      rw [runCalls_cons_running rest ho] at h
      simp at h
    | returned err =>
      rw [runCalls_cons_returned rest ho] at h
      simp only [List.cons_append]
      rw [runCalls_cons_returned (rest ++ b) ho, runCalls_cons_returned rest ho]
      rw [ih (p.call sortSlice c).2 (fun hm => h (List.mem_cons_of_mem _ hm))]
      simp

theorem addedEvents_adds (fuel : Nat) (events : List InputLogEvent) (tail : List (Nat × Op))
    (os : List Outcome) :
    addedEvents (events.map (fun e => (fuel, Op.Add e)) ++ tail)
        (List.replicate events.length (Outcome.returned none) ++ os)
      = events ++ addedEvents tail os := by
  induction events with
  | nil => simp
  | cons e es ih =>
    simp only [List.map_cons, List.cons_append, List.length_cons, List.replicate_succ]
    rw [addedEvents_cons, ih]
    simp [addedEvents]

theorem Flush_returned_nil_events (sortSlice : SliceSorter) (fuel : Nat) (p : BatchLogPusher)
    (ho : (p.Flush sortSlice fuel).1 = Outcome.returned none) :
    (p.Flush sortSlice fuel).2.input.LogEvents = [] := by
  obtain ⟨new, hrun, _, _⟩ := Flush_run sortSlice fuel p
  by_cases hemp : p.input.LogEvents = []
  · rw [(hrun.empty hemp).2.1]
    exact hemp
  · exact (hrun.flushed hemp ho).1

theorem conflictingOnceSink_count (h : List PutLogEventsInput) :
    conflictCount conflictingOnceSink h ≤ 1 := by
  have key : ∀ l : List PutLogEventsInput,
      conflictCount conflictingOnceSink l = if l = [] then 0 else 1 := by
    intro l
    induction l using List.reverseRecOn with
    | nil => simp [conflictCount]
    | append_singleton l x ih =>
      rw [conflictCount_append_singleton, ih]
      cases l with
      | nil => simp [conflictingOnceSink, PutLogEventsResult.isConflict, conflictToken,
          asInvalidSequenceToken, asDataAlreadyAccepted]
      | cons y ys => simp [conflictingOnceSink, PutLogEventsResult.isConflict]
  rw [key]
  split <;> omega

theorem conflictingOnceSink_not_fatal (h : List PutLogEventsInput) :
    (conflictingOnceSink h).isFatal = false := by
  unfold conflictingOnceSink
  split <;> simp [PutLogEventsResult.isFatal, conflictToken, asInvalidSequenceToken,
    asDataAlreadyAccepted]

/-! ## Delivery of every event -/

/-- Claim C4. A new pusher of any batch size runs against a sink that never
answers with an error other than a token conflict and that reports at most `K`
conflicts along any history of requests. Any finite sequence of `Add` calls
followed by one `Flush`, each call with a budget of more than `K` requests,
returns `nil` every time; the events of the accepted requests are, taken
together, a permutation of the events added, so that none is lost and none is
delivered twice; and the batch is empty at the end. -/
theorem all_events_delivered (sortSlice : SliceSorter) (hs : SortsSlices sortSlice)
    (cwLogsClient : CloudwatchLogsClient) (group stream : GoString) (batchSize : Int)
    (K fuel : Nat) (events : List InputLogEvent)
    (hnofatal : ∀ h, (cwLogsClient.respond h).isFatal = false)
    (hfinite : ∀ h, conflictCount cwLogsClient.respond h ≤ K)
    (hfuel : K < fuel) :
    (runCalls sortSlice (events.map (fun e => (fuel, Op.Add e)) ++ [(fuel, Op.Flush)])
        (NewBatchLogPusher cwLogsClient group stream batchSize)).1
        = List.replicate (events.length + 1) (Outcome.returned none)
      ∧ (acceptedEvents (issuedCalls (NewBatchLogPusher cwLogsClient group stream batchSize)
          (runCalls sortSlice (events.map (fun e => (fuel, Op.Add e)) ++ [(fuel, Op.Flush)])
            (NewBatchLogPusher cwLogsClient group stream batchSize)).2)).Perm events
      ∧ (runCalls sortSlice (events.map (fun e => (fuel, Op.Add e)) ++ [(fuel, Op.Flush)])
          (NewBatchLogPusher cwLogsClient group stream batchSize)).2.input.LogEvents = [] := by
  have hfuels : ∀ c ∈ events.map (fun e => (fuel, Op.Add e)) ++ [(fuel, Op.Flush)], K < c.1 := by
    intro c hc
    rcases List.mem_append.1 hc with hc | hc
    · obtain ⟨e, _, rfl⟩ := List.mem_map.1 hc
      exact hfuel
    · rw [List.mem_singleton.1 hc]
      exact hfuel
  have hall := runCalls_all_return_nil sortSlice K
    (events.map (fun e => (fuel, Op.Add e)) ++ [(fuel, Op.Flush)])
    (NewBatchLogPusher cwLogsClient group stream batchSize) hnofatal hfinite hfuels
  have hadds := runCalls_all_return_nil sortSlice K (events.map (fun e => (fuel, Op.Add e)))
    (NewBatchLogPusher cwLogsClient group stream batchSize) hnofatal hfinite
    (fun c hc => hfuels c (List.mem_append_left _ hc))
  -- the batch is empty after the final flush
  have hlast : (runCalls sortSlice (events.map (fun e => (fuel, Op.Add e)) ++ [(fuel, Op.Flush)])
      (NewBatchLogPusher cwLogsClient group stream batchSize)).2.input.LogEvents = [] := by
    have hnr : Outcome.running ∉ (runCalls sortSlice (events.map (fun e => (fuel, Op.Add e)))
        (NewBatchLogPusher cwLogsClient group stream batchSize)).1 := by
      rw [hadds]
      intro hm
      have := List.eq_of_mem_replicate hm
      simp at this
    rw [runCalls_append sortSlice _ _ _ hnr] at hall ⊢
    obtain ⟨_, _, hr, _⟩ := runCalls_facts sortSlice (events.map (fun e => (fuel, Op.Add e)))
      (NewBatchLogPusher cwLogsClient group stream batchSize)
    have ho := call_returns_nil sortSlice K
      (runCalls sortSlice (events.map (fun e => (fuel, Op.Add e)))
        (NewBatchLogPusher cwLogsClient group stream batchSize)).2 (fuel, Op.Flush)
      (by rw [hr]; exact hnofatal) (by rw [hr]; exact hfinite) hfuel
    rw [runCalls_cons_returned [] ho]
    simp only [runCalls]
    exact Flush_returned_nil_events sortSlice fuel _ ho
  obtain ⟨new, hc, _, _, _, _, _, hperm, _⟩ := runCalls_facts sortSlice
    (events.map (fun e => (fuel, Op.Add e)) ++ [(fuel, Op.Flush)])
    (NewBatchLogPusher cwLogsClient group stream batchSize)
  have hp := hperm hs
  rw [issuedCalls_eq hc]
  rw [hlast, hall] at hp
  have hrep : List.replicate
      (events.map (fun e => (fuel, Op.Add e)) ++ [(fuel, Op.Flush)]).length
      (Outcome.returned none)
      = List.replicate events.length (Outcome.returned none) ++ [Outcome.returned none] := by
    simp [List.replicate_succ']
  rw [hrep, addedEvents_adds] at hp
  refine ⟨?_, ?_, hlast⟩
  · rw [hall]
    simp
  · simpa [NewBatchLogPusher, addedEvents] using hp

/-- Claim C4 at a new pusher of batch size two whose sink reports one token
conflict and then accepts: three adds and the final flush return `nil`, and the
accepted requests carry the three events. -/
theorem all_events_delivered_witness :
    (runCalls insertionSort (exampleEvents.map (fun e => (2, Op.Add e)) ++ [(2, Op.Flush)])
        (NewBatchLogPusher ⟨conflictingOnceSink, []⟩ "/logs".toList "01".toList 2)).1
        = List.replicate (exampleEvents.length + 1) (Outcome.returned none)
      ∧ (acceptedEvents (issuedCalls
          (NewBatchLogPusher ⟨conflictingOnceSink, []⟩ "/logs".toList "01".toList 2)
          (runCalls insertionSort (exampleEvents.map (fun e => (2, Op.Add e)) ++ [(2, Op.Flush)])
            (NewBatchLogPusher ⟨conflictingOnceSink, []⟩ "/logs".toList "01".toList 2)).2)).Perm
          exampleEvents
      ∧ (runCalls insertionSort (exampleEvents.map (fun e => (2, Op.Add e)) ++ [(2, Op.Flush)])
          (NewBatchLogPusher ⟨conflictingOnceSink, []⟩ "/logs".toList "01".toList 2)).2.input.LogEvents
        = [] :=
  all_events_delivered insertionSort insertionSort_sorts ⟨conflictingOnceSink, []⟩
    "/logs".toList "01".toList 2 1 2 exampleEvents conflictingOnceSink_not_fatal
    conflictingOnceSink_count (by decide)

/-! ## The intermediate flush -/

theorem runCalls_adds_room (sortSlice : SliceSorter) (fuel : Nat) (es : List InputLogEvent)
    (p : BatchLogPusher)
    (h : (p.input.LogEvents.length : Int) + es.length ≤ p.batchSize) :
    runCalls sortSlice (es.map (fun e => (fuel, Op.Add e))) p
      = (List.replicate es.length (Outcome.returned none),
          { p with
            input := { p.input with LogEvents := p.input.LogEvents ++ es }
            eventsSize := p.eventsSize + ((es.map fun e => byteLen e.Message).sum : Nat) }) := by
  induction es generalizing p with
  | nil => simp [runCalls]
  | cons e es ih =>
    have hroom : (p.input.LogEvents.length : Int) < p.batchSize := by
      simp only [List.length_cons, Nat.cast_add, Nat.cast_one] at h
      omega
    have hadd := Add_of_room sortSlice fuel p e hroom
    have ho : (p.call sortSlice (fuel, Op.Add e)).1 = Outcome.returned none := by
      simp [BatchLogPusher.call, hadd]
    simp only [List.map_cons]
    rw [runCalls_cons_returned _ ho]
    simp only [BatchLogPusher.call, hadd]
    rw [ih]
    · simp [List.replicate_succ, add_assoc]
    · simp only [List.length_append, List.length_cons, List.length_nil, Nat.cast_add,
        Nat.cast_one] at h ⊢
      omega

/-- Claim C6. A new pusher has the batch size `n`, at least one, and a sink that
accepts every request. The first `n` calls of `Add` return `nil` without any
request and leave the `n` events in the batch. The next `Add` returns `nil` after
exactly one request, which carries the first `n` events, sorted, and no token;
afterwards the batch holds the new event only. So the `n + 1` calls issue exactly
that one request. -/
theorem Add_beyond_batchSize (sortSlice : SliceSorter) (hs : SortsSlices sortSlice)
    (cwLogsClient : CloudwatchLogsClient) (group stream : GoString) (n fuel : Nat)
    (es : List InputLogEvent) (e : InputLogEvent)
    (haccept : ∀ h, ∃ next, cwLogsClient.respond h = PutLogEventsResult.ok next)
    (hn : 1 ≤ n) (hlen : es.length = n) (hfuel : 1 ≤ fuel) :
    (runCalls sortSlice (es.map (fun x => (fuel, Op.Add x)))
        (NewBatchLogPusher cwLogsClient group stream n)).1
        = List.replicate n (Outcome.returned none)
      ∧ issuedCalls (NewBatchLogPusher cwLogsClient group stream n)
          (runCalls sortSlice (es.map (fun x => (fuel, Op.Add x)))
            (NewBatchLogPusher cwLogsClient group stream n)).2 = []
      ∧ (runCalls sortSlice (es.map (fun x => (fuel, Op.Add x)))
          (NewBatchLogPusher cwLogsClient group stream n)).2.input.LogEvents = es
      ∧ (runCalls sortSlice ((es ++ [e]).map (fun x => (fuel, Op.Add x)))
          (NewBatchLogPusher cwLogsClient group stream n)).1
        = List.replicate (n + 1) (Outcome.returned none)
      ∧ issuedCalls (NewBatchLogPusher cwLogsClient group stream n)
          (runCalls sortSlice ((es ++ [e]).map (fun x => (fuel, Op.Add x)))
            (NewBatchLogPusher cwLogsClient group stream n)).2
        = [ ⟨{ LogEvents := sortSlice timestampLess es
               LogGroupName := group
               LogStreamName := stream
               SequenceToken := none },
             cwLogsClient.respond (cwLogsClient.history ++
               [{ LogEvents := sortSlice timestampLess es
                  LogGroupName := group
                  LogStreamName := stream
                  SequenceToken := none }])⟩ ]
      ∧ (sortSlice timestampLess es).Perm es
      ∧ (runCalls sortSlice ((es ++ [e]).map (fun x => (fuel, Op.Add x)))
          (NewBatchLogPusher cwLogsClient group stream n)).2.input.LogEvents = [e] := by
  have hroom : ((NewBatchLogPusher cwLogsClient group stream n).input.LogEvents.length : Int)
      + es.length ≤ (NewBatchLogPusher cwLogsClient group stream n).batchSize := by
    simp [NewBatchLogPusher, hlen]
  have hfirst := runCalls_adds_room sortSlice fuel es
    (NewBatchLogPusher cwLogsClient group stream n) hroom
  have hne : es ≠ [] := by
    intro h
    rw [h] at hlen
    simp at hlen
    omega
  obtain ⟨k, rfl⟩ : ∃ k, fuel = k + 1 := ⟨fuel - 1, by omega⟩
  obtain ⟨next, hnext⟩ := haccept (cwLogsClient.history ++
    [{ LogEvents := sortSlice timestampLess es
       LogGroupName := group
       LogStreamName := stream
       SequenceToken := none }])
  -- the state before the last call
  generalize hq : (runCalls sortSlice (es.map (fun x => (k + 1, Op.Add x)))
    (NewBatchLogPusher cwLogsClient group stream n)) = r at hfirst
  have hnr : Outcome.running ∉ (runCalls sortSlice (es.map (fun x => (k + 1, Op.Add x)))
      (NewBatchLogPusher cwLogsClient group stream n)).1 := by
    rw [hq, hfirst]
    intro hm
    have := List.eq_of_mem_replicate hm
    simp at this
  have hsplit : (es ++ [e]).map (fun x => (k + 1, Op.Add x))
      = es.map (fun x => (k + 1, Op.Add x)) ++ [(k + 1, Op.Add e)] := by simp
  rw [hsplit, runCalls_append sortSlice _ _ _ hnr, hq]
  subst hfirst
  -- the last call flushes, and the sink accepts
  have hadd : (BatchLogPusher.call sortSlice
      { NewBatchLogPusher cwLogsClient group stream n with
        input := { (NewBatchLogPusher cwLogsClient group stream n).input with
          LogEvents := (NewBatchLogPusher cwLogsClient group stream n).input.LogEvents ++ es }
        eventsSize := (NewBatchLogPusher cwLogsClient group stream n).eventsSize
          + ((es.map fun e => byteLen e.Message).sum : Nat) }
      (k + 1, Op.Add e))
      = (Outcome.returned none,
          { cwLogsClient := { cwLogsClient with
              calls := cwLogsClient.calls ++
                [ ⟨{ LogEvents := sortSlice timestampLess es
                     LogGroupName := group
                     LogStreamName := stream
                     SequenceToken := none }, PutLogEventsResult.ok next⟩ ] }
            batchSize := n
            input :=
              { LogEvents := [e]
                LogGroupName := group
                LogStreamName := stream
                SequenceToken := next }
            eventsSize := 0 + byteLen e.Message }) := by
    simp only [BatchLogPusher.call]
    rw [Add_of_full _ _ _ _ (by simp [NewBatchLogPusher, hlen])]
    rw [Flush_of_nonempty _ _ _ (by simpa [NewBatchLogPusher] using hne)]
    rw [putLogEvents_succ]
    simp only [NewBatchLogPusher, BatchLogPusher.sortEvents, List.nil_append]
    rw [hnext]
    simp [BatchLogPusher.clearEvents]
  have ho : (BatchLogPusher.call sortSlice
      { NewBatchLogPusher cwLogsClient group stream n with
        input := { (NewBatchLogPusher cwLogsClient group stream n).input with
          LogEvents := (NewBatchLogPusher cwLogsClient group stream n).input.LogEvents ++ es }
        eventsSize := (NewBatchLogPusher cwLogsClient group stream n).eventsSize
          + ((es.map fun e => byteLen e.Message).sum : Nat) }
      (k + 1, Op.Add e)).1 = Outcome.returned none := by rw [hadd]
  rw [runCalls_cons_returned [] ho, hadd]
  refine ⟨by rw [hlen], by simp [issuedCalls, NewBatchLogPusher],
    by simp [NewBatchLogPusher], ?_, ?_, hs.perm _ _, by simp [runCalls]⟩
  · simp [runCalls, hlen, List.replicate_succ']
  · simp [runCalls, issuedCalls, NewBatchLogPusher, hnext]

/-- Claim C6 at a new pusher of batch size two whose sink accepts every request:
the third add sends the first two events, sorted, and keeps the third. -/
theorem Add_beyond_batchSize_witness :
    ((runCalls insertionSort ((exampleEvents.take 2).map (fun x => (1, Op.Add x)))
        (NewBatchLogPusher ⟨acceptingSink, []⟩ "/logs".toList "01".toList (2 : Nat))).1
        = List.replicate 2 (Outcome.returned none)
      ∧ issuedCalls (NewBatchLogPusher ⟨acceptingSink, []⟩ "/logs".toList "01".toList (2 : Nat))
          (runCalls insertionSort ((exampleEvents.take 2).map (fun x => (1, Op.Add x)))
            (NewBatchLogPusher ⟨acceptingSink, []⟩ "/logs".toList "01".toList (2 : Nat))).2 = []
      ∧ (runCalls insertionSort ((exampleEvents.take 2).map (fun x => (1, Op.Add x)))
          (NewBatchLogPusher ⟨acceptingSink, []⟩ "/logs".toList "01".toList
            (2 : Nat))).2.input.LogEvents = exampleEvents.take 2
      ∧ (runCalls insertionSort
          ((exampleEvents.take 2 ++ [exampleThird]).map
            (fun x => (1, Op.Add x)))
          (NewBatchLogPusher ⟨acceptingSink, []⟩ "/logs".toList "01".toList (2 : Nat))).1
        = List.replicate (2 + 1) (Outcome.returned none)
      ∧ issuedCalls (NewBatchLogPusher ⟨acceptingSink, []⟩ "/logs".toList "01".toList (2 : Nat))
          (runCalls insertionSort
            ((exampleEvents.take 2 ++ [exampleThird]).map
              (fun x => (1, Op.Add x)))
            (NewBatchLogPusher ⟨acceptingSink, []⟩ "/logs".toList "01".toList (2 : Nat))).2
        = [ ⟨{ LogEvents := insertionSort timestampLess (exampleEvents.take 2)
               LogGroupName := "/logs".toList
               LogStreamName := "01".toList
               SequenceToken := none },
             acceptingSink ((⟨acceptingSink, []⟩ : CloudwatchLogsClient).history ++
               [{ LogEvents := insertionSort timestampLess (exampleEvents.take 2)
                  LogGroupName := "/logs".toList
                  LogStreamName := "01".toList
                  SequenceToken := none }])⟩ ]
      ∧ (insertionSort timestampLess (exampleEvents.take 2)).Perm (exampleEvents.take 2)
      ∧ (runCalls insertionSort
          ((exampleEvents.take 2 ++ [exampleThird]).map
            (fun x => (1, Op.Add x)))
          (NewBatchLogPusher ⟨acceptingSink, []⟩ "/logs".toList "01".toList
            (2 : Nat))).2.input.LogEvents = [exampleThird])
    ∧ insertionSort timestampLess (exampleEvents.take 2)
      = [ ⟨"SYD1\tsecond".toList, 1704099600000⟩, ⟨"SYD1\tfirst".toList, 1704103200000⟩ ] :=
  ⟨Add_beyond_batchSize insertionSort insertionSort_sorts ⟨acceptingSink, []⟩ "/logs".toList
    "01".toList 2 1 (exampleEvents.take 2) exampleThird
    (fun _ => ⟨some "next", rfl⟩) (by decide) (by decide) (by decide), by decide⟩

/-! ## The parser on arbitrary input -/

theorem genSplit_length_pos (sep : Char) (n : Nat) (s : GoString) :
    1 ≤ (genSplit sep n s).length := by
  cases h : genSplit sep n s with
  | nil => exact absurd h (genSplit_ne_nil sep n s)
  | cons x xs => simp

theorem two_tabs_split {line : GoString} (h : 2 ≤ line.count '\t') :
    ∃ f1 f2 msg, '\t' ∉ f1 ∧ '\t' ∉ f2 ∧ line = f1 ++ '\t' :: (f2 ++ '\t' :: msg) := by
  cases h1 : cutAt '\t' line with
  | none =>
    have := List.count_eq_zero.2 (cutAt_none_free h1)
    omega
  | some r =>
    obtain ⟨a, b⟩ := r
    obtain ⟨e, ha⟩ := cutAt_some h1
    cases h2 : cutAt '\t' b with
    | none =>
      have hb := List.count_eq_zero.2 (cutAt_none_free h2)
      subst e
      simp [List.count_append, List.count_eq_zero.2 ha, hb] at h
    | some r2 =>
      obtain ⟨c, d⟩ := r2
      obtain ⟨e2, hc⟩ := cutAt_some h2
      exact ⟨a, c, d, ha, hc, by rw [e, e2]⟩

theorem ParseDateAndMessage_of_fields (timeParse : GoString → Option Time)
    {f1 f2 : GoString} (msg : GoString) (h1 : '\t' ∉ f1) (h2 : '\t' ∉ f2) :
    ParseDateAndMessage timeParse (f1 ++ '\t' :: (f2 ++ '\t' :: msg))
      = match timeParse (f1 ++ ' ' :: f2) with
        | some date => (date, msg, none)
        | none => (Time.zero, msg, some Error.timeParseError) := by
  simp only [ParseDateAndMessage, SplitN_three msg h1 h2]
  simp [Join_singleton]

/-- Claim C13. A line with fewer than two tab characters, the empty line included,
has fewer than three tab-separated fields: `ParseDateAndMessage` returns the zero
time, an empty message and the error `unable to parse date`. A line with at least
two tab characters is `f1 <tab> f2 <tab> msg` with no tab in `f1` and `f2`, and
`ParseDateAndMessage` returns an error for it exactly when `f1 f2` is not a
date-time of the layout. -/
theorem ParseDateAndMessage_failure (timeParse : GoString → Option Time)
    (short long : GoString) (hshort : short.count '\t' < 2) (hlong : 2 ≤ long.count '\t') :
    ParseDateAndMessage timeParse short = (Time.zero, [], some Error.unableToParseDate)
      ∧ ParseDateAndMessage timeParse [] = (Time.zero, [], some Error.unableToParseDate)
      ∧ ∃ f1 f2 msg, '\t' ∉ f1 ∧ '\t' ∉ f2 ∧ long = f1 ++ '\t' :: (f2 ++ '\t' :: msg)
          ∧ ((ParseDateAndMessage timeParse long).2.2 ≠ none
              ↔ timeParse (f1 ++ ' ' :: f2) = none) := by
  refine ⟨?_, ?_, ?_⟩
  · have hs := SplitN_short hshort
    simp [ParseDateAndMessage, hs]
  · simp [ParseDateAndMessage, SplitN, genSplit, cutAt]
  · obtain ⟨f1, f2, msg, h1, h2, e⟩ := two_tabs_split hlong
    refine ⟨f1, f2, msg, h1, h2, e, ?_⟩
    rw [e, ParseDateAndMessage_of_fields timeParse msg h1 h2]
    cases timeParse (f1 ++ ' ' :: f2) with
    | none => simp
    | some date => simp

/-- Claim C13 at a line with one tab and at a well-formed line of the example. -/
theorem ParseDateAndMessage_failure_witness :
    ParseDateAndMessage timeParseLayout "2024-01-01\t10:00:00".toList
        = (Time.zero, [], some Error.unableToParseDate)
      ∧ ParseDateAndMessage timeParseLayout [] = (Time.zero, [], some Error.unableToParseDate)
      ∧ ∃ f1 f2 msg, '\t' ∉ f1 ∧ '\t' ∉ f2
          ∧ "2024-01-01\t10:00:00\tSYD1\tfirst".toList = f1 ++ '\t' :: (f2 ++ '\t' :: msg)
          ∧ ((ParseDateAndMessage timeParseLayout
                "2024-01-01\t10:00:00\tSYD1\tfirst".toList).2.2 ≠ none
              ↔ timeParseLayout (f1 ++ ' ' :: f2) = none) :=
  ParseDateAndMessage_failure timeParseLayout "2024-01-01\t10:00:00".toList
    "2024-01-01\t10:00:00\tSYD1\tfirst".toList (by decide) (by decide)

/-- Claim C14. For every line with at least two tab characters, whether its date
parses or not, the message `ParseDateAndMessage` returns is the text after the
second tab, with its own tabs: the line is `f1 <tab> f2 <tab> message` for two
fields `f1` and `f2` that hold no tab. -/
theorem ParseDateAndMessage_message (timeParse : GoString → Option Time) (line : GoString)
    (h : 2 ≤ line.count '\t') :
    ∃ f1 f2, '\t' ∉ f1 ∧ '\t' ∉ f2
      ∧ f1 ++ ['\t'] ++ f2 ++ ['\t'] ++ (ParseDateAndMessage timeParse line).2.1 = line := by
  obtain ⟨f1, f2, msg, h1, h2, e⟩ := two_tabs_split h
  refine ⟨f1, f2, h1, h2, ?_⟩
  rw [e, ParseDateAndMessage_of_fields timeParse msg h1 h2]
  cases timeParse (f1 ++ ' ' :: f2) with
  | none => simp
  | some date => simp

/-- Claim C14 at a line of the example, whose message holds a tab, and the
message it gives. -/
theorem ParseDateAndMessage_message_witness :
    (∃ f1 f2, '\t' ∉ f1 ∧ '\t' ∉ f2
      ∧ f1 ++ ['\t'] ++ f2 ++ ['\t']
          ++ (ParseDateAndMessage timeParseLayout
            "2024-01-01\t10:00:00\tSYD1\tfirst".toList).2.1
        = "2024-01-01\t10:00:00\tSYD1\tfirst".toList)
    ∧ (ParseDateAndMessage timeParseLayout "2024-01-01\t10:00:00\tSYD1\tfirst".toList).2.1
      = "SYD1\tfirst".toList :=
  ⟨ParseDateAndMessage_message timeParseLayout "2024-01-01\t10:00:00\tSYD1\tfirst".toList
    (by decide), by decide⟩

theorem HasPrefix_slash_head {g : GoString} (h : HasPrefix g ['/'] = true) :
    g.head? = some '/' := by
  cases g with
  | nil => simp [HasPrefix, List.isPrefixOf] at h
  | cons c cs =>
    simp [HasPrefix, List.isPrefixOf] at h
    subst h
    rfl

/-- Claim C11, where the code falls short of it. For every key
`ParseLogGroupAndStream` is defined: both splits give at least one part, so the
index of the last part and the slices before it are in range. The group name it
returns is never empty and begins with a slash. The stream name is what stands
before the last dot of the file name, so for every key whose file name holds no
dot it is empty, whatever the file name is; the comment in the source has the
stream name be the file name without its extension, which for such a name is
the name itself. -/
theorem ParseLogGroupAndStream_total (key : GoString) :
    1 ≤ (Split key '/').length
      ∧ 1 ≤ (Split ((Split key '/').getD ((Split key '/').length - 1) []) '.').length
      ∧ (ParseLogGroupAndStream key).1 ≠ []
      ∧ (ParseLogGroupAndStream key).1.head? = some '/'
      ∧ ('.' ∉ (Split key '/').getD ((Split key '/').length - 1) [] →
          (ParseLogGroupAndStream key).2 = []) := by
  refine ⟨genSplit_length_pos _ _ _, genSplit_length_pos _ _ _, ?_, ?_, ?_⟩
  · simp only [ParseLogGroupAndStream]
    cases hp : HasPrefix (Join ((Split key '/').take ((Split key '/').length - 1)) ['/']) ['/'] with
    | false => simp
    | true =>
      have := HasPrefix_slash_head hp
      intro e
      simp only [Bool.not_true, Bool.false_eq_true, if_false] at e
      rw [e] at this
      simp at this
  · simp only [ParseLogGroupAndStream]
    cases hp : HasPrefix (Join ((Split key '/').take ((Split key '/').length - 1)) ['/']) ['/'] with
    | false => simp
    | true => simpa using HasPrefix_slash_head hp
  · intro hdot
    have hsp : Split ((Split key '/').getD ((Split key '/').length - 1) []) '.'
        = [(Split key '/').getD ((Split key '/').length - 1) []] := by
      unfold Split at hdot ⊢
      rw [List.count_eq_zero.2 hdot]
      rfl
    simp only [ParseLogGroupAndStream, hsp]
    simp [Join_nil]

/-- Claim C11 at the key `logs/2024/access`, whose file name `access` has no
extension: the group name is `/logs/2024` and the stream name returned is empty,
not `access`. -/
theorem ParseLogGroupAndStream_total_witness :
    (1 ≤ (Split "logs/2024/access".toList '/').length
      ∧ 1 ≤ (Split ((Split "logs/2024/access".toList '/').getD
          ((Split "logs/2024/access".toList '/').length - 1) []) '.').length
      ∧ (ParseLogGroupAndStream "logs/2024/access".toList).1 ≠ []
      ∧ (ParseLogGroupAndStream "logs/2024/access".toList).1.head? = some '/'
      ∧ (ParseLogGroupAndStream "logs/2024/access".toList).2 = [])
    ∧ (Split "logs/2024/access".toList '/').getD
        ((Split "logs/2024/access".toList '/').length - 1) [] = "access".toList
    ∧ ParseLogGroupAndStream "logs/2024/access".toList = ("/logs/2024".toList, [])
    ∧ ParseLogGroupAndStream "logs/2024/01/01.gz".toList
        = ("/logs/2024/01".toList, "01".toList) :=
  ⟨⟨(ParseLogGroupAndStream_total "logs/2024/access".toList).1,
      (ParseLogGroupAndStream_total "logs/2024/access".toList).2.1,
      (ParseLogGroupAndStream_total "logs/2024/access".toList).2.2.1,
      (ParseLogGroupAndStream_total "logs/2024/access".toList).2.2.2.1,
      (ParseLogGroupAndStream_total "logs/2024/access".toList).2.2.2.2 (by decide)⟩,
    by decide, by decide, by decide⟩

/-! ## Empty lines and comments -/

theorem processLoop_shift {σ : Type} (timeParse : GoString → Option Time)
    (clock : Nat → Time) (f : σ → InputLogEvent → Outcome × σ) (i : Nat)
    (lines : List GoString) (s : σ) :
    processLoop timeParse clock f (i + 1) lines s
      = processLoop timeParse (fun j => clock (j + 1)) f i lines s := by
  induction lines generalizing i s with
  | nil => simp [processLoop]
  | cons text rest ih =>
    by_cases h1 : text.length < 1
    · simp only [processLoop, h1, if_true]
      exact ih (i + 1) s
    · cases h2 : HasPrefix text ['#'] with
      | true =>
        simp only [processLoop, h1, h2, if_true, if_false]
        exact ih (i + 1) s
      | false =>
        simp only [processLoop, h1, h2, if_false, Bool.false_eq_true]
        generalize f s (lineEvent timeParse (clock (i + 1)) text) = r
        obtain ⟨o, s'⟩ := r
        cases o with
        | running => rfl
        | returned err =>
          cases err with
          | none => exact ih (i + 1) s'
          | some e => rfl

theorem processLoop_skip {σ : Type} (timeParse : GoString → Option Time)
    (clock : Nat → Time) (f : σ → InputLogEvent → Outcome × σ) (i : Nat)
    (text : GoString) (rest : List GoString) (s : σ)
    (hskip : (decide (text ≠ []) && !HasPrefix text ['#']) = false) :
    processLoop timeParse clock f i (text :: rest) s
      = processLoop timeParse clock f (i + 1) rest s := by
  by_cases h1 : text.length < 1
  · simp only [processLoop, h1, if_true]
  · have hne : text ≠ [] := fun e => h1 (by simp [e])
    have h2 : HasPrefix text ['#'] = true := by simpa [hne] using hskip
    simp only [processLoop, h1, h2, if_true, if_false]

theorem processLoop_filter {σ : Type} (timeParse : GoString → Option Time)
    (clock : Nat → Time) (f : σ → InputLogEvent → Outcome × σ) (lines : List GoString)
    (s : σ) :
    processLoop timeParse clock f 0 lines s
      = processLoop timeParse (keptClock clock lines) f 0
          (lines.filter fun l => decide (l ≠ []) && !HasPrefix l ['#']) s := by
  induction lines generalizing clock s with
  | nil => simp [processLoop]
  | cons text rest ih =>
    cases hk : (decide (text ≠ []) && !HasPrefix text ['#']) with
    | false =>
      rw [processLoop_skip timeParse clock f 0 text rest s hk, processLoop_shift, ih]
      simp only [List.filter, hk, keptClock, Bool.false_eq_true, if_false]
    | true =>
      have hne : text ≠ [] := by
        intro e
        simp [e] at hk
      have h1 : ¬ text.length < 1 := by
        cases text with
        | nil => exact absurd rfl hne
        | cons c cs => simp
      have h2 : HasPrefix text ['#'] = false := by simpa [hne] using hk
      simp only [List.filter, hk, keptClock, if_true]
      simp only [processLoop, h1, h2, if_false, Bool.false_eq_true]
      generalize f s (lineEvent timeParse (clock 0) text) = r
      obtain ⟨o, s'⟩ := r
      cases o with
      | running => rfl
      | returned err =>
        cases err with
        | some e => rfl
        | none =>
          simp only []
          rw [processLoop_shift, processLoop_shift, ih]

theorem keptClock_const (now : Time) (lines : List GoString) :
    keptClock (fun _ => now) lines = fun _ => now := by
  induction lines with
  | nil => rfl
  | cons text rest ih =>
    cases hk : (decide (text ≠ []) && !HasPrefix text ['#']) with
    | false => simp only [keptClock, hk, ih, Bool.false_eq_true, if_false]
    | true =>
      simp only [keptClock, hk, ih, if_true]
      funext j
      cases j with
      | zero => rfl
      | succ j => rfl

/-- Claim C15. A line that is empty or begins with `#` never reaches the callback:
the loop goes on to the next line with the state of the callback untouched. Such
lines do not change what the other lines produce: for every callback,
`ProcessLines` does on a list of lines what it does on the list without its empty
and `#` lines, each remaining line read at the same reading of the clock; with a
clock that stands still the two runs are equal outright, and so are the events
handed over. -/
theorem ProcessLines_skips_comments {σ : Type} (timeParse : GoString → Option Time)
    (clock : Nat → Time) (now : Time) (f : σ → InputLogEvent → Outcome × σ) (i : Nat)
    (text : GoString) (lines : List GoString) (s : σ)
    (hskip : text = [] ∨ HasPrefix text ['#'] = true) :
    processLoop timeParse clock f i (text :: lines) s
        = processLoop timeParse clock f (i + 1) lines s
      ∧ ProcessLines timeParse clock lines f s
        = ProcessLines timeParse (keptClock clock lines)
            (lines.filter fun l => decide (l ≠ []) && !HasPrefix l ['#']) f s
      ∧ ProcessLines timeParse (fun _ => now) lines f s
        = ProcessLines timeParse (fun _ => now)
            (lines.filter fun l => decide (l ≠ []) && !HasPrefix l ['#']) f s
      ∧ eventsHanded timeParse (fun _ => now) lines
        = eventsHanded timeParse (fun _ => now)
            (lines.filter fun l => decide (l ≠ []) && !HasPrefix l ['#']) := by
  have hk : (decide (text ≠ []) && !HasPrefix text ['#']) = false := by
    rcases hskip with h | h
    · simp [h]
    · simp [h]
  have hconst : ∀ {τ : Type} (g : τ → InputLogEvent → Outcome × τ) (t : τ),
      ProcessLines timeParse (fun _ => now) lines g t
        = ProcessLines timeParse (fun _ => now)
            (lines.filter fun l => decide (l ≠ []) && !HasPrefix l ['#']) g t := by
    intro τ g t
    have := processLoop_filter timeParse (fun _ => now) g lines t
    rw [keptClock_const] at this
    exact this
  refine ⟨processLoop_skip timeParse clock f i text lines s hk,
    processLoop_filter timeParse clock f lines s, hconst f s, ?_⟩
  simp only [eventsHanded]
  rw [hconst recordEvent []]

/-- Claim C15 at the example of the specification: its comment lines are passed
over, and its six lines produce the events of the four lines that are left. -/
theorem ProcessLines_skips_comments_witness :
    (processLoop timeParseLayout exampleClock recordEvent 0
          ("#Version: 1.0".toList :: exampleLines) []
        = processLoop timeParseLayout exampleClock recordEvent (0 + 1) exampleLines []
      ∧ ProcessLines timeParseLayout exampleClock exampleLines recordEvent []
        = ProcessLines timeParseLayout (keptClock exampleClock exampleLines)
            (exampleLines.filter fun l => decide (l ≠ []) && !HasPrefix l ['#']) recordEvent []
      ∧ ProcessLines timeParseLayout (fun _ => exampleClock 0) exampleLines recordEvent []
        = ProcessLines timeParseLayout (fun _ => exampleClock 0)
            (exampleLines.filter fun l => decide (l ≠ []) && !HasPrefix l ['#']) recordEvent []
      ∧ eventsHanded timeParseLayout (fun _ => exampleClock 0) exampleLines
        = eventsHanded timeParseLayout (fun _ => exampleClock 0)
            (exampleLines.filter fun l => decide (l ≠ []) && !HasPrefix l ['#']))
    ∧ (exampleLines.filter fun l => decide (l ≠ []) && !HasPrefix l ['#']).length = 4 :=
  ⟨ProcessLines_skips_comments timeParseLayout exampleClock (exampleClock 0) recordEvent 0
    "#Version: 1.0".toList exampleLines [] (Or.inr (by decide)), by decide⟩

/-! ## Creating the destination -/

/-- Claim C12. `CreateLogGroup` returns `nil` when the create call of the sink
succeeds or fails with a `ResourceAlreadyExistsException`, and returns the error
of the sink as it is for every other failure; so does `CreateLogStream`. Neither
changes the pusher: the buffered events, the byte size and the token stay. -/
theorem Create_tolerates_existing (createLogGroup : GoString → Option Error)
    (createLogStream : GoString → GoString → Option Error) (p : BatchLogPusher)
    (group stream : GoString) (e1 e2 : Error)
    (hgroup : createLogGroup group = none ∨ createLogGroup group = some e1)
    (hstream : createLogStream group stream = none
      ∨ createLogStream group stream = some e2) :
    (p.CreateLogGroup createLogGroup group).1
        = (if createLogGroup group = none ∨ asResourceAlreadyExists e1 = true then none
          else some e1)
      ∧ (p.CreateLogStream createLogStream group stream).1
        = (if createLogStream group stream = none ∨ asResourceAlreadyExists e2 = true then none
          else some e2)
      ∧ (p.CreateLogGroup createLogGroup group).2 = p
      ∧ (p.CreateLogStream createLogStream group stream).2 = p
      ∧ (p.CreateLogGroup createLogGroup group).2.input.LogEvents = p.input.LogEvents
      ∧ (p.CreateLogGroup createLogGroup group).2.eventsSize = p.eventsSize
      ∧ (p.CreateLogGroup createLogGroup group).2.input.SequenceToken = p.input.SequenceToken
      ∧ (p.CreateLogStream createLogStream group stream).2.input.LogEvents = p.input.LogEvents
      ∧ (p.CreateLogStream createLogStream group stream).2.eventsSize = p.eventsSize
      ∧ (p.CreateLogStream createLogStream group stream).2.input.SequenceToken
        = p.input.SequenceToken := by
  have hg2 : (p.CreateLogGroup createLogGroup group).2 = p := by
    unfold BatchLogPusher.CreateLogGroup
    cases createLogGroup group with
    | none => rfl
    | some err => cases h : asResourceAlreadyExists err <;> simp [h]
  have hs2 : (p.CreateLogStream createLogStream group stream).2 = p := by
    unfold BatchLogPusher.CreateLogStream
    cases createLogStream group stream with
    | none => rfl
    | some err => cases h : asResourceAlreadyExists err <;> simp [h]
  refine ⟨?_, ?_, hg2, hs2, by rw [hg2], by rw [hg2], by rw [hg2], by rw [hs2], by rw [hs2],
    by rw [hs2]⟩
  · unfold BatchLogPusher.CreateLogGroup
    rcases hgroup with h | h
    · simp [h]
    · cases ha : asResourceAlreadyExists e1 <;> simp [h, ha]
  · unfold BatchLogPusher.CreateLogStream
    rcases hstream with h | h
    · simp [h]
    · cases ha : asResourceAlreadyExists e2 <;> simp [h, ha]

/-- Claim C12 at a sink in which the group and the stream exist already: both
calls return `nil`; the refusal to create another group is returned as it is. -/
theorem Create_tolerates_existing_witness :
    (((examplePusher acceptingSink none).CreateLogGroup exampleCreateLogGroup "/logs".toList).1
        = (if exampleCreateLogGroup "/logs".toList = none
              ∨ asResourceAlreadyExists
                (Error.wrap "operation error CloudWatch Logs: CreateLogGroup"
                  Error.ResourceAlreadyExistsException) = true then none
          else some (Error.wrap "operation error CloudWatch Logs: CreateLogGroup"
            Error.ResourceAlreadyExistsException))
      ∧ ((examplePusher acceptingSink none).CreateLogStream exampleCreateLogStream
            "/logs".toList "01".toList).1
        = (if exampleCreateLogStream "/logs".toList "01".toList = none
              ∨ asResourceAlreadyExists Error.ResourceAlreadyExistsException = true then none
          else some Error.ResourceAlreadyExistsException)
      ∧ ((examplePusher acceptingSink none).CreateLogGroup exampleCreateLogGroup
            "/logs".toList).2 = examplePusher acceptingSink none
      ∧ ((examplePusher acceptingSink none).CreateLogStream exampleCreateLogStream
            "/logs".toList "01".toList).2 = examplePusher acceptingSink none
      ∧ ((examplePusher acceptingSink none).CreateLogGroup exampleCreateLogGroup
            "/logs".toList).2.input.LogEvents = (examplePusher acceptingSink none).input.LogEvents
      ∧ ((examplePusher acceptingSink none).CreateLogGroup exampleCreateLogGroup
            "/logs".toList).2.eventsSize = (examplePusher acceptingSink none).eventsSize
      ∧ ((examplePusher acceptingSink none).CreateLogGroup exampleCreateLogGroup
            "/logs".toList).2.input.SequenceToken
        = (examplePusher acceptingSink none).input.SequenceToken
      ∧ ((examplePusher acceptingSink none).CreateLogStream exampleCreateLogStream
            "/logs".toList "01".toList).2.input.LogEvents
        = (examplePusher acceptingSink none).input.LogEvents
      ∧ ((examplePusher acceptingSink none).CreateLogStream exampleCreateLogStream
            "/logs".toList "01".toList).2.eventsSize = (examplePusher acceptingSink none).eventsSize
      ∧ ((examplePusher acceptingSink none).CreateLogStream exampleCreateLogStream
            "/logs".toList "01".toList).2.input.SequenceToken
        = (examplePusher acceptingSink none).input.SequenceToken)
    ∧ ((examplePusher acceptingSink none).CreateLogGroup exampleCreateLogGroup "/logs".toList).1
        = none
    ∧ ((examplePusher acceptingSink none).CreateLogStream exampleCreateLogStream
          "/logs".toList "01".toList).1 = none
    ∧ ((examplePusher acceptingSink none).CreateLogGroup exampleCreateLogGroup "/other".toList).1
        = some (Error.other "AccessDeniedException") :=
  ⟨Create_tolerates_existing exampleCreateLogGroup exampleCreateLogStream
      (examplePusher acceptingSink none) "/logs".toList "01".toList
      (Error.wrap "operation error CloudWatch Logs: CreateLogGroup"
        Error.ResourceAlreadyExistsException)
      Error.ResourceAlreadyExistsException (Or.inr (by decide)) (Or.inr (by decide)),
    by decide, by decide, by decide⟩

/-! ## Facts kept along every run -/

theorem issuedCalls_self (p : BatchLogPusher) : issuedCalls p p = [] := by
  simp [issuedCalls]

theorem runCalls_invariant (sortSlice : SliceSorter) (I : BatchLogPusher → Prop)
    (hstep : ∀ p c, I p → I (p.call sortSlice c).2) (ops : List (Nat × Op))
    (p : BatchLogPusher) (h : I p) : I (runCalls sortSlice ops p).2 := by
  induction ops generalizing p with
  | nil => simpa [runCalls] using h
  | cons c rest ih =>
    cases ho : (p.call sortSlice c).1 with
    | running =>
      rw [runCalls_cons_running rest ho]
      exact hstep p c h
    | returned err =>
      rw [runCalls_cons_returned rest ho]
      exact ih _ (hstep p c h)

theorem runCalls_calls_all (sortSlice : SliceSorter) (P : Call → Prop)
    (hstep : ∀ p c, ∀ d ∈ issuedCalls p (p.call sortSlice c).2, P d)
    (ops : List (Nat × Op)) (p : BatchLogPusher) :
    ∀ d ∈ issuedCalls p (runCalls sortSlice ops p).2, P d := by
  induction ops generalizing p with
  | nil =>
    intro d hd
    simp [runCalls, issuedCalls] at hd
  | cons c rest ih =>
    cases ho : (p.call sortSlice c).1 with
    | running =>
      rw [runCalls_cons_running rest ho]
      exact hstep p c
    | returned err =>
      rw [runCalls_cons_returned rest ho]
      obtain ⟨new1, hc1, _⟩ := call_step sortSlice p c
      obtain ⟨new2, hc2, _⟩ := runCalls_facts sortSlice rest (p.call sortSlice c).2
      have h1 := hstep p c
      have h2 := ih (p.call sortSlice c).2
      rw [issuedCalls_eq hc1] at h1
      rw [issuedCalls_eq hc2] at h2
      have hc : (runCalls sortSlice rest (p.call sortSlice c).2).2.cwLogsClient.calls
          = p.cwLogsClient.calls ++ (new1 ++ new2) := by
        rw [hc2, hc1, List.append_assoc]
      simp only
      rw [issuedCalls_eq hc]
      intro d hd
      rcases List.mem_append.1 hd with hd | hd
      · exact h1 d hd
      · exact h2 d hd

theorem call_requests_nonempty (sortSlice : SliceSorter) (hs : SortsSlices sortSlice)
    (p : BatchLogPusher) (c : Nat × Op) :
    ∀ d ∈ issuedCalls p (p.call sortSlice c).2, d.input.LogEvents ≠ [] := by
  have hflush : ∀ fuel, ∀ d ∈ issuedCalls p (p.Flush sortSlice fuel).2,
      d.input.LogEvents ≠ [] := by
    intro fuel d hd
    obtain ⟨new, hrun, _, _⟩ := Flush_run sortSlice fuel p
    rw [issuedCalls_eq hrun.calls] at hd
    have hne : p.input.LogEvents ≠ [] := by
      intro h
      rw [(hrun.empty h).2.2] at hd
      simp at hd
    rw [(hrun.requests d hd).1]
    intro h
    have hp := hs.perm timestampLess p.input.LogEvents
    rw [h] at hp
    exact hne (List.Perm.eq_nil hp.symm)
  obtain ⟨fuel, op⟩ := c
  cases op with
  | Flush => exact hflush fuel
  | Add e =>
    simp only [BatchLogPusher.call]
    by_cases hroom : (p.input.LogEvents.length : Int) < p.batchSize
    · rw [Add_of_room sortSlice fuel p e hroom]
      intro d hd
      simp [issuedCalls] at hd
    · rw [Add_of_full sortSlice fuel p e (by omega)]
      by_cases ho : (p.Flush sortSlice fuel).1 = Outcome.returned none
      · simp only [ho, if_true]
        exact hflush fuel
      · simp only [ho, if_false]
        exact hflush fuel

/-! ## Flushing an empty batch -/

/-- Claim C17. `Flush` on a pusher whose batch is empty does nothing: it returns
`nil`, sends no request and leaves the pusher as it was, events, byte size and
token included. Consequently, along every run of `Add` and `Flush` calls from any
state, no `PutLogEvents` request carries an empty list of events. -/
theorem Flush_empty_noop (sortSlice : SliceSorter) (hs : SortsSlices sortSlice) (fuel : Nat)
    (p q : BatchLogPusher) (ops : List (Nat × Op)) (hempty : p.input.LogEvents = []) :
    p.Flush sortSlice fuel = (Outcome.returned none, p)
      ∧ issuedCalls p (p.Flush sortSlice fuel).2 = []
      ∧ (p.Flush sortSlice fuel).2.input.LogEvents = p.input.LogEvents
      ∧ (p.Flush sortSlice fuel).2.eventsSize = p.eventsSize
      ∧ (p.Flush sortSlice fuel).2.input.SequenceToken = p.input.SequenceToken
      ∧ ∀ d ∈ issuedCalls q (runCalls sortSlice ops q).2, d.input.LogEvents ≠ [] := by
  have h := Flush_of_empty sortSlice fuel p hempty
  refine ⟨h, by rw [h]; exact issuedCalls_self p, by rw [h], by rw [h], by rw [h], ?_⟩
  exact runCalls_calls_all sortSlice (fun d => d.input.LogEvents ≠ [])
    (call_requests_nonempty sortSlice hs) ops q

/-- Claim C17 at a new pusher, and along the run of the example against a sink that
expects another token: two flushes of the empty batch in front change nothing,
and the four requests of the run carry two events and one event, twice each. -/
theorem Flush_empty_noop_witness :
    ((NewBatchLogPusher ⟨expectingSink, []⟩ "/logs".toList "01".toList 2).Flush insertionSort 3
        = (Outcome.returned none,
            NewBatchLogPusher ⟨expectingSink, []⟩ "/logs".toList "01".toList 2)
      ∧ issuedCalls (NewBatchLogPusher ⟨expectingSink, []⟩ "/logs".toList "01".toList 2)
          ((NewBatchLogPusher ⟨expectingSink, []⟩ "/logs".toList "01".toList 2).Flush
            insertionSort 3).2 = []
      ∧ ((NewBatchLogPusher ⟨expectingSink, []⟩ "/logs".toList "01".toList 2).Flush
            insertionSort 3).2.input.LogEvents
        = (NewBatchLogPusher ⟨expectingSink, []⟩ "/logs".toList "01".toList 2).input.LogEvents
      ∧ ((NewBatchLogPusher ⟨expectingSink, []⟩ "/logs".toList "01".toList 2).Flush
            insertionSort 3).2.eventsSize
        = (NewBatchLogPusher ⟨expectingSink, []⟩ "/logs".toList "01".toList 2).eventsSize
      ∧ ((NewBatchLogPusher ⟨expectingSink, []⟩ "/logs".toList "01".toList 2).Flush
            insertionSort 3).2.input.SequenceToken
        = (NewBatchLogPusher ⟨expectingSink, []⟩ "/logs".toList "01".toList 2).input.SequenceToken
      ∧ ∀ d ∈ issuedCalls (NewBatchLogPusher ⟨expectingSink, []⟩ "/logs".toList "01".toList 2)
          (runCalls insertionSort ((3, Op.Flush) :: (3, Op.Flush) :: exampleOps 3)
            (NewBatchLogPusher ⟨expectingSink, []⟩ "/logs".toList "01".toList 2)).2,
          d.input.LogEvents ≠ [])
    ∧ (issuedCalls (NewBatchLogPusher ⟨expectingSink, []⟩ "/logs".toList "01".toList 2)
          (runCalls insertionSort ((3, Op.Flush) :: (3, Op.Flush) :: exampleOps 3)
            (NewBatchLogPusher ⟨expectingSink, []⟩ "/logs".toList "01".toList 2)).2).map
        (fun d => d.input.LogEvents.length) = [2, 2, 1, 1] :=
  ⟨Flush_empty_noop insertionSort insertionSort_sorts 3
      (NewBatchLogPusher ⟨expectingSink, []⟩ "/logs".toList "01".toList 2)
      (NewBatchLogPusher ⟨expectingSink, []⟩ "/logs".toList "01".toList 2)
      ((3, Op.Flush) :: (3, Op.Flush) :: exampleOps 3) (by decide),
    by decide⟩

/-! ## The byte size of the batch -/

theorem byteLen_sum_perm {l l' : List InputLogEvent} (h : l.Perm l') :
    (l.map fun e => byteLen e.Message).sum = (l'.map fun e => byteLen e.Message).sum :=
  (h.map _).sum_eq

theorem call_eventsSize (sortSlice : SliceSorter) (hs : SortsSlices sortSlice)
    (p : BatchLogPusher) (c : Nat × Op)
    (h : p.eventsSize = ((p.input.LogEvents.map fun e => byteLen e.Message).sum : Nat)) :
    (p.call sortSlice c).2.eventsSize
      = (((p.call sortSlice c).2.input.LogEvents.map fun e => byteLen e.Message).sum : Nat) := by
  have hsorted : ((sortSlice timestampLess p.input.LogEvents).map
      fun e => byteLen e.Message).sum = (p.input.LogEvents.map fun e => byteLen e.Message).sum :=
    byteLen_sum_perm (hs.perm timestampLess p.input.LogEvents)
  obtain ⟨fuel, op⟩ := c
  cases op with
  | Flush =>
    simp only [BatchLogPusher.call]
    obtain ⟨new, hrun, _, _⟩ := Flush_run sortSlice fuel p
    by_cases hemp : p.input.LogEvents = []
    · rw [(hrun.empty hemp).2.1]
      exact h
    · by_cases ho : (p.Flush sortSlice fuel).1 = Outcome.returned none
      · obtain ⟨hev, hsz, _, _⟩ := hrun.flushed hemp ho
        rw [hev, hsz]
        simp
      · obtain ⟨hev, hsz, _⟩ := hrun.kept ho
        rw [hev, hsz, hsorted]
        exact h
  | Add e =>
    simp only [BatchLogPusher.call]
    obtain ⟨new, hrun, _⟩ := Add_run sortSlice fuel p e
    by_cases hroom : (p.input.LogEvents.length : Int) < p.batchSize
    · obtain ⟨_, _, hev, hsz⟩ := hrun.room hroom
      rw [hev, hsz, h]
      simp
    · have hfull : p.batchSize ≤ (p.input.LogEvents.length : Int) := by omega
      by_cases ho : (p.Add sortSlice fuel e).1 = Outcome.returned none
      · obtain ⟨hev, _, hsz⟩ := hrun.flushed hfull ho
        rw [hev, hsz]
        by_cases hemp : p.input.LogEvents = []
        · rw [h]
          simp [hemp]
        · simp [hemp]
      · obtain ⟨_, _, hev, hsz, _⟩ := hrun.kept ho
        rw [hev, hsz, hsorted]
        exact h

/-- Claim C20. In every state reached from `NewBatchLogPusher` by a sequence of
`Add` and `Flush` calls, against any sink, the byte size kept by the pusher is
the sum of the byte lengths of the messages of the buffered events, and
`calculatePayloadSize` is that sum plus 26 times the number of buffered events
plus one. -/
theorem eventsSize_is_sum (sortSlice : SliceSorter) (hs : SortsSlices sortSlice)
    (cwLogsClient : CloudwatchLogsClient) (group stream : GoString) (batchSize : Int)
    (ops : List (Nat × Op)) :
    (runCalls sortSlice ops (NewBatchLogPusher cwLogsClient group stream batchSize)).2.eventsSize
        = (((runCalls sortSlice ops
            (NewBatchLogPusher cwLogsClient group stream batchSize)).2.input.LogEvents.map
              fun e => byteLen e.Message).sum : Nat)
      ∧ (runCalls sortSlice ops
          (NewBatchLogPusher cwLogsClient group stream batchSize)).2.calculatePayloadSize
        = (((runCalls sortSlice ops
            (NewBatchLogPusher cwLogsClient group stream batchSize)).2.input.LogEvents.map
              fun e => byteLen e.Message).sum : Nat)
          + 26 * (((runCalls sortSlice ops
              (NewBatchLogPusher cwLogsClient group stream batchSize)).2.input.LogEvents.length
            : Int) + 1) := by
  have hinv := runCalls_invariant sortSlice
    (fun p => p.eventsSize = ((p.input.LogEvents.map fun e => byteLen e.Message).sum : Nat))
    (fun p c h => call_eventsSize sortSlice hs p c h) ops
    (NewBatchLogPusher cwLogsClient group stream batchSize) (by simp [NewBatchLogPusher])
  refine ⟨hinv, ?_⟩
  simp only [BatchLogPusher.calculatePayloadSize]
  rw [hinv]
  ring

/-- Claim C20 at a run of three adds and a flush against a sink that fails every
request, with batch size two: the two events left in the batch have messages of
10 and 11 bytes, so the byte size is 21 and the payload size 21 + 26 * 3. -/
theorem eventsSize_is_sum_witness :
    ((runCalls insertionSort (exampleOps 1)
        (NewBatchLogPusher ⟨failingSink, []⟩ "/logs".toList "01".toList 2)).2.eventsSize
        = (((runCalls insertionSort (exampleOps 1)
            (NewBatchLogPusher ⟨failingSink, []⟩ "/logs".toList "01".toList 2)).2.input.LogEvents.map
              fun e => byteLen e.Message).sum : Nat)
      ∧ (runCalls insertionSort (exampleOps 1)
          (NewBatchLogPusher ⟨failingSink, []⟩ "/logs".toList "01".toList 2)).2.calculatePayloadSize
        = (((runCalls insertionSort (exampleOps 1)
            (NewBatchLogPusher ⟨failingSink, []⟩ "/logs".toList "01".toList 2)).2.input.LogEvents.map
              fun e => byteLen e.Message).sum : Nat)
          + 26 * (((runCalls insertionSort (exampleOps 1)
              (NewBatchLogPusher ⟨failingSink, []⟩ "/logs".toList "01".toList
                2)).2.input.LogEvents.length : Int) + 1))
    ∧ (runCalls insertionSort (exampleOps 1)
        (NewBatchLogPusher ⟨failingSink, []⟩ "/logs".toList "01".toList 2)).2.eventsSize = 21
    ∧ (runCalls insertionSort (exampleOps 1)
        (NewBatchLogPusher ⟨failingSink, []⟩ "/logs".toList "01".toList 2)).2.calculatePayloadSize
      = 99 :=
  ⟨eventsSize_is_sum insertionSort insertionSort_sorts ⟨failingSink, []⟩ "/logs".toList
    "01".toList 2 (exampleOps 1), by decide, by decide⟩

/-! ## Events with equal timestamps -/

theorem swapPairs_count (less : InputLogEvent → InputLogEvent → Bool) (x : InputLogEvent)
    (as bs : List InputLogEvent) :
    (swapPairs less as bs).1.count x + (swapPairs less as bs).2.count x
      = as.count x + bs.count x := by
  induction as generalizing bs with
  | nil => simp [swapPairs]
  | cons a as ih =>
    cases bs with
    | nil => simp [swapPairs]
    | cons b bs =>
      have h := ih bs
      cases hl : less b a with
      | true =>
        simp only [swapPairs, hl, if_true, List.count_cons]
        omega
      | false =>
        simp only [swapPairs, hl, Bool.false_eq_true, if_false, List.count_cons]
        omega

theorem shellPass_perm (less : InputLogEvent → InputLogEvent → Bool)
    (l : List InputLogEvent) : (shellPass less l).Perm l := by
  rw [List.perm_iff_count]
  intro x
  have h := swapPairs_count less x (l.take 6) (l.drop 6)
  have hl : (l.take 6).count x + (l.drop 6).count x = l.count x := by
    rw [← List.count_append, List.take_append_drop]
  simp only [shellPass, List.count_append]
  omega

/-- The ShellSort pass followed by insertion sort meets the contract of `sort.Slice`. -/
theorem shellInsertionSort_sorts : SortsSlices shellInsertionSort := by
  constructor
  · intro less l
    exact (insertionSort_sorts.perm less _).trans (shellPass_perm less l)
  · intro less l hless
    exact insertionSort_sorts.sorted less _ hless

/-- Claim C16, as the code has it. `Flush` sorts with `sort.Slice`, which orders
the events and promises nothing more: every request that `Flush` issues carries
the events in non-decreasing order of timestamp, and for every timestamp the
events that bear it are the same in the request and in the batch, as multisets;
their relative order is left to `sort.Slice`. -/
theorem Flush_sort_keeps_ties_together (sortSlice : SliceSorter) (hs : SortsSlices sortSlice)
    (fuel : Nat) (p : BatchLogPusher) (t : Int) :
    ∀ c ∈ issuedCalls p (p.Flush sortSlice fuel).2,
      c.input.LogEvents.Pairwise (fun a b => a.Timestamp ≤ b.Timestamp)
        ∧ (c.input.LogEvents.filter fun e => decide (e.Timestamp = t)).Perm
            (p.input.LogEvents.filter fun e => decide (e.Timestamp = t)) := by
  obtain ⟨new, hrun, _, _⟩ := Flush_run sortSlice fuel p
  rw [issuedCalls_eq hrun.calls]
  intro c hc
  rw [(hrun.requests c hc).1]
  exact ⟨sorted_timestamps hs _, (hs.perm _ _).filter _⟩

/-- Claim C16 at the seven events of `tieEvents`, sorted by insertion sort, which
happens to keep the two events of timestamp 5 in the order `a`, `b`. -/
theorem Flush_sort_keeps_ties_together_witness :
    (∀ c ∈ issuedCalls tiePusher (tiePusher.Flush insertionSort 1).2,
      c.input.LogEvents.Pairwise (fun a b => a.Timestamp ≤ b.Timestamp)
        ∧ (c.input.LogEvents.filter fun e => decide (e.Timestamp = 5)).Perm
            (tiePusher.input.LogEvents.filter fun e => decide (e.Timestamp = 5)))
    ∧ (issuedCalls tiePusher (tiePusher.Flush insertionSort 1).2).map
        (fun c => c.input.LogEvents.map fun e => String.mk e.Message)
      = [["g", "c", "d", "e", "a", "b", "f"]] :=
  ⟨Flush_sort_keeps_ties_together insertionSort insertionSort_sorts 1 tiePusher 5, by decide⟩

/-- Claim C16 as stated fails. With a `sort.Slice` that makes a ShellSort pass
before insertion sort, which meets the contract of the library, the seven events
of `tieEvents` are sent sorted by timestamp, but the event `b` comes before the
event `a`, which has the same timestamp and was added first. -/
theorem Flush_sort_keeps_ties_together_counterexample :
    SortsSlices shellInsertionSort
      ∧ (issuedCalls tiePusher (tiePusher.Flush shellInsertionSort 1).2).map
          (fun c => c.input.LogEvents.map fun e => String.mk e.Message)
        = [["g", "c", "d", "e", "b", "a", "f"]]
      ∧ (issuedCalls tiePusher (tiePusher.Flush shellInsertionSort 1).2).map
          (fun c => (c.input.LogEvents.filter fun e => decide (e.Timestamp = 5)).map
            fun e => String.mk e.Message)
        = [["b", "a"]]
      ∧ (tiePusher.input.LogEvents.filter fun e => decide (e.Timestamp = 5)).map
          (fun e => String.mk e.Message)
        = ["a", "b"] :=
  ⟨shellInsertionSort_sorts, by decide, by decide, by decide⟩

/-! ## The platform users -/

theorem hasTag_iff (tags : List Tag) (key : GoString) :
    hasTag tags key = true ↔ ∃ t ∈ tags, t.Key = key := by
  induction tags with
  | nil => simp [hasTag]
  | cons tag tags ih =>
    by_cases h : tag.Key = key
    · simp [hasTag, h]
    · simp [hasTag, h, ih]

theorem contains_append_self (s : List GoString) (e : GoString) :
    contains (s ++ [e]) e = true := by
  induction s with
  | nil => simp [contains]
  | cons a s ih =>
    by_cases h : a = e
    · simp [contains, h]
    · simp [contains, h, ih]

theorem extractUsernameFromARN_of_user (parse : GoString → Except Error ARN)
    (arn name : GoString) (a : ARN) (hparse : parse arn = Except.ok a)
    (hres : a.Resource = "user/".toList ++ name) (hname : '/' ∉ name) :
    extractUsernameFromARN parse arn = (name, none) := by
  have hfree : ∀ q ∈ ["user".toList, name], '/' ∉ q := by
    intro q hq
    rcases List.mem_cons.1 hq with rfl | hq
    · decide
    · rw [List.mem_singleton.1 hq]
      exact hname
  have hsplit := Split_Join '/' "user".toList [name] hfree
  have hjoin : Join ["user".toList, name] ['/'] = "user/".toList ++ name := by
    rw [Join_cons_cons, Join_singleton]
    rfl
  rw [hjoin, ← hres] at hsplit
  simp only [extractUsernameFromARN, hparse, hsplit]
  simp

/-- Claim C19. The ARN parses and its resource is `user/<name>`, with no slash in
the name; the tag service answers the `ListUserTags` request for the name with
the tags `tags`. Then `IsUser` on a new client returns within two nested calls,
without error, and its answer is whether one of the tags has the key
`skpr.io/role`; it has asked the tag service once. The client it leaves answers
`IsUser` for the same ARN in the same way at once, and is left unchanged by that
call, so that the tag service is not asked again. -/
theorem IsUser_of_user_arn (parse : GoString → Except Error ARN) (iam : IAMService)
    (arn name : GoString) (a : ARN) (tags : List Tag) (fuel again : Nat)
    (hparse : parse arn = Except.ok a)
    (hres : a.Resource = "user/".toList ++ name) (hname : '/' ∉ name)
    (htags : iam.respond (iam.calls.map TagCall.UserName ++ [name])
      = ListUserTagsResult.ok tags)
    (hfuel : 2 ≤ fuel) (hagain : 1 ≤ again) :
    (NewClient iam).IsUser parse fuel arn
        = some ((hasTag tags TagKeyRole, none),
            { iam := { iam with calls := iam.calls ++ [⟨name, ListUserTagsResult.ok tags⟩] }
              Users := if hasTag tags TagKeyRole then [arn] else []
              NotUsers := if hasTag tags TagKeyRole then [] else [arn] })
      ∧ (hasTag tags TagKeyRole = true ↔ ∃ t ∈ tags, t.Key = "skpr.io/role".toList)
      ∧ Client.IsUser parse again
          { iam := { iam with calls := iam.calls ++ [⟨name, ListUserTagsResult.ok tags⟩] }
            Users := if hasTag tags TagKeyRole then [arn] else []
            NotUsers := if hasTag tags TagKeyRole then [] else [arn] } arn
        = some ((hasTag tags TagKeyRole, none),
            { iam := { iam with calls := iam.calls ++ [⟨name, ListUserTagsResult.ok tags⟩] }
              Users := if hasTag tags TagKeyRole then [arn] else []
              NotUsers := if hasTag tags TagKeyRole then [] else [arn] }) := by
  have hex := extractUsernameFromARN_of_user parse arn name a hparse hres hname
  obtain ⟨k, rfl⟩ : ∃ k, fuel = k + 2 := ⟨fuel - 2, by omega⟩
  obtain ⟨j, rfl⟩ : ∃ j, again = j + 1 := ⟨again - 1, by omega⟩
  refine ⟨?_, hasTag_iff tags _, ?_⟩
  · cases ht : hasTag tags TagKeyRole with
    | true =>
      simp [Client.IsUser, hex, NewClient, contains, IAMService.ListUserTags, htags, ht]
    | false =>
      simp [Client.IsUser, hex, NewClient, contains, IAMService.ListUserTags, htags, ht]
  · cases ht : hasTag tags TagKeyRole with
    | true => simp [Client.IsUser, hex, contains]
    | false => simp [Client.IsUser, hex, contains]

/-- Claim C19 at the ARN of the user `alice`, who bears the role tag. -/
theorem IsUser_of_user_arn_witness :
    (NewClient ⟨exampleTagService, []⟩).IsUser arnParse 2
          "arn:aws:iam::123456789012:user/alice".toList
        = some ((hasTag [⟨"team".toList, "platform".toList⟩,
              ⟨"skpr.io/role".toList, "developer".toList⟩] TagKeyRole, none),
            { iam := { (⟨exampleTagService, []⟩ : IAMService) with
                calls := (⟨exampleTagService, []⟩ : IAMService).calls
                  ++ [⟨"alice".toList, ListUserTagsResult.ok [⟨"team".toList, "platform".toList⟩,
                    ⟨"skpr.io/role".toList, "developer".toList⟩]⟩] }
              Users := if hasTag [⟨"team".toList, "platform".toList⟩,
                  ⟨"skpr.io/role".toList, "developer".toList⟩] TagKeyRole
                then ["arn:aws:iam::123456789012:user/alice".toList] else []
              NotUsers := if hasTag [⟨"team".toList, "platform".toList⟩,
                  ⟨"skpr.io/role".toList, "developer".toList⟩] TagKeyRole
                then [] else ["arn:aws:iam::123456789012:user/alice".toList] })
      ∧ (hasTag [⟨"team".toList, "platform".toList⟩,
            ⟨"skpr.io/role".toList, "developer".toList⟩] TagKeyRole = true
          ↔ ∃ t ∈ [(⟨"team".toList, "platform".toList⟩ : Tag),
              ⟨"skpr.io/role".toList, "developer".toList⟩], t.Key = "skpr.io/role".toList)
      ∧ Client.IsUser arnParse 1
          { iam := { (⟨exampleTagService, []⟩ : IAMService) with
              calls := (⟨exampleTagService, []⟩ : IAMService).calls
                ++ [⟨"alice".toList, ListUserTagsResult.ok [⟨"team".toList, "platform".toList⟩,
                  ⟨"skpr.io/role".toList, "developer".toList⟩]⟩] }
            Users := if hasTag [⟨"team".toList, "platform".toList⟩,
                ⟨"skpr.io/role".toList, "developer".toList⟩] TagKeyRole
              then ["arn:aws:iam::123456789012:user/alice".toList] else []
            NotUsers := if hasTag [⟨"team".toList, "platform".toList⟩,
                ⟨"skpr.io/role".toList, "developer".toList⟩] TagKeyRole
              then [] else ["arn:aws:iam::123456789012:user/alice".toList] }
          "arn:aws:iam::123456789012:user/alice".toList
        = some ((hasTag [⟨"team".toList, "platform".toList⟩,
              ⟨"skpr.io/role".toList, "developer".toList⟩] TagKeyRole, none),
            { iam := { (⟨exampleTagService, []⟩ : IAMService) with
                calls := (⟨exampleTagService, []⟩ : IAMService).calls
                  ++ [⟨"alice".toList, ListUserTagsResult.ok [⟨"team".toList, "platform".toList⟩,
                    ⟨"skpr.io/role".toList, "developer".toList⟩]⟩] }
              Users := if hasTag [⟨"team".toList, "platform".toList⟩,
                  ⟨"skpr.io/role".toList, "developer".toList⟩] TagKeyRole
                then ["arn:aws:iam::123456789012:user/alice".toList] else []
              NotUsers := if hasTag [⟨"team".toList, "platform".toList⟩,
                  ⟨"skpr.io/role".toList, "developer".toList⟩] TagKeyRole
                then [] else ["arn:aws:iam::123456789012:user/alice".toList] }) :=
  IsUser_of_user_arn arnParse ⟨exampleTagService, []⟩
    "arn:aws:iam::123456789012:user/alice".toList "alice".toList
    ⟨"aws".toList, "iam".toList, [], "123456789012".toList, "user/alice".toList⟩
    [⟨"team".toList, "platform".toList⟩, ⟨"skpr.io/role".toList, "developer".toList⟩] 2 1
    (by rfl) (by decide) (by decide) (by decide) (by decide) (by decide)

/-! ## The retries end when the conflicts end -/

/-- The shape of every run of `putLogEvents`: either the budget is used up, and
then every one of the `fuel` requests was answered with a token conflict; or the
run returned, and then the last request is the only one not answered with a
conflict, the error returned is that of its answer, and every budget that allows
that many requests gives the same result. -/
theorem putLogEvents_shape (fuel : Nat) (p : BatchLogPusher) :
    ∃ new : List Call,
      (p.putLogEvents fuel).2.cwLogsClient.calls = p.cwLogsClient.calls ++ new
        ∧ (((p.putLogEvents fuel).1 = Outcome.running ∧ new.length = fuel
              ∧ ∀ c ∈ new, c.result.isConflict = true)
          ∨ ∃ init last, new = init ++ [last] ∧ init.length < fuel
              ∧ (∀ c ∈ init, c.result.isConflict = true)
              ∧ last.result.isConflict = false
              ∧ (p.putLogEvents fuel).1 = Outcome.returned last.result.toError
              ∧ ∀ m, init.length < m → p.putLogEvents m = p.putLogEvents fuel) := by
  induction fuel generalizing p with
  | zero =>
    exact ⟨[], by simp [BatchLogPusher.putLogEvents],
      Or.inl ⟨rfl, rfl, by simp⟩⟩
  | succ fuel ih =>
    rw [putLogEvents_succ]
    cases hres : p.cwLogsClient.respond (p.cwLogsClient.history ++ [p.input]) with
    | ok next =>
      refine ⟨[⟨p.input, PutLogEventsResult.ok next⟩], rfl, Or.inr ⟨[], _, rfl, by simp,
        by simp, rfl, rfl, ?_⟩⟩
      intro m hm
      obtain ⟨m, rfl⟩ : ∃ m', m = m' + 1 := ⟨m - 1, by simp at hm; omega⟩
      rw [putLogEvents_succ, hres]
    | error err =>
      dsimp only
      cases hc : conflictToken err with
      | none =>
        dsimp only
        refine ⟨[⟨p.input, PutLogEventsResult.error err⟩], rfl, Or.inr ⟨[], _, rfl, by simp,
          by simp, by simp [PutLogEventsResult.isConflict, hc], rfl, ?_⟩⟩
        intro m hm
        obtain ⟨m, rfl⟩ : ∃ m', m = m' + 1 := ⟨m - 1, by simp at hm; omega⟩
        rw [putLogEvents_succ, hres]
        dsimp only
        rw [hc]
      | some expected =>
        dsimp only
        obtain ⟨new, hcalls, hshape⟩ := ih
          { p with
            cwLogsClient := { p.cwLogsClient with
              calls := p.cwLogsClient.calls ++ [⟨p.input, PutLogEventsResult.error err⟩] }
            input := { p.input with SequenceToken := expected } }
        have hfirst : (⟨p.input, PutLogEventsResult.error err⟩ : Call).result.isConflict
            = true := by
          simp [PutLogEventsResult.isConflict, hc]
        refine ⟨⟨p.input, PutLogEventsResult.error err⟩ :: new, by simpa using hcalls, ?_⟩
        rcases hshape with ⟨hrun, hlen, hall⟩ | ⟨init, last, hnew, hlen, hall, hlast, hret, hmono⟩
        · refine Or.inl ⟨hrun, by simpa using hlen, ?_⟩
          intro c hc'
          rcases List.mem_cons.1 hc' with rfl | hc'
          · exact hfirst
          · exact hall c hc'
        · refine Or.inr ⟨⟨p.input, PutLogEventsResult.error err⟩ :: init, last,
            by simp [hnew], by simpa using hlen, ?_, hlast, hret, ?_⟩
          · intro c hc'
            rcases List.mem_cons.1 hc' with rfl | hc'
            · exact hfirst
            · exact hall c hc'
          · intro m hm
            obtain ⟨m, rfl⟩ : ∃ m', m = m' + 1 := ⟨m - 1, by simp at hm; omega⟩
            rw [putLogEvents_succ, hres]
            dsimp only
            rw [hc]
            dsimp only
            exact hmono m (by simpa using hm)

/-- Every call `putLogEvents` records carries the answer the sink gave to the
requests received up to that call. -/
theorem putLogEvents_answers (fuel : Nat) (p : BatchLogPusher) (new : List Call)
    (hcalls : (p.putLogEvents fuel).2.cwLogsClient.calls = p.cwLogsClient.calls ++ new) :
    ∀ i c, new[i]? = some c →
      c.result = p.cwLogsClient.respond
        (p.cwLogsClient.history ++ (new.take (i + 1)).map Call.input) := by
  induction fuel generalizing p new with
  | zero =>
    have hnil : new = [] := by
      simpa [BatchLogPusher.putLogEvents] using hcalls
    subst hnil
    simp
  | succ fuel ih =>
    rw [putLogEvents_succ] at hcalls
    cases hres : p.cwLogsClient.respond (p.cwLogsClient.history ++ [p.input]) with
    | ok next =>
      rw [hres] at hcalls
      have hnew : new = [⟨p.input, PutLogEventsResult.ok next⟩] := by
        simpa using hcalls.symm
      subst hnew
      intro i c hi
      cases i with
      | zero =>
        simp at hi
        subst hi
        simpa using hres.symm
      | succ i => simp at hi
    | error err =>
      rw [hres] at hcalls
      dsimp only at hcalls
      cases hc : conflictToken err with
      | none =>
        rw [hc] at hcalls
        have hnew : new = [⟨p.input, PutLogEventsResult.error err⟩] := by
          simpa using hcalls.symm
        subst hnew
        intro i c hi
        cases i with
        | zero =>
          simp at hi
          subst hi
          simpa using hres.symm
        | succ i => simp at hi
      | some expected =>
        rw [hc] at hcalls
        dsimp only at hcalls
        obtain ⟨new1, hrun, _⟩ := putLogEvents_run fuel
          { p with
            cwLogsClient := { p.cwLogsClient with
              calls := p.cwLogsClient.calls ++ [⟨p.input, PutLogEventsResult.error err⟩] }
            input := { p.input with SequenceToken := expected } }
        have h1 := hrun.calls
        have hnew : new = ⟨p.input, PutLogEventsResult.error err⟩ :: new1 := by
          rw [h1] at hcalls
          simpa using hcalls.symm
        have ih1 := ih _ new1 h1
        subst hnew
        intro i c hi
        cases i with
        | zero =>
          simp at hi
          subst hi
          simpa using hres.symm
        | succ i =>
          have := ih1 i c (by simpa using hi)
          simpa [CloudwatchLogsClient.history] using this

/-- Against a sink that answers every request with a token conflict, no budget
is enough: the run is still going after `n` requests, for every `n`. -/
theorem putLogEvents_conflicts_forever (n : Nat) (p : BatchLogPusher)
    (halways : ∀ h, (p.cwLogsClient.respond h).isConflict = true) :
    (p.putLogEvents n).1 = Outcome.running
      ∧ (issuedCalls p (p.putLogEvents n).2).length = n := by
  obtain ⟨new, hcalls, hshape⟩ := putLogEvents_shape n p
  rw [issuedCalls_eq hcalls]
  rcases hshape with ⟨hrun', hlen, _⟩ | ⟨init, last, hnew, _, _, hlast, _, _⟩
  · exact ⟨hrun', hlen⟩
  · exfalso
    have hget : new[init.length]? = some last := by
      rw [hnew]
      simp
    have := putLogEvents_answers n p new hcalls init.length last hget
    rw [this, halways] at hlast
    exact absurd hlast (by decide)

/-- Claim C21. The retries of `putLogEvents` end when the conflicts end. If the
sink answers one of the first `k + 1` requests of the retry loop from state `p`
with something other than a token conflict, so that at most `k` requests in a
row meet a conflict, then with every budget of at least `k + 1` requests
`putLogEvents` returns: the requests issued are at most `k` that met a conflict
followed by one that did not, whose answer is what the sink gave to the requests
so far, and the value returned is `nil` when that answer is a success and its
error otherwise. The function has no ceiling of its own: from a state `q` whose
sink answers every request with a token conflict, the run is still going after
`n` requests for every `n`. -/
theorem putLogEvents_returns_when_conflicts_end (k fuel n : Nat) (p q : BatchLogPusher)
    (hk : ∃ c ∈ issuedCalls p (p.putLogEvents (k + 1)).2, c.result.isConflict = false)
    (hfuel : k + 1 ≤ fuel)
    (halways : ∀ h, (q.cwLogsClient.respond h).isConflict = true) :
    (∃ init last,
        issuedCalls p (p.putLogEvents fuel).2 = init ++ [last]
          ∧ init.length ≤ k
          ∧ (∀ c ∈ init, c.result.isConflict = true)
          ∧ last.result.isConflict = false
          ∧ last.result = p.cwLogsClient.respond
              (p.cwLogsClient.history ++ (init ++ [last]).map Call.input)
          ∧ (p.putLogEvents fuel).1 = Outcome.returned last.result.toError)
      ∧ (q.putLogEvents n).1 = Outcome.running
      ∧ (issuedCalls q (q.putLogEvents n).2).length = n := by
  refine ⟨?_, putLogEvents_conflicts_forever n q halways⟩
  obtain ⟨new, hcalls, hshape⟩ := putLogEvents_shape (k + 1) p
  rw [issuedCalls_eq hcalls] at hk
  obtain ⟨c, hc, hcr⟩ := hk
  rcases hshape with ⟨_, _, hall⟩ | ⟨init, last, hnew, hlen, hall, hlast, hret, hmono⟩
  · rw [hall c hc] at hcr
    exact absurd hcr (by decide)
  · have hsame : p.putLogEvents fuel = p.putLogEvents (k + 1) := hmono fuel (by omega)
    rw [hsame, issuedCalls_eq hcalls]
    refine ⟨init, last, hnew, by omega, hall, hlast, ?_, hret⟩
    have hget : new[init.length]? = some last := by
      rw [hnew]
      simp
    have hans := putLogEvents_answers (k + 1) p new hcalls init.length last hget
    have htake : new.take (init.length + 1) = init ++ [last] := by
      rw [hnew]
      exact List.take_of_length_le (by simp)
    rw [htake] at hans
    exact hans

/-- Claim C21 at two examples: a sink that meets the first two requests with a
conflict and fails the third makes `putLogEvents` return that error after three
requests, with a budget of seven; a sink that always reports a conflict has used
up a budget of fifty requests without a result. -/
theorem putLogEvents_returns_when_conflicts_end_witness :
    ((∃ init last,
        issuedCalls (examplePusher conflictingThenFailingSink none)
            ((examplePusher conflictingThenFailingSink none).putLogEvents 7).2 = init ++ [last]
          ∧ init.length ≤ 2
          ∧ (∀ c ∈ init, c.result.isConflict = true)
          ∧ last.result.isConflict = false
          ∧ last.result = (examplePusher conflictingThenFailingSink none).cwLogsClient.respond
              ((examplePusher conflictingThenFailingSink none).cwLogsClient.history
                ++ (init ++ [last]).map Call.input)
          ∧ ((examplePusher conflictingThenFailingSink none).putLogEvents 7).1
              = Outcome.returned last.result.toError)
      ∧ ((examplePusher alwaysConflictSink none).putLogEvents 50).1 = Outcome.running
      ∧ (issuedCalls (examplePusher alwaysConflictSink none)
          ((examplePusher alwaysConflictSink none).putLogEvents 50).2).length = 50)
    ∧ ((examplePusher conflictingThenFailingSink none).putLogEvents 7).1
        = Outcome.returned (some (Error.other "ServiceUnavailableException"))
    ∧ (issuedCalls (examplePusher conflictingThenFailingSink none)
        ((examplePusher conflictingThenFailingSink none).putLogEvents 7).2).map
          (fun c => c.input.SequenceToken) = [none, some "T2", some "T2"] :=
  ⟨putLogEvents_returns_when_conflicts_end 2 7 50
      (examplePusher conflictingThenFailingSink none) (examplePusher alwaysConflictSink none)
      (by decide) (by decide) (fun _ => rfl),
    by decide, by decide⟩

/-! ## Filtering the records of a log file -/

theorem roundTrip_ok {α β : Type} {jsonMarshal : α → Except Error β}
    {jsonUnmarshal : β → Except Error Record} {r : α} {record : Record}
    (h : roundTrip jsonMarshal jsonUnmarshal r = Except.ok record) :
    ∃ bodyBytes, jsonMarshal r = Except.ok bodyBytes
      ∧ jsonUnmarshal bodyBytes = Except.ok record := by
  unfold roundTrip at h
  cases hm : jsonMarshal r with
  | error err => simp [hm] at h
  | ok bodyBytes =>
    rw [hm] at h
    exact ⟨bodyBytes, rfl, h⟩

/-- One turn of the loop on a record that does not decode: the error of the
library is returned with the file as it stands. -/
theorem filterLoop_cons_undecoded {α β : Type} (jsonMarshal : α → Except Error β)
    (jsonUnmarshal : β → Except Error Record) (r : α) (rest : List α) (iam : IAM)
    (filtered : LogFile α) (err : Error)
    (h : roundTrip jsonMarshal jsonUnmarshal r = Except.error err) :
    filterLoop jsonMarshal jsonUnmarshal (r :: rest) iam filtered
      = ((filtered, some err), iam) := by
  unfold roundTrip at h
  cases hm : jsonMarshal r with
  | error e =>
    rw [hm] at h
    simp only [filterLoop, hm]
    cases h
    rfl
  | ok bodyBytes =>
    rw [hm] at h
    simp only at h
    simp only [filterLoop, hm, h]

/-- One turn of the loop on a record that decodes to `record`. -/
theorem filterLoop_cons_decoded {α β : Type} (jsonMarshal : α → Except Error β)
    (jsonUnmarshal : β → Except Error Record) (r : α) (rest : List α) (iam : IAM)
    (filtered : LogFile α) (record : Record)
    (h : roundTrip jsonMarshal jsonUnmarshal r = Except.ok record) :
    filterLoop jsonMarshal jsonUnmarshal (r :: rest) iam filtered
      = if record.UserIdentity.Type_ ≠ UserIdentityTypeIAM then
          filterLoop jsonMarshal jsonUnmarshal rest iam filtered
        else
          match iam.respond (iam.calls.map IsUserCall.arn ++ [record.UserIdentity.ARN]) with
          | (_, some err) =>
            ((filtered,
              some (Error.wrap "failed to determine if ARN belongs to a platform user" err)),
              { iam with calls := iam.calls
                  ++ [⟨record.UserIdentity.ARN,
                    (iam.respond (iam.calls.map IsUserCall.arn ++ [record.UserIdentity.ARN])).1,
                    some err⟩] })
          | (ok, none) =>
            if ok = true then
              filterLoop jsonMarshal jsonUnmarshal rest
                { iam with calls := iam.calls ++ [⟨record.UserIdentity.ARN, ok, none⟩] }
                { filtered with Records := filtered.Records ++ [r] }
            else
              filterLoop jsonMarshal jsonUnmarshal rest
                { iam with calls := iam.calls ++ [⟨record.UserIdentity.ARN, ok, none⟩] }
                filtered := by
  obtain ⟨bodyBytes, hm, hu⟩ := roundTrip_ok h
  simp only [filterLoop, hm, hu, IAM.IsUser]
  by_cases ht : record.UserIdentity.Type_ = UserIdentityTypeIAM
  · simp only [ht, ne_eq, not_true_eq_false, if_false]
    rcases hres : iam.respond (iam.calls.map IsUserCall.arn ++ [record.UserIdentity.ARN])
      with ⟨ok, err⟩
    cases err with
    | some e => rfl
    | none =>
      cases ok with
      | true => rfl
      | false => rfl
  · simp [ht]

/-- The loop on records that all decode, with an implementation of `IAM` that
never fails and answers by the ARN alone: the records kept are appended in their
order, and one call is made for every record of an IAM user, in their order. -/
theorem filterLoop_of_answers {α β : Type} (jsonMarshal : α → Except Error β)
    (jsonUnmarshal : β → Except Error Record) (recordOf : α → Record)
    (isUser : GoString → Bool) (records : List α) (iam : IAM) (filtered : LogFile α)
    (hdecode : ∀ r ∈ records,
      roundTrip jsonMarshal jsonUnmarshal r = Except.ok (recordOf r))
    (hanswer : ∀ h arn, iam.respond (h ++ [arn]) = (isUser arn, none)) :
    filterLoop jsonMarshal jsonUnmarshal records iam filtered
      = (({ Records := filtered.Records ++ records.filter (fun r =>
              decide ((recordOf r).UserIdentity.Type_ = UserIdentityTypeIAM)
                && isUser (recordOf r).UserIdentity.ARN) }, none),
          { iam with
            calls := iam.calls ++
              List.map
                (fun r => ⟨(recordOf r).UserIdentity.ARN,
                  isUser (recordOf r).UserIdentity.ARN, none⟩)
                (records.filter (fun r =>
                  decide ((recordOf r).UserIdentity.Type_ = UserIdentityTypeIAM))) }) := by
  induction records generalizing iam filtered with
  | nil => simp [filterLoop]
  | cons r rest ih =>
    have hrest : ∀ r ∈ rest,
        roundTrip jsonMarshal jsonUnmarshal r = Except.ok (recordOf r) :=
      fun x hx => hdecode x (List.mem_cons_of_mem _ hx)
    rw [filterLoop_cons_decoded jsonMarshal jsonUnmarshal r rest iam filtered (recordOf r)
      (hdecode r (List.mem_cons_self _ _))]
    by_cases ht : (recordOf r).UserIdentity.Type_ = UserIdentityTypeIAM
    · simp only [ht, ne_eq, not_true_eq_false, if_false]
      rw [hanswer]
      dsimp only
      cases hu : isUser (recordOf r).UserIdentity.ARN with
      | true =>
        simp only [if_true]
        rw [ih { iam with
            calls := iam.calls ++ [⟨(recordOf r).UserIdentity.ARN, true, none⟩] } _ hrest
          hanswer]
        simp [List.filter, ht, hu]
      | false =>
        simp only [Bool.false_eq_true, if_false]
        rw [ih { iam with
            calls := iam.calls ++ [⟨(recordOf r).UserIdentity.ARN, false, none⟩] } _ hrest
          hanswer]
        simp [List.filter, ht, hu]
    · simp only [ht, ne_eq, not_false_eq_true, if_true]
      rw [ih _ _ hrest hanswer]
      simp [List.filter, ht]

/-- What the loop does for any records and any implementation of `IAM`, as seen
from outside: the calls `new` it makes and the records `kept` it appends. -/
theorem filterLoop_trace {α β : Type} (jsonMarshal : α → Except Error β)
    (jsonUnmarshal : β → Except Error Record) (records : List α) (iam : IAM)
    (filtered : LogFile α) :
    ∃ (new : List IsUserCall) (kept : List α),
      (filterLoop jsonMarshal jsonUnmarshal records iam filtered).2.calls = iam.calls ++ new
        ∧ (filterLoop jsonMarshal jsonUnmarshal records iam filtered).2.respond = iam.respond
        ∧ (filterLoop jsonMarshal jsonUnmarshal records iam filtered).1.1.Records
            = filtered.Records ++ kept
        ∧ kept.Sublist records
        ∧ (∀ c ∈ new, ∃ r ∈ records, ∃ record,
            roundTrip jsonMarshal jsonUnmarshal r = Except.ok record
              ∧ record.UserIdentity.Type_ = UserIdentityTypeIAM
              ∧ record.UserIdentity.ARN = c.arn)
        ∧ (∀ c ∈ new, ∀ e, c.err = some e →
            (filterLoop jsonMarshal jsonUnmarshal records iam filtered).1.2
              = some (Error.wrap "failed to determine if ARN belongs to a platform user" e))
        ∧ ((filterLoop jsonMarshal jsonUnmarshal records iam filtered).1.2 = none ↔
            (∀ r ∈ records, ∃ record,
                roundTrip jsonMarshal jsonUnmarshal r = Except.ok record)
              ∧ ∀ c ∈ new, c.err = none)
        ∧ (∀ r ∈ kept, ∃ record,
            roundTrip jsonMarshal jsonUnmarshal r = Except.ok record
              ∧ record.UserIdentity.Type_ = UserIdentityTypeIAM
              ∧ ∃ c ∈ new, c.arn = record.UserIdentity.ARN ∧ c.ok = true ∧ c.err = none) := by
  induction records generalizing iam filtered with
  | nil =>
    refine ⟨[], [], ?_⟩
    simp [filterLoop]
  | cons r rest ih =>
    cases hrt : roundTrip jsonMarshal jsonUnmarshal r with
    | error err =>
      rw [filterLoop_cons_undecoded jsonMarshal jsonUnmarshal r rest iam filtered err hrt]
      refine ⟨[], [], ?_⟩
      simp [hrt]
    | ok record =>
      rw [filterLoop_cons_decoded jsonMarshal jsonUnmarshal r rest iam filtered record hrt]
      by_cases ht : record.UserIdentity.Type_ = UserIdentityTypeIAM
      · simp only [ht, ne_eq, not_true_eq_false, if_false]
        rcases hres : iam.respond (iam.calls.map IsUserCall.arn ++ [record.UserIdentity.ARN])
          with ⟨ok, err⟩
        cases err with
        | some e =>
          dsimp only
          refine ⟨[⟨record.UserIdentity.ARN, ok, some e⟩], [], ?_⟩
          simp
          exact Or.inl ⟨record, hrt, ht, rfl⟩
        | none =>
          dsimp only
          have hfirst : ∃ r' ∈ r :: rest, ∃ record',
              roundTrip jsonMarshal jsonUnmarshal r' = Except.ok record'
                ∧ record'.UserIdentity.Type_ = UserIdentityTypeIAM
                ∧ record'.UserIdentity.ARN
                  = (⟨record.UserIdentity.ARN, ok, none⟩ : IsUserCall).arn :=
            ⟨r, List.mem_cons_self _ _, record, hrt, ht, rfl⟩
          cases ok with
          | true =>
            simp only [if_true]
            obtain ⟨new, kept, hcalls, hresp, hrec, hsub, hcons, herr, hnone, hkept⟩ :=
              ih { iam with calls := iam.calls ++ [⟨record.UserIdentity.ARN, true, none⟩] }
                { filtered with Records := filtered.Records ++ [r] }
            refine ⟨⟨record.UserIdentity.ARN, true, none⟩ :: new, r :: kept,
              by simpa using hcalls, hresp, by simpa using hrec, hsub.cons₂ r, ?_, ?_, ?_, ?_⟩
            · intro c hc
              rcases List.mem_cons.1 hc with rfl | hc
              · exact hfirst
              · obtain ⟨r', hr', h⟩ := hcons c hc
                exact ⟨r', List.mem_cons_of_mem _ hr', h⟩
            · intro c hc e he
              rcases List.mem_cons.1 hc with rfl | hc
              · simp at he
              · exact herr c hc e he
            · rw [hnone]
              simp [hrt]
            · intro r' hr'
              rcases List.mem_cons.1 hr' with rfl | hr'
              · exact ⟨record, hrt, ht, _, List.mem_cons_self _ _, rfl, rfl, rfl⟩
              · obtain ⟨record', h1, h2, c, hc, h3⟩ := hkept r' hr'
                exact ⟨record', h1, h2, c, List.mem_cons_of_mem _ hc, h3⟩
          | false =>
            simp only [Bool.false_eq_true, if_false]
            obtain ⟨new, kept, hcalls, hresp, hrec, hsub, hcons, herr, hnone, hkept⟩ :=
              ih { iam with calls := iam.calls ++ [⟨record.UserIdentity.ARN, false, none⟩] }
                filtered
            refine ⟨⟨record.UserIdentity.ARN, false, none⟩ :: new, kept,
              by simpa using hcalls, hresp, hrec, hsub.cons r, ?_, ?_, ?_, ?_⟩
            · intro c hc
              rcases List.mem_cons.1 hc with rfl | hc
              · exact hfirst
              · obtain ⟨r', hr', h⟩ := hcons c hc
                exact ⟨r', List.mem_cons_of_mem _ hr', h⟩
            · intro c hc e he
              rcases List.mem_cons.1 hc with rfl | hc
              · simp at he
              · exact herr c hc e he
            · rw [hnone]
              simp [hrt]
            · intro r' hr'
              obtain ⟨record', h1, h2, c, hc, h3⟩ := hkept r' hr'
              exact ⟨record', h1, h2, c, List.mem_cons_of_mem _ hc, h3⟩
      · simp only [ht, ne_eq, not_false_eq_true, if_true]
        obtain ⟨new, kept, hcalls, hresp, hrec, hsub, hcons, herr, hnone, hkept⟩ :=
          ih iam filtered
        refine ⟨new, kept, hcalls, hresp, hrec, hsub.cons r, ?_, herr, ?_, hkept⟩
        · intro c hc
          obtain ⟨r', hr', h⟩ := hcons c hc
          exact ⟨r', List.mem_cons_of_mem _ hr', h⟩
        · rw [hnone]
          simp [hrt]

/-- Claim C22, as the code has it. `filterRecords` passes every record through
`json.Marshal` and `json.Unmarshal` first and returns the error of either, so the
claim holds for the files whose records all decode: when every record `r` of
the file decodes to `recordOf r`, and `IsUser` never fails and answers `isUser`
of the ARN it is given, `filterRecords` returns without error the file of the
records whose identity type is `IAMUser` and whose ARN `isUser` accepts, each as
it was and in the order of the input, and it calls `IsUser` once for every
record of an IAM user, in their order, and for no other record. For every file
and every implementation of `IAM`: the records returned are a subsequence of the
input; each of them decodes to a record of an IAM user for whose ARN a call of
`IsUser` returned true without error; every call of `IsUser` is made with the ARN
of an input record of identity type `IAMUser`; an error of `IsUser` is returned
wrapped; and `filterRecords` returns without error exactly when every record
decodes and no call of `IsUser` returned an error. -/
theorem filterRecords_keeps_platform_users {α β : Type}
    (jsonMarshal : α → Except Error β) (jsonUnmarshal : β → Except Error Record)
    (recordOf : α → Record) (isUser : GoString → Bool) (iam : IAM) (original : LogFile α)
    (hdecode : ∀ r ∈ original.Records,
      roundTrip jsonMarshal jsonUnmarshal r = Except.ok (recordOf r))
    (hanswer : ∀ h arn, iam.respond (h ++ [arn]) = (isUser arn, none)) :
    (filterRecords jsonMarshal jsonUnmarshal iam original).1
        = ({ Records := original.Records.filter (fun r =>
              decide ((recordOf r).UserIdentity.Type_ = UserIdentityTypeIAM)
                && isUser (recordOf r).UserIdentity.ARN) }, none)
      ∧ consulted iam (filterRecords jsonMarshal jsonUnmarshal iam original).2
        = List.map
            (fun r => ⟨(recordOf r).UserIdentity.ARN,
              isUser (recordOf r).UserIdentity.ARN, none⟩)
            (original.Records.filter (fun r =>
              decide ((recordOf r).UserIdentity.Type_ = UserIdentityTypeIAM)))
      ∧ ∀ (other : IAM) (file : LogFile α),
          (filterRecords jsonMarshal jsonUnmarshal other file).1.1.Records.Sublist file.Records
          ∧ (∀ r ∈ (filterRecords jsonMarshal jsonUnmarshal other file).1.1.Records,
              ∃ record, roundTrip jsonMarshal jsonUnmarshal r = Except.ok record
                ∧ record.UserIdentity.Type_ = UserIdentityTypeIAM
                ∧ ∃ c ∈ consulted other (filterRecords jsonMarshal jsonUnmarshal other file).2,
                    c.arn = record.UserIdentity.ARN ∧ c.ok = true ∧ c.err = none)
          ∧ (∀ c ∈ consulted other (filterRecords jsonMarshal jsonUnmarshal other file).2,
              ∃ r ∈ file.Records, ∃ record,
                roundTrip jsonMarshal jsonUnmarshal r = Except.ok record
                  ∧ record.UserIdentity.Type_ = UserIdentityTypeIAM
                  ∧ record.UserIdentity.ARN = c.arn)
          ∧ (∀ c ∈ consulted other (filterRecords jsonMarshal jsonUnmarshal other file).2,
              ∀ e, c.err = some e →
                (filterRecords jsonMarshal jsonUnmarshal other file).1.2
                  = some (Error.wrap "failed to determine if ARN belongs to a platform user" e))
          ∧ ((filterRecords jsonMarshal jsonUnmarshal other file).1.2 = none ↔
              (∀ r ∈ file.Records, ∃ record,
                  roundTrip jsonMarshal jsonUnmarshal r = Except.ok record)
                ∧ ∀ c ∈ consulted other (filterRecords jsonMarshal jsonUnmarshal other file).2,
                    c.err = none) := by
  refine ⟨?_, ?_, ?_⟩
  · unfold filterRecords
    rw [filterLoop_of_answers jsonMarshal jsonUnmarshal recordOf isUser original.Records iam
      { Records := [] } hdecode hanswer]
    simp
  · unfold filterRecords
    rw [filterLoop_of_answers jsonMarshal jsonUnmarshal recordOf isUser original.Records iam
      { Records := [] } hdecode hanswer]
    simp [consulted]
  · intro other file
    obtain ⟨new, kept, hcalls, _, hrec, hsub, hcons, herr, hnone, hkept⟩ :=
      filterLoop_trace jsonMarshal jsonUnmarshal file.Records other { Records := [] }
    have hnew : consulted other (filterRecords jsonMarshal jsonUnmarshal other file).2 = new := by
      unfold consulted filterRecords
      rw [hcalls]
      simp
    have hrecords : (filterRecords jsonMarshal jsonUnmarshal other file).1.1.Records = kept := by
      unfold filterRecords
      rw [hrec]
      simp
    rw [hnew, hrecords]
    exact ⟨hsub, hkept, hcons, herr, hnone⟩

/-- Claim C22 at a log file of four records, of which the two of `alice` are
kept: `IsUser` is asked about `alice`, `mallory` and `alice` again, and not about
the assumed role. The same file with an implementation of `IAM` that fails gives
the wrapped error of the first call and no record. -/
theorem filterRecords_keeps_platform_users_witness :
    ((filterRecords marshalValue unmarshalRecord exampleIAM exampleLogFile).1
        = ({ Records := exampleLogFile.Records.filter (fun r =>
              decide ((exampleRecordOf r).UserIdentity.Type_ = UserIdentityTypeIAM)
                && exampleIsUser (exampleRecordOf r).UserIdentity.ARN) }, none)
      ∧ consulted exampleIAM (filterRecords marshalValue unmarshalRecord exampleIAM exampleLogFile).2
        = List.map
            (fun r => ⟨(exampleRecordOf r).UserIdentity.ARN,
              exampleIsUser (exampleRecordOf r).UserIdentity.ARN, none⟩)
            (exampleLogFile.Records.filter (fun r =>
              decide ((exampleRecordOf r).UserIdentity.Type_ = UserIdentityTypeIAM))))
    ∧ (filterRecords marshalValue unmarshalRecord exampleIAM exampleLogFile).1
        = ({ Records :=
              [ exampleRecord "CreateBucket" "IAMUser" "arn:aws:iam::123456789012:user/alice",
                exampleRecord "PutObject" "IAMUser" "arn:aws:iam::123456789012:user/alice" ] },
            none)
    ∧ consulted exampleIAM (filterRecords marshalValue unmarshalRecord exampleIAM exampleLogFile).2
        = [ ⟨"arn:aws:iam::123456789012:user/alice".toList, true, none⟩,
            ⟨"arn:aws:iam::123456789012:user/mallory".toList, false, none⟩,
            ⟨"arn:aws:iam::123456789012:user/alice".toList, true, none⟩ ]
    ∧ (filterRecords marshalValue unmarshalRecord failingIAM exampleLogFile).1
        = ({ Records := [] },
            some (Error.wrap "failed to determine if ARN belongs to a platform user"
              (Error.other "AccessDenied"))) :=
  ⟨⟨(filterRecords_keeps_platform_users marshalValue unmarshalRecord exampleRecordOf
        exampleIsUser exampleIAM exampleLogFile
        (by
          intro r hr
          simp only [exampleLogFile, List.mem_cons, List.mem_singleton, List.not_mem_nil,
            or_false] at hr
          rcases hr with rfl | rfl | rfl | rfl <;> rfl)
        (by
          intro h arn
          simp [exampleIAM])).1,
      (filterRecords_keeps_platform_users marshalValue unmarshalRecord exampleRecordOf
        exampleIsUser exampleIAM exampleLogFile
        (by
          intro r hr
          simp only [exampleLogFile, List.mem_cons, List.mem_singleton, List.not_mem_nil,
            or_false] at hr
          rcases hr with rfl | rfl | rfl | rfl <;> rfl)
        (by
          intro h arn
          simp [exampleIAM])).2.1⟩,
    by rfl, by decide, by rfl⟩

/-- Claim C22 as stated fails: it promises a result without error for every log
file, but a record that `json.Unmarshal` cannot store in a `cloudtrail.Record`, such
as one whose `userIdentity` is a string or one that is a number, makes
`filterRecords` return the error of the library, although `IsUser` never fails. -/
theorem filterRecords_keeps_platform_users_counterexample :
    (∀ h, (exampleIAM.respond h).2 = none)
      ∧ (filterRecords marshalValue unmarshalRecord exampleIAM malformedLogFile).1
          = ({ Records := [] }, some unmarshalTypeError)
      ∧ (filterRecords marshalValue unmarshalRecord exampleIAM
            { Records := [JSONValue.number "42".toList] }).1
          = ({ Records := [] }, some unmarshalTypeError)
      ∧ ¬ (filterRecords marshalValue unmarshalRecord exampleIAM malformedLogFile).1.2 = none :=
  ⟨fun _ => rfl, by rfl, by rfl, by decide⟩

/-! ## The mutex -/

/-- Claim C18, where the code falls short of it. `Add` takes the mutex first and
releases it when its body returns: on a free mutex it does what its body does
and its operations on the mutex are `Lock` and, once the body has returned,
`Unlock`, which leaves the mutex free; on a held mutex it waits and changes
nothing. `Flush` carries out no operation on the mutex: it leaves it as it was
and does what its body does whether the mutex is held or not, so with a batch
that is not empty and a budget of at least one request it sends to the sink
while another caller holds the mutex. -/
theorem Add_locks_Flush_does_not (sortSlice : SliceSorter) (fuel : Nat) (s : LockedPusher)
    (event : InputLogEvent) :
    (s.lock.locked = false →
        (s.Add sortSlice fuel event).1 = (s.pusher.Add sortSlice fuel event).1
          ∧ (s.Add sortSlice fuel event).2.pusher = (s.pusher.Add sortSlice fuel event).2
          ∧ (s.Add sortSlice fuel event).2.lock.ops
              = s.lock.ops ++
                  (if (s.pusher.Add sortSlice fuel event).1 = Outcome.running then [LockOp.Lock]
                   else [LockOp.Lock, LockOp.Unlock])
          ∧ (s.Add sortSlice fuel event).2.lock.locked
              = decide ((s.pusher.Add sortSlice fuel event).1 = Outcome.running))
      ∧ (s.lock.locked = true → s.Add sortSlice fuel event = (Outcome.running, s))
      ∧ (s.Flush sortSlice fuel).2.lock = s.lock
      ∧ (s.Flush sortSlice fuel).1 = (s.pusher.Flush sortSlice fuel).1
      ∧ (s.Flush sortSlice fuel).2.pusher = (s.pusher.Flush sortSlice fuel).2
      ∧ (s.lock.locked = true → s.pusher.input.LogEvents ≠ [] → 1 ≤ fuel →
          issuedCalls s.pusher (s.Flush sortSlice fuel).2.pusher ≠ []) := by
  refine ⟨?_, ?_, rfl, rfl, rfl, ?_⟩
  · intro hfree
    simp only [LockedPusher.Add, Mutex.Lock, hfree, Bool.false_eq_true, if_false]
    rcases hadd : s.pusher.Add sortSlice fuel event with ⟨o, p⟩
    cases o with
    | running => simp [Mutex.Unlock]
    | returned err => simp [Mutex.Unlock]
  · intro hheld
    simp [LockedPusher.Add, Mutex.Lock, hheld]
  · intro _ hne hfuel
    obtain ⟨new, hrun, _, hnew⟩ := Flush_run sortSlice fuel s.pusher
    have : (s.Flush sortSlice fuel).2.pusher = (s.pusher.Flush sortSlice fuel).2 := rfl
    rw [this, issuedCalls_eq hrun.calls]
    exact hnew hne hfuel

/-- Claim C18 at the pusher of the examples. With the mutex free, `Add` locks
and unlocks it. With the mutex held by another caller, `Add` waits, but `Flush`
returns `nil` after sending the three events to the sink and emptying the batch,
and the mutex still shows the one `Lock` of the other caller. -/
theorem Add_locks_Flush_does_not_witness :
    ((freePusher.Add insertionSort 1 exampleThird).2.lock.ops
        = [] ++ (if ((freePusher.pusher).Add insertionSort 1 exampleThird).1 = Outcome.running
            then [LockOp.Lock] else [LockOp.Lock, LockOp.Unlock])
      ∧ heldPusher.Add insertionSort 1 exampleThird = (Outcome.running, heldPusher)
      ∧ (heldPusher.Flush insertionSort 1).2.lock = heldPusher.lock
      ∧ issuedCalls heldPusher.pusher (heldPusher.Flush insertionSort 1).2.pusher ≠ [])
    ∧ (freePusher.Add insertionSort 1 exampleThird).2.lock
        = { locked := false, ops := [LockOp.Lock, LockOp.Unlock] }
    ∧ (heldPusher.Flush insertionSort 1).1 = Outcome.returned none
    ∧ (heldPusher.Flush insertionSort 1).2.lock = { locked := true, ops := [LockOp.Lock] }
    ∧ (issuedCalls heldPusher.pusher (heldPusher.Flush insertionSort 1).2.pusher).map
        (fun c => c.input.LogEvents.length) = [3]
    ∧ (heldPusher.Flush insertionSort 1).2.pusher.input.LogEvents = [] :=
  ⟨⟨((Add_locks_Flush_does_not insertionSort 1 freePusher exampleThird).1 (by decide)).2.2.1,
      (Add_locks_Flush_does_not insertionSort 1 heldPusher exampleThird).2.1 (by decide),
      (Add_locks_Flush_does_not insertionSort 1 heldPusher exampleThird).2.2.1,
      (Add_locks_Flush_does_not insertionSort 1 heldPusher exampleThird).2.2.2.2.2
        (by decide) (by decide) (by decide)⟩,
    by decide, by decide, by decide, by decide, by decide⟩

end Pipeline
